import Mathlib

/-! # Task tracker: cursor cache, circuit breaker, rate limiter

A shallow embedding of the resilience code of the task tracker:

* `internal/repository/redis.go` (`CacheTasks`, `ListTasksFromCache`), run against a model of the
  Redis commands it issues (`SET`, `ZADD`, `EXPIRE`, `ZRANK`, `ZRANGE`, `MGET`);
* `internal/utils/circuit_breaker_http_client.go` (`RoundTrip`), as a sequential state machine;
* `internal/utils/rate_limiting_middleware_handler.go` (`Handle`), over a model of the token
  bucket of `golang.org/x/time/rate`.

Instants are integers, in nanoseconds since the zero `time.Time`; durations are integers, in
nanoseconds. Go `int` results are wrapped to 64 bits where one call can overflow them.
-/

namespace TaskTracker

/-! ## Machine integers and decimal strings -/

/-- Two's complement wrap-around of a Go `int64` result. -/
def wrap64 (x : Int) : Int := (x + 2 ^ 63) % 2 ^ 64 - 2 ^ 63

/-- The largest `int64`. -/
def maxInt64 : Int := 2 ^ 63 - 1

/-- The smallest `int64`. -/
def minInt64 : Int := -(2 ^ 63)

/-- Go `strconv.Itoa`: the decimal text of an integer, with a leading minus sign when negative. -/
def Itoa (i : Int) : String :=
  if i < 0 then "-" ++ Nat.repr i.natAbs else Nat.repr i.natAbs

/-- Number of binary digits of a natural number, by halving at most `fuel` times. -/
def bitLen : Nat → Nat → Nat
  | 0, _ => 0
  | fuel + 1, n => if n = 0 then 0 else bitLen fuel (n / 2) + 1

/-- Rounding of a natural number to a 53-bit significand, ties to even: the value of the
`float64` nearest to `a` (exact for every `a` of at most 64 bits). -/
def roundTo53 (a : Nat) : Nat :=
  let shift := bitLen 64 a - 53
  if shift = 0 then a
  else
    let q := a / 2 ^ shift
    let r := a % 2 ^ shift
    let half := 2 ^ (shift - 1)
    let q1 := if half < r ∨ (r = half ∧ q % 2 = 1) then q + 1 else q
    q1 * 2 ^ shift

/-- Go conversion `float64(n)` of an `int`: the exact value of the resulting double, which is an
integer. Scores of the ordered index are represented by these exact values, so comparing two
scores is comparing two integers. -/
def float64 (n : Int) : Int :=
  if n < 0 then -(roundTo53 n.natAbs : Int) else (roundTo53 n.natAbs : Int)

/-! ## task.Model and its serialisation -/

/-- Go `task.Model`. `CreatedAt` is the instant of the `time.Time` in nanoseconds. -/
structure Model where
  Id : Int
  Status : String
  Title : String
  Description : String
  CreatorId : Int
  CreatedAt : Int
  AssigneeId : Int
  TeamId : Int
deriving DecidableEq, Repr

/-- The library functions `json.Marshal` and `json.Unmarshal` at type `task.Model`.
`Unmarshal` is `none` when `json.Unmarshal` returns an error. -/
structure Codec where
  Marshal : Model → Except String String
  Unmarshal : String → Option Model

/-- Two tasks agree on `Id`, `Status`, `Title`, `Description`, `CreatorId`, `AssigneeId` and
`TeamId` (every field except `CreatedAt`). -/
def SameFields (a b : Model) : Prop :=
  a.Id = b.Id ∧ a.Status = b.Status ∧ a.Title = b.Title ∧ a.Description = b.Description ∧
    a.CreatorId = b.CreatorId ∧ a.AssigneeId = b.AssigneeId ∧ a.TeamId = b.TeamId

instance (a b : Model) : Decidable (SameFields a b) := by
  unfold SameFields; infer_instance

/-- Serialising `t` succeeds and reading the bytes back gives a task with the same fields. -/
def RoundTrips (js : Codec) (t : Model) : Bool :=
  match js.Marshal t with
  | .ok b =>
    match js.Unmarshal b with
    | some t1 => decide (SameFields t t1)
    | none => false
  | .error _ => false

/-- Lexicographic order of two character sequences by code point, which is the byte order of
their UTF-8 encodings (Redis compares members with `memcmp`). -/
def lexLt : List Char → List Char → Bool
  | [], [] => false
  | [], _ :: _ => true
  | _ :: _, [] => false
  | a :: as, b :: bs => a.toNat < b.toNat || (a.toNat == b.toNat && lexLt as bs)

/-! ### A reference codec

`plainJSON` writes a task as the JSON object of `encoding/json` (fields in declaration order, no
white space) and reads that form back. It covers the tasks whose strings need no escaping, with
the instant `CreatedAt` written as a number; it is used to evaluate the code on concrete tasks. -/

/-- A character that `encoding/json` writes unescaped inside a string. -/
def plainChar (c : Char) : Bool :=
  decide (32 ≤ c.toNat) && decide (c.toNat < 127) &&
    !(c == '"' || c == '\\' || c == '<' || c == '>' || c == '&')

/-- The JSON text of a task, when its strings need no escaping. -/
def plainMarshal (t : Model) : Except String String :=
  if (t.Status.data ++ t.Title.data ++ t.Description.data).all plainChar then
    .ok ("\x7b\"Id\":" ++ Itoa t.Id ++ ",\"Status\":\"" ++ t.Status ++ "\",\"Title\":\"" ++ t.Title
      ++ "\",\"Description\":\"" ++ t.Description ++ "\",\"CreatorId\":" ++ Itoa t.CreatorId
      ++ ",\"CreatedAt\":" ++ Itoa t.CreatedAt ++ ",\"AssigneeId\":" ++ Itoa t.AssigneeId
      ++ ",\"TeamId\":" ++ Itoa t.TeamId ++ "\x7d")
  else .error "json: unsupported value"

/-- Removal of an expected prefix. -/
def expectChars : List Char → List Char → Option (List Char)
  | [], s => some s
  | _ :: _, [] => none
  | p :: ps, c :: cs => if p = c then expectChars ps cs else none

/-- The leading decimal digits of the input as a number, `seen` telling whether a digit was
read. -/
def readDigits (acc : Nat) (seen : Bool) : List Char → Option (Nat × List Char)
  | [] => if seen then some (acc, []) else none
  | c :: cs =>
    if c.isDigit then readDigits (acc * 10 + (c.toNat - 48)) true cs
    else if seen then some (acc, c :: cs) else none

/-- A JSON integer at the head of the input. -/
def readInt : List Char → Option (Int × List Char)
  | '-' :: cs => (readDigits 0 false cs).map (fun p => (-(p.1 : Int), p.2))
  | cs => (readDigits 0 false cs).map (fun p => ((p.1 : Int), p.2))

/-- The characters of a JSON string up to its closing quote; escapes are not read. -/
def readChars (acc : List Char) : List Char → Option (String × List Char)
  | [] => none
  | c :: cs =>
    if c = '"' then some (String.mk acc.reverse, cs)
    else if c = '\\' then none
    else readChars (c :: acc) cs

/-- A quoted JSON string at the head of the input. -/
def readString : List Char → Option (String × List Char)
  | '"' :: cs => readChars [] cs
  | _ => none

/-- An integer field: the expected field name, then the number. -/
def readIntField (name : String) (s : List Char) : Option (Int × List Char) :=
  (expectChars name.data s).bind readInt

/-- A string field: the expected field name, then the quoted string. -/
def readStringField (name : String) (s : List Char) : Option (String × List Char) :=
  (expectChars name.data s).bind readString

/-- Reading of the JSON object written by `plainMarshal`. -/
def plainUnmarshal (b : String) : Option Model :=
  (readIntField "\x7b\"Id\":" b.data).bind fun id =>
  (readStringField ",\"Status\":" id.2).bind fun status =>
  (readStringField ",\"Title\":" status.2).bind fun title =>
  (readStringField ",\"Description\":" title.2).bind fun description =>
  (readIntField ",\"CreatorId\":" description.2).bind fun creatorId =>
  (readIntField ",\"CreatedAt\":" creatorId.2).bind fun createdAt =>
  (readIntField ",\"AssigneeId\":" createdAt.2).bind fun assigneeId =>
  (readIntField ",\"TeamId\":" assigneeId.2).bind fun teamId =>
  if teamId.2 = ['\x7d'] then
    some ⟨id.1, status.1, title.1, description.1, creatorId.1, createdAt.1, assigneeId.1,
      teamId.1⟩
  else none

/-- The reference codec. -/
def plainJSON : Codec := ⟨plainMarshal, plainUnmarshal⟩

/-! ## The Redis store behind the go-redis client -/

/-- Go `goredis.Z`: a member of an ordered index with its score (the exact value of the
`float64`). -/
structure Z where
  Score : Int
  Member : String
deriving DecidableEq, Repr

/-- Order of an ordered index: by score, and by member bytes among equal scores. -/
def zless (a b : Z) : Bool :=
  decide (a.Score < b.Score) || (decide (a.Score = b.Score) && lexLt a.Member.data b.Member.data)

/-- Insertion of an element at its place in an ordered index. -/
def zinsert (x : Z) : List Z → List Z
  | [] => [x]
  | y :: ys => if zless x y then x :: y :: ys else y :: zinsert x ys

/-- `ZADD` of one element: a member already present is moved to its new score. -/
def zaddOne (z : List Z) (x : Z) : List Z :=
  zinsert x (z.filter (fun y => decide (y.Member ≠ x.Member)))

/-- `ZADD` of several elements, in argument order. -/
def zadd (z : List Z) (xs : List Z) : List Z := xs.foldl zaddOne z

/-- What a Redis key holds: a string value or an ordered index (members in index order). -/
inductive Value
  | str (s : String)
  | zset (z : List Z)
deriving DecidableEq, Repr

/-- A stored key: its value and its remaining time to live (`none`: no expiry). -/
structure Entry where
  val : Value
  ttl : Option Int
deriving DecidableEq, Repr

/-- The keyspace of the Redis store. -/
abbrev Store := String → Option Entry

/-- The empty keyspace. -/
def Store.empty : Store := fun _ => none

/-- The keyspace with key `key` rebound (`none` deletes it). -/
def Store.put (s : Store) (key : String) (e : Option Entry) : Store :=
  fun k => if k = key then e else s k

/-- A write command queued on a go-redis pipeline, with the arguments of the Go call. Durations
are in nanoseconds. -/
inductive Cmd
  | Set (key : String) (val : String) (expiration : Int)
  | ZAdd (key : String) (members : List Z)
  | Expire (key : String) (expiration : Int)
deriving DecidableEq, Repr

/-- Effect and reply of one write command. `Set` stores the value with a time to live when the
expiration is positive (go-redis sends no expiry otherwise, and `KEEPTTL` for `-1`); `ZAdd`
upserts into the index, failing on a key that holds a string; `Expire` sets the time to live of
an existing key and deletes the key when the expiration is not positive. -/
def applyCmd (s : Store) : Cmd → Store × Option String
  | .Set key val expiration =>
    let ttl : Option Int :=
      if 0 < expiration then some expiration
      else if expiration = -1 then (s key).bind (fun e => e.ttl)
      else none
    (s.put key (some ⟨.str val, ttl⟩), none)
  | .ZAdd key members =>
    match members with
    | [] => (s, some "ERR wrong number of arguments for zadd command")
    | _ :: _ =>
      match s key with
      | none => (s.put key (some ⟨.zset (zadd [] members), none⟩), none)
      | some ⟨.zset z, ttl⟩ => (s.put key (some ⟨.zset (zadd z members), ttl⟩), none)
      | some ⟨.str _, _⟩ =>
        (s, some "WRONGTYPE Operation against a key holding the wrong kind of value")
  | .Expire key expiration =>
    match s key with
    | none => (s, none)
    | some e =>
      if expiration ≤ 0 then (s.put key none, none)
      else (s.put key (some ⟨e.val, some expiration⟩), none)

/-- Go `pipe.Exec`: the queued commands run in order; the error is that of the first command
that failed. -/
def execPipeline (s : Store) : List Cmd → Store × Option String
  | [] => (s, none)
  | c :: cs =>
    let r := applyCmd s c
    let rest := execPipeline r.1 cs
    (rest.1, match r.2 with
      | some e => some e
      | none => rest.2)

/-- Reply of `ZRANK`: a rank, the `goredis.Nil` reply, or another error. -/
inductive RankReply
  | rank (r : Int)
  | Nil
  | err (e : String)
deriving DecidableEq, Repr

/-- One element of the reply of `MGET` as go-redis hands it over (a Go `any`): nil for an
absent key, a string, or a value of another dynamic type. -/
inductive MGetVal
  | nil
  | str (s : String)
  | bytes (b : String)
  | other
deriving DecidableEq, Repr

/-- The read commands of the go-redis client used by the cache. -/
structure Client where
  ZRank : String → String → RankReply
  ZRange : String → Int → Int → Except String (List String)
  MGet : List String → Except String (List MGetVal)

/-- Position of a member in an index. -/
def zrankOf (member : String) : List Z → Option Nat
  | [] => none
  | y :: ys => if y.Member = member then some 0 else (zrankOf member ys).map (· + 1)

/-- Redis `ZRANGE key start stop` by rank on an index: negative ranks count from the end, the
range is clamped to the index, and an empty range gives no member. -/
def zrangeOf (z : List Z) (start stop : Int) : List String :=
  let llen : Int := z.length
  let start1 := if start < 0 then llen + start else start
  let stop1 := if stop < 0 then llen + stop else stop
  let start2 := if start1 < 0 then 0 else start1
  if stop1 < start2 ∨ llen ≤ start2 then []
  else
    let stop2 := if llen ≤ stop1 then llen - 1 else stop1
    ((z.drop start2.toNat).take (stop2 - start2 + 1).toNat).map (fun y => y.Member)

/-- Redis `MGET` for one key: the string held by the key, nil for any other key. -/
def mgetOne (s : Store) (key : String) : MGetVal :=
  match s key with
  | some ⟨.str v, _⟩ => .str v
  | _ => .nil

/-- The go-redis client connected to a reachable store in state `s`. -/
def redisClient (s : Store) : Client where
  ZRank := fun key member =>
    match s key with
    | none => .Nil
    | some ⟨.zset z, _⟩ =>
      match zrankOf member z with
      | some r => .rank r
      | none => .Nil
    | some ⟨.str _, _⟩ => .err "WRONGTYPE Operation against a key holding the wrong kind of value"
  ZRange := fun key start stop =>
    match s key with
    | none => .ok []
    | some ⟨.zset z, _⟩ => .ok (zrangeOf z start stop)
    | some ⟨.str _, _⟩ =>
      .error "WRONGTYPE Operation against a key holding the wrong kind of value"
  MGet := fun keys => .ok (keys.map (mgetOne s))

/-! ## internal/repository/redis.go -/

/-- Go `taskKey`. -/
def taskKey (id : Int) : String := "task:" ++ Itoa id

/-- Go `taskKeyFromStr`. -/
def taskKeyFromStr (idStr : String) : String := "task:" ++ idStr

/-- Go `teamTasksKey`. -/
def teamTasksKey (teamId : Int) : String := "team_tasks:" ++ Itoa teamId

/-- Go `redis`: the repository with its configured time to live (the client is passed to each
operation as the store it is connected to). -/
structure redis where
  js : Codec
  ttl : Int

/-- The first loop of `CacheTasks`: the record writes `kvs` and the index members `zs`, or the
error of the first `json.Marshal` that fails. -/
def cacheEntries (js : Codec) : List Model → Except String (List (String × String) × List Z)
  | [] => .ok ([], [])
  | t :: ts =>
    match js.Marshal t with
    | .error e => .error e
    | .ok jsonData =>
      match cacheEntries js ts with
      | .error e => .error e
      | .ok (kvs, zs) => .ok ((taskKey t.Id, jsonData) :: kvs, ⟨float64 t.Id, Itoa t.Id⟩ :: zs)

/-- The pipeline queued by `CacheTasks`: one `Set` per record, one `ZAdd` of all members, one
`Expire` of the index. -/
def cacheBatch (ttl : Int) (zKey : String) (kvs : List (String × String)) (zs : List Z) :
    List Cmd :=
  kvs.map (fun pair => Cmd.Set pair.1 pair.2 ttl) ++ [Cmd.ZAdd zKey zs, Cmd.Expire zKey ttl]

/-- A batch of commands submitted with `Exec`: `tx` tells whether it was queued on a
`TxPipeline` (sent between `MULTI` and `EXEC`) or on a plain `Pipeline`. -/
structure Batch where
  tx : Bool
  cmds : List Cmd
deriving DecidableEq, Repr

/-- Result of a cache write: the store afterwards, the batches submitted to it, the error
returned. -/
structure WriteResult where
  store : Store
  submitted : List Batch
  err : Option String

/-- Go `(*redis).CacheTasks`. -/
def CacheTasks (r : redis) (s : Store) (teamId : Int) (tasks : List Model) : WriteResult :=
  if tasks.length = 0 then ⟨s, [], none⟩
  else
    let zKey := teamTasksKey teamId
    match cacheEntries r.js tasks with
    | .error e => ⟨s, [], some e⟩
    | .ok (kvs, zs) =>
      let batch := cacheBatch r.ttl zKey kvs zs
      let out := execPipeline s batch
      ⟨out.1, [⟨false, batch⟩], out.2⟩

/-- Go `(*redis).UpdateTaskInCache`. -/
def UpdateTaskInCache (r : redis) (s : Store) (t : Model) : WriteResult :=
  match r.js.Marshal t with
  | .error e => ⟨s, [], some e⟩
  | .ok jsonData =>
    let zKey := teamTasksKey t.TeamId
    let batch := [Cmd.Set (taskKey t.Id) jsonData r.ttl,
      Cmd.ZAdd zKey [⟨float64 t.Id, Itoa t.Id⟩], Cmd.Expire zKey r.ttl]
    let out := execPipeline s batch
    ⟨out.1, [⟨true, batch⟩], out.2⟩

/-- A read issued to the client by `ListTasksFromCache`. -/
inductive ClientCall
  | ZRank (key member : String)
  | ZRange (key : String) (start stop : Int)
  | MGet (keys : List String)
deriving DecidableEq, Repr

/-- Result of `ListTasksFromCache`: the three Go results (`tasks = none` is the nil slice) and
the reads issued to the client, in order. -/
structure ListResult where
  tasks : Option (List Model)
  hit : Bool
  err : Option String
  calls : List ClientCall

/-- The decoding loop of `ListTasksFromCache` (lines 127-150): `none` when the loop returns a
miss, at a nil element, an element of another dynamic type or bytes that do not decode. -/
def decodeAll (js : Codec) : List MGetVal → Option (List Model)
  | [] => some []
  | v :: vs =>
    let b : Option String :=
      match v with
      | .nil => none
      | .str vv => some vv
      | .bytes vv => some vv
      | .other => none
    match b with
    | none => none
    | some b =>
      match js.Unmarshal b with
      | none => none
      | some t => (decodeAll js vs).map (fun rest => t :: rest)

/-- Lines 101-152 of `ListTasksFromCache`: the range read from rank `start`, the batch read of the
records and their decoding. `calls` are the reads issued before. -/
def listFromRank (c : Client) (js : Codec) (zKey : String) (start limit : Int)
    (calls : List ClientCall) : ListResult :=
  let stop := wrap64 (wrap64 (start + limit) - 1)
  let calls1 := calls ++ [ClientCall.ZRange zKey start stop]
  match c.ZRange zKey start stop with
  | .error e => ⟨none, false, some e, calls1⟩
  | .ok idStrs =>
    if idStrs.length = 0 then ⟨none, false, none, calls1⟩
    else
      let keys := idStrs.map taskKeyFromStr
      let calls2 := calls1 ++ [ClientCall.MGet keys]
      match c.MGet keys with
      | .error e => ⟨none, false, some e, calls2⟩
      | .ok mgetRes =>
        match decodeAll js mgetRes with
        | none => ⟨none, false, none, calls2⟩
        | some results => ⟨some results, true, none, calls2⟩

/-- Go `(*redis).ListTasksFromCache`, reading through client `c`. `limit` and the cursor are Go
`int` values; `startFromID = none` is the nil pointer. -/
def ListTasksFromCache (r : redis) (c : Client) (teamId : Int) (limit : Int)
    (startFromID : Option Int) : ListResult :=
  if limit ≤ 0 then ⟨none, false, some "invalid limit", []⟩
  else
    let zKey := teamTasksKey teamId
    match startFromID with
    | none => listFromRank c r.js zKey 0 limit []
    | some id =>
      let calls := [ClientCall.ZRank zKey (Itoa id)]
      match c.ZRank zKey (Itoa id) with
      | .err e => ⟨none, false, some e, calls⟩
      | .Nil => ⟨none, false, none, calls⟩
      | .rank rank => listFromRank c r.js zKey (wrap64 (rank + 1)) limit calls

/-! ## Definitions used in the statements and proofs -/

/-- Value of a sequence of decimal digit characters, most significant first. -/
def digitsValue (l : List Char) : Nat := l.foldl (fun acc c => acc * 10 + (c.toNat - 48)) 0

/-- The index member written for a task: score `float64(t.Id)`, member `strconv.Itoa(t.Id)`. -/
def zOf (t : Model) : Z := ⟨float64 t.Id, Itoa t.Id⟩

/-- Ids that are exactly representable as `float64`. -/
def ExactId (t : Model) : Prop := -(2 ^ 53) ≤ t.Id ∧ t.Id ≤ 2 ^ 53

/-- The bytes `json.Marshal` gives for a task (empty when it fails). -/
def encOf (js : Codec) (t : Model) : String :=
  match js.Marshal t with
  | .ok b => b
  | .error _ => ""

/-- The task read back from the bytes of `t` (`t` itself when the bytes do not decode). -/
def decOf (js : Codec) (t : Model) : Model :=
  match js.Unmarshal (encOf js t) with
  | some t1 => t1
  | none => t

/-- The store after the record writes of a batch. -/
def afterSets (ttl : Int) (s : Store) (kvs : List (String × String)) : Store :=
  kvs.foldl (fun s p => s.put p.1 (some ⟨.str p.2, some ttl⟩)) s

/-- A store in which the index of the team lists exactly `tasks`, in order, and every record key
of these tasks holds the serialised task. -/
def Populated (js : Codec) (st : Store) (teamId : Int) (tasks : List Model) : Prop :=
  (∃ ttl, st (teamTasksKey teamId) = some ⟨.zset (tasks.map zOf), ttl⟩) ∧
    ∀ t ∈ tasks, ∃ ttl, st (taskKey t.Id) = some ⟨.str (encOf js t), ttl⟩

/-- Serialising `t` succeeds and `json.Unmarshal` accepts the bytes. -/
def Decodes (js : Codec) (t : Model) : Bool :=
  match js.Marshal t with
  | .ok b => (js.Unmarshal b).isSome
  | .error _ => false

/-! ## Concrete tasks used in evaluations -/

/-- A task of team 5 with the given id and title. -/
def sampleTask (id : Int) (title : String) : Model := ⟨id, "todo", title, "", 1, 0, 2, 5⟩

/-- The repository with the reference codec and a time to live of one minute. -/
def sampleRepo : redis := ⟨plainJSON, 60000000000⟩

/-- A store holding the index of team 5 for the tasks 1, 2, 3 and the records of tasks 1 and 3
only: the record of task 2 has been evicted. -/
def evictedStore : Store :=
  (CacheTasks sampleRepo Store.empty 5
    [sampleTask 1 "a", sampleTask 2 "b", sampleTask 3 "c"]).store.put (taskKey 2) none

/-! ## internal/utils/circuit_breaker_http_client.go -/

/-- Go `time.Time.Sub`, on instants in nanoseconds since the zero `time.Time`: the difference,
saturated to the range of a `time.Duration`. -/
def timeSub (t u : Int) : Int :=
  if t - u > maxInt64 then maxInt64 else if t - u < minInt64 then minInt64 else t - u

/-- Go `time.Since(t)` when the clock reads `now`. -/
def timeSince (now t : Int) : Int := timeSub now t

/-- Go `CircuitState`. -/
inductive CircuitState
  | Closed
  | Open
  | HalfOpen
deriving DecidableEq, Repr

/-- Go `CircuitBreakerRoundTripper` (without its mutex). `lastFailure` is an instant, the zero
`time.Time` being 0; `resetTimeout` is a duration in nanoseconds. The counter is an unbounded
integer: it grows by one per call, so a Go `int` would need 2^63 counted failures to wrap. -/
structure CircuitBreakerRoundTripper where
  failures : Int
  failureThreshold : Int
  state : CircuitState
  lastFailure : Int
  resetTimeout : Int
deriving DecidableEq, Repr

/-- Go `NewCircuitBreakerRoundTripper`. -/
def NewCircuitBreakerRoundTripper (failureThreshold resetTimeout : Int) :
    CircuitBreakerRoundTripper :=
  { failures := 0, failureThreshold := failureThreshold, state := .Closed, lastFailure := 0,
    resetTimeout := resetTimeout }

/-- Go `http.Response`, reduced to its status code. -/
structure Response where
  StatusCode : Int
deriving DecidableEq, Repr

/-- What the environment supplies to one `RoundTrip`: the clock read by `time.Since` at the
state check, the pair `(resp, err)` that `http.DefaultTransport.RoundTrip` returns if it is
invoked, and the clock read by `time.Now` when a failure is recorded. -/
structure Attempt where
  checkedAt : Int
  resp : Option Response
  err : Option String
  recordedAt : Int
deriving DecidableEq, Repr

/-- The failure test of `RoundTrip` (line 56): `err != nil || (resp != nil && resp.StatusCode >=
400)`. -/
def isFailure (a : Attempt) : Bool :=
  a.err.isSome ||
    (match a.resp with
      | some resp => decide (400 ≤ resp.StatusCode)
      | none => false)

/-- Result of one `RoundTrip`: the breaker afterwards, the returned pair, and whether the
underlying transport was invoked. -/
structure Outcome where
  cb : CircuitBreakerRoundTripper
  resp : Option Response
  err : Option String
  invoked : Bool
deriving DecidableEq, Repr

/-- The state check of `RoundTrip` (lines 38-47): the breaker with which the call proceeds, or
`none` when the call is rejected. -/
def admitCall (cb : CircuitBreakerRoundTripper) (a : Attempt) : Option CircuitBreakerRoundTripper :=
  match cb.state with
  | .Open =>
    if timeSince a.checkedAt cb.lastFailure > cb.resetTimeout then
      some { cb with state := .HalfOpen }
    else none
  | _ => some cb

/-- The bookkeeping of `RoundTrip` after the transport returned (lines 56-70). -/
def record (cb : CircuitBreakerRoundTripper) (a : Attempt) : CircuitBreakerRoundTripper :=
  if isFailure a then
    let cb1 := { cb with failures := cb.failures + 1, lastFailure := a.recordedAt }
    if cb1.state = .HalfOpen ∨ cb1.failureThreshold ≤ cb1.failures then
      { cb1 with state := .Open }
    else cb1
  else if cb.state = .HalfOpen then { cb with state := .Closed, failures := 0 }
  else if cb.state = .Closed then { cb with failures := 0 }
  else cb

/-- Go `(*CircuitBreakerRoundTripper).RoundTrip`, one call run to completion. -/
def RoundTrip (cb : CircuitBreakerRoundTripper) (a : Attempt) : Outcome :=
  match admitCall cb a with
  | none => ⟨cb, none, some "circuit breaker is open", false⟩
  | some cb1 => ⟨record cb1 a, a.resp, a.err, true⟩

/-- The breaker after a sequence of calls made one after the other. -/
def afterCalls (cb : CircuitBreakerRoundTripper) : List Attempt → CircuitBreakerRoundTripper
  | [] => cb
  | a :: as => afterCalls (RoundTrip cb a).cb as

/-- The outcomes of a sequence of calls made one after the other. -/
def outcomes (cb : CircuitBreakerRoundTripper) : List Attempt → List Outcome
  | [] => []
  | a :: as => RoundTrip cb a :: outcomes (RoundTrip cb a).cb as

/-- Length of the longest run of consecutive failing calls, `cur` being the length of the run in
progress and `best` the longest seen so far. -/
def maxStreakFrom (cur best : Nat) : List Attempt → Nat
  | [] => best
  | a :: as =>
    if isFailure a then maxStreakFrom (cur + 1) (max best (cur + 1)) as
    else maxStreakFrom 0 best as

/-- Length of the longest streak of failures in a run of calls. -/
def longestFailureStreak (as : List Attempt) : Nat := maxStreakFrom 0 0 as

/-- A call whose transport fails with an error, at clock `t`. -/
def failedCall (t : Int) : Attempt := ⟨t, none, some "connection refused", t⟩

/-- A call answered with status 200, at clock `t`. -/
def okCall (t : Int) : Attempt := ⟨t, some ⟨200⟩, none, t⟩

/-! ## golang.org/x/time/rate -/

/-- Go `rate.Limit`: a number of events per second, or `rate.Inf`. Rates and token counts are
`float64` in Go and exact rationals here. -/
inductive Limit
  | rate (r : ℚ)
  | Inf
deriving DecidableEq

/-- Go `rate.Every`: the rate of one event per `interval` (nanoseconds). -/
def Every (interval : Int) : Limit :=
  if interval ≤ 0 then .Inf else .rate (1 / ((interval : ℚ) / 1000000000))

/-- Go `rate.Limiter` (without its mutex): the rate, the bucket size, the tokens left and the
instant `last` at which they were counted. -/
structure Limiter where
  limit : Limit
  burst : Int
  tokens : ℚ
  last : Int
deriving DecidableEq

/-- Go `rate.NewLimiter`: an empty bucket whose `last` is the zero `time.Time`, so that the first
use fills it to `burst`. -/
def NewLimiter (r : Limit) (b : Int) : Limiter := ⟨r, b, 0, 0⟩

/-- Go `Limit.tokensFromDuration`: the tokens accrued during `d` nanoseconds. -/
def tokensFromDuration (limit : ℚ) (d : Int) : ℚ :=
  if limit ≤ 0 then 0 else (d : ℚ) / 1000000000 * limit

/-- Go `Limit.durationFromTokens`: the time needed to accrue `tokens`, truncated to whole
nanoseconds; `rate.InfDuration` when the rate is not positive. -/
def durationFromTokens (limit : ℚ) (tokens : ℚ) : Int :=
  if limit ≤ 0 then maxInt64
  else if 0 ≤ tokens / limit then ⌊1000000000 * (tokens / limit)⌋
  else ⌈1000000000 * (tokens / limit)⌉

/-- Go `(*Limiter).advance`: the tokens available at instant `t`, capped at `burst`. -/
def advance (lim : Limiter) (limit : ℚ) (t : Int) : ℚ :=
  let last := if t < lim.last then t else lim.last
  let elapsed := timeSub t last
  let delta := tokensFromDuration limit elapsed
  let tokens := lim.tokens + delta
  if (lim.burst : ℚ) < tokens then (lim.burst : ℚ) else tokens

/-- Go `(*Limiter).Allow` when the clock reads `now`, that is `reserveN(now, 1, 0).ok`: takes
one token if one is available, and reports whether it did. -/
def Allow (lim : Limiter) (now : Int) : Limiter × Bool :=
  match lim.limit with
  | .Inf => (lim, true)
  | .rate r =>
    if r = 0 then
      if 1 ≤ lim.burst then ({ lim with burst := lim.burst - 1 }, true) else (lim, false)
    else
      let tokens := advance lim r now - 1
      let waitDuration : Int := if tokens < 0 then durationFromTokens r (-tokens) else 0
      if 1 ≤ lim.burst ∧ waitDuration ≤ 0 then
        ({ lim with last := now, tokens := tokens }, true)
      else (lim, false)

/-! ## internal/utils/rate_limiting_middleware_handler.go -/

/-- Go constant `rateLimitRequests`. -/
def rateLimitRequests : Int := 100

/-- Go constant `rateLimitDuration`: one minute, in nanoseconds. -/
def rateLimitDuration : Int := 60000000000

/-- A value stored in a request context: an `int`, or a value of another dynamic type. -/
inductive CtxValue
  | int (v : Int)
  | other
deriving DecidableEq, Repr

/-- The parts of an `http.Request` read by the middleware: the context value under "userId"
(`none` when there is none), the `X-Forwarded-For` header (empty when absent) and
`RemoteAddr`. -/
structure Request where
  userId : Option CtxValue
  xForwardedFor : String
  RemoteAddr : String
deriving DecidableEq, Repr

/-- Go `strings.Split(s, ",")` on the characters of `s`. -/
def splitComma : List Char → List (List Char)
  | [] => [[]]
  | c :: cs =>
    match splitComma cs with
    | [] => [[]]
    | p :: ps => if c = ',' then [] :: p :: ps else (c :: p) :: ps

/-- Go `unicode.IsSpace`. -/
def isSpace (c : Char) : Bool :=
  let n := c.toNat
  (9 ≤ n && n ≤ 13) || n == 32 || n == 133 || n == 160 || n == 5760 || (8192 ≤ n && n ≤ 8202) ||
    n == 8232 || n == 8233 || n == 8239 || n == 8287 || n == 12288

/-- Go `strings.TrimSpace` on the characters of a string. -/
def trimSpace (l : List Char) : List Char :=
  ((l.dropWhile isSpace).reverse.dropWhile isSpace).reverse

/-- The loop of `getClientIP` over the parts of the header: the first part that is not blank,
trimmed. -/
def firstNonBlank : List (List Char) → Option String
  | [] => none
  | p :: ps => if trimSpace p ≠ [] then some (String.mk (trimSpace p)) else firstNonBlank ps

/-- Go `getClientIP`. `splitHostPort` is the library function `net.SplitHostPort`, `none` when
it returns an error. -/
def getClientIP (splitHostPort : String → Option (String × String)) (r : Request) : String :=
  let forwarded : Option String :=
    if r.xForwardedFor ≠ "" then firstNonBlank (splitComma r.xForwardedFor.data) else none
  match forwarded with
  | some ip => ip
  | none =>
    match splitHostPort r.RemoteAddr with
    | none => r.RemoteAddr
    | some (ip, _) => ip

/-- Go `getUserIdOrIp`. -/
def getUserIdOrIp (splitHostPort : String → Option (String × String)) (r : Request) : String :=
  match r.userId with
  | some (.int v) => "user_id:" ++ Itoa v
  | _ => "ip:" ++ getClientIP splitHostPort r

/-- Go `RateLimitingMiddleware` with the limiters it has allocated. `limiters` is the `sync.Map`
from identity key to `*rate.Limiter`; `heap` holds the `rate.Limiter` values allocated by
`rate.NewLimiter` for this middleware, and a `*rate.Limiter` is the index of its limiter in
`heap`. -/
structure RateLimitingMiddleware where
  limiters : String → Option Nat
  heap : List Limiter

/-- Go `NewRateLimitingMiddleware`: an empty map, no limiter allocated yet. -/
def NewRateLimitingMiddleware : RateLimitingMiddleware := ⟨fun _ => none, []⟩

/-- Go `(*sync.Map).Load` on `m.limiters`. -/
def Load (m : RateLimitingMiddleware) (key : String) : Option Nat := m.limiters key

/-- Go `(*sync.Map).LoadOrStore` on `m.limiters`: the pointer already stored under the key if
there is one, otherwise `value`, which is then stored under the key. -/
def LoadOrStore (m : RateLimitingMiddleware) (key : String) (value : Nat) :
    RateLimitingMiddleware × Nat :=
  match m.limiters key with
  | some actual => (m, actual)
  | none => (⟨fun k => if k = key then some value else m.limiters k, m.heap⟩, value)

/-- Go `(*RateLimitingMiddleware).getLimiter`: the pointer loaded for the key, or else a newly
allocated limiter passed through `LoadOrStore`. -/
def getLimiter (m : RateLimitingMiddleware) (key : String) : RateLimitingMiddleware × Nat :=
  match Load m key with
  | some limiter => (m, limiter)
  | none =>
    let limiter := m.heap.length
    let m1 : RateLimitingMiddleware :=
      ⟨m.limiters, m.heap ++
        [NewLimiter (Every (rateLimitDuration / rateLimitRequests)) rateLimitRequests]⟩
    LoadOrStore m1 key limiter

/-- What `Handle` does with a request: it calls `m.next.ServeHTTP`, or answers with
`http.Error(w, body, code)`, or panics on a pointer to no limiter. -/
inductive Served
  | next
  | error (body : String) (code : Int)
  | panicked
deriving DecidableEq, Repr

/-- Go `(*RateLimitingMiddleware).Handle` for a request arriving when the clock reads `now`.
`Allow` updates the limiter behind the pointer returned by `getLimiter`; the map is not
written by `Handle`. -/
def Handle (splitHostPort : String → Option (String × String)) (m : RateLimitingMiddleware)
    (r : Request) (now : Int) : RateLimitingMiddleware × Served :=
  let key := getUserIdOrIp splitHostPort r
  let got := getLimiter m key
  match got.1.heap[got.2]? with
  | none => (got.1, .panicked)
  | some limiter =>
    let allowed := Allow limiter now
    let m1 : RateLimitingMiddleware := ⟨got.1.limiters, got.1.heap.set got.2 allowed.1⟩
    if ¬ allowed.2 then (m1, .error "rate limit exceeded" 429)
    else (m1, .next)

/-- Consecutive `Handle` calls on one middleware, each request with the clock at its arrival. -/
def handleAll (splitHostPort : String → Option (String × String)) (m : RateLimitingMiddleware) :
    List (Request × Int) → List Served
  | [] => []
  | (r, now) :: rest =>
    (Handle splitHostPort m r now).2 :: handleAll splitHostPort (Handle splitHostPort m r now).1 rest

/-- A stand-in for `net.SplitHostPort` on addresses of the form `host:port` without brackets:
the text before the last colon and the text after it. -/
def splitLastColon (s : String) : Option (String × String) :=
  match s.data.reverse.span (fun c => c ≠ ':') with
  | (_, []) => none
  | (port, _ :: host) => some (String.mk host.reverse, String.mk port.reverse)

/-- The bucket of the middleware holding `tokens` tokens counted at instant `last`. -/
def bucket (tokens : ℚ) (last : Int) : Limiter := ⟨.rate (5 / 3), 100, tokens, last⟩

/-- The middleware after consecutive `Handle` calls. -/
def handledState (splitHostPort : String → Option (String × String))
    (m : RateLimitingMiddleware) : List (Request × Int) → RateLimitingMiddleware
  | [] => m
  | (r, now) :: rest => handledState splitHostPort (Handle splitHostPort m r now).1 rest

/-- The bucket of an identity: the limiter behind the pointer stored under the key, `none` when
no pointer is stored. -/
def bucketOf (m : RateLimitingMiddleware) (key : String) : Option (Option Limiter) :=
  (m.limiters key).map (fun p => m.heap[p]?)

/-- Every stored pointer points to an allocated limiter, and different keys have different
pointers. -/
def WellFormed (m : RateLimitingMiddleware) : Prop :=
  (∀ k p, m.limiters k = some p → p < m.heap.length) ∧
    ∀ k1 k2 p, m.limiters k1 = some p → m.limiters k2 = some p → k1 = k2

/-! ## internal/app/task-tracker/app.go -/

/-- The handler returned by the closure `rateLimitingMiddleware` of `(*app).Register` (lines
98-102), for a request arriving when the clock reads `now`: it builds a middleware with
`NewRateLimitingMiddleware(next)` and lets it handle the request. -/
def rateLimitingMiddleware (splitHostPort : String → Option (String × String)) (r : Request)
    (now : Int) : Served :=
  (Handle splitHostPort NewRateLimitingMiddleware r now).2

/-- Consecutive requests through the rate limiting handler of one route. -/
def serveRoute (splitHostPort : String → Option (String × String)) :
    List (Request × Int) → List Served
  | [] => []
  | (r, now) :: rest =>
    rateLimitingMiddleware splitHostPort r now :: serveRoute splitHostPort rest

/-! ## internal/repository/mysql.go -/

/-- Go `(*Mysql).ListTasks` on a reachable database whose table `tasks` holds `rows`: the rows
of the team, with the status and assignee asked for when they are given, above `startFromId`
when it is not 0, by ascending id, at most `limit` of them. String comparison is that of the
column, taken as equality. -/
def ListTasks (rows : List Model) (teamId : Int) (status : String) (assigneeId startFromId
    limit : Int) : List (Option Model) × Option String :=
  if limit ≤ 0 then ([], some "invalid limit")
  else
    let selected := rows.filter (fun t =>
      decide (t.TeamId = teamId) && (decide (status = "") || decide (t.Status = status)) &&
        (decide (assigneeId = 0) || decide (t.AssigneeId = assigneeId)) &&
        (decide (startFromId = 0) || decide (startFromId < t.Id)))
    let ordered := selected.insertionSort (fun a b => a.Id ≤ b.Id)
    ((ordered.take limit.toNat).map some, none)

/-! ## internal/task/list/executor.go -/

namespace tasklist

/-- Go constant `defaultLimit`. -/
def defaultLimit : Nat := 100

/-- Go `ListInput`. -/
structure ListInput where
  UserId : Int
  TeamId : Int
  Status : String
  AssigneeId : Int
  StartFromId : Int
deriving DecidableEq, Repr

/-- Go `TaskItem`. -/
structure TaskItem where
  Id : Int
  Status : String
  Title : String
  Description : String
  CreatorId : Int
  AssigneeId : Int
  TeamId : Int
deriving DecidableEq, Repr

/-- Go `ListResult`. -/
structure ListResult where
  Tasks : List TaskItem
  NextStartFromId : Int
  HasMore : Bool
deriving DecidableEq, Repr

/-- The three results of `taskCacheLister.ListTasksFromCache` (`tasks = none` is the nil
slice). -/
structure CacheReply where
  tasks : Option (List Model)
  hit : Bool
  err : Option String
deriving DecidableEq, Repr

/-- A call made by `Execute` to one of its collaborators, with its arguments. -/
inductive Call
  | CheckUserIsInTeam (userId teamId : Int)
  | ListTasksFromCache (teamId limit : Int) (startFromID : Option Int)
  | ListTasks (teamId : Int) (status : String) (assigneeId startFromId limit : Int)
  | CacheTasks (teamId : Int) (tasks : List Model)
deriving DecidableEq, Repr

/-- Go `executor`: its four collaborators, as functions of the state `σ` of the world they
work on (database and cache). The elements of the slice returned by `ListTasks` are pointers,
`none` being nil. Only `cacheLister` is tested against nil by `Execute`, so it alone may be
absent; `CacheTasks` returns the world after the write. -/
structure executor (σ : Type) where
  ListTasks : σ → Int → String → Int → Int → Int → List (Option Model) × Option String
  CheckUserIsInTeam : σ → Int → Int → Bool × Option String
  cacheLister : Option (σ → Int → Int → Option Int → CacheReply)
  CacheTasks : σ → Int → List Model → σ × Option String

/-- Outcome of `Execute`: the world afterwards, the two Go results (`result = none` is the nil
pointer), whether the call panicked on a nil task pointer, and the calls made to the
collaborators, in order. -/
structure Outcome (σ : Type) where
  world : σ
  result : Option ListResult
  err : Option String
  panicked : Bool
  calls : List Call

/-- The `TaskItem` built from a task by the loops of `Execute`. -/
def toItem (t : Model) : TaskItem :=
  ⟨t.Id, t.Status, t.Title, t.Description, t.CreatorId, t.AssigneeId, t.TeamId⟩

/-- Lines 104-131 of `Execute`: the result built from the cached tasks. -/
def fromCache (cachedTasks : List Model) : ListResult :=
  if defaultLimit < cachedTasks.length then
    match cachedTasks.get? defaultLimit with
    | some t => ⟨(cachedTasks.take defaultLimit).map toItem, t.Id, true⟩
    | none => ⟨cachedTasks.map toItem, 0, false⟩
  else ⟨cachedTasks.map toItem, 0, false⟩

/-- The items of a slice of task pointers, `none` when one of them is nil (the loop of lines
171-181 then dereferences a nil pointer). -/
def itemsOf : List (Option Model) → Option (List TaskItem)
  | [] => some []
  | none :: _ => none
  | some t :: rest => (itemsOf rest).map (fun items => toItem t :: items)

/-- Lines 135-187 of `Execute`: the read of the store, the population of the cache when the
request is unfiltered, and the result built from the tasks of the store. `calls` are the calls
made before. -/
def fromStore {σ : Type} (e : executor σ) (w : σ) (inp : ListInput) (listFromCache : Bool)
    (calls : List Call) : Outcome σ :=
  let calls1 := calls ++
    [Call.ListTasks inp.TeamId inp.Status inp.AssigneeId inp.StartFromId (defaultLimit + 1)]
  let answer := e.ListTasks w inp.TeamId inp.Status inp.AssigneeId inp.StartFromId
    (defaultLimit + 1)
  match answer.2 with
  | some err => ⟨w, none, some err, false, calls1⟩
  | none =>
    let tasks := answer.1
    let modelTasks := (tasks.take (min tasks.length defaultLimit)).filterMap id
    let w1 := if listFromCache then (e.CacheTasks w inp.TeamId modelTasks).1 else w
    let calls2 :=
      if listFromCache then calls1 ++ [Call.CacheTasks inp.TeamId modelTasks] else calls1
    if defaultLimit < tasks.length then
      match tasks.get? defaultLimit with
      | some (some t) =>
        match itemsOf (tasks.take defaultLimit) with
        | some items => ⟨w1, some ⟨items, t.Id, true⟩, none, false, calls2⟩
        | none => ⟨w1, none, none, true, calls2⟩
      | _ => ⟨w1, none, none, true, calls2⟩
    else
      match itemsOf tasks with
      | some items => ⟨w1, some ⟨items, 0, false⟩, none, false, calls2⟩
      | none => ⟨w1, none, none, true, calls2⟩

/-- Go `(*executor).Execute`. -/
def Execute {σ : Type} (e : executor σ) (w : σ) (inp : ListInput) : Outcome σ :=
  let calls := [Call.CheckUserIsInTeam inp.UserId inp.TeamId]
  let member := e.CheckUserIsInTeam w inp.UserId inp.TeamId
  match member.2 with
  | some err => ⟨w, none, some err, false, calls⟩
  | none =>
    if !member.1 then ⟨w, none, some "forbidden", false, calls⟩
    else
      let listFromCache : Bool := decide (inp.Status = "") && decide (inp.AssigneeId = 0)
      match (if listFromCache then e.cacheLister else none) with
      | none => fromStore e w inp listFromCache calls
      | some lister =>
        let startFromID : Option Int := if 0 < inp.StartFromId then some inp.StartFromId else none
        let calls1 := calls ++
          [Call.ListTasksFromCache inp.TeamId (defaultLimit + 1) startFromID]
        let reply := lister w inp.TeamId (defaultLimit + 1) startFromID
        match reply.err with
        | some err => ⟨w, none, some err, false, calls1⟩
        | none =>
          match (if reply.hit then reply.tasks else none) with
          | some cachedTasks => ⟨w, some (fromCache cachedTasks), none, false, calls1⟩
          | none => fromStore e w inp listFromCache calls1

/-- The pages obtained by calling `Execute` and then calling it again with `StartFromId` set to
the returned `NextStartFromId` while `HasMore` is true, at most `fuel` times. -/
def paginate {σ : Type} (e : executor σ) : Nat → σ → ListInput → List ListResult
  | 0, _, _ => []
  | fuel + 1, w, inp =>
    match (Execute e w inp).result with
    | none => []
    | some res =>
      res :: (if res.HasMore then
        paginate e fuel (Execute e w inp).world
          ⟨inp.UserId, inp.TeamId, inp.Status, inp.AssigneeId, res.NextStartFromId⟩
      else [])

end tasklist

/-- The executor built by `(*app).Register` (line 171), `NewExecutor(repo, repo, redisRepo,
redisRepo)`: the table `tasks` holds `rows`, `isMember` answers the membership query, and the
world is the state of the cache. -/
def taskListExec (r : redis) (rows : List Model) (isMember : Int → Int → Bool) :
    tasklist.executor Store where
  ListTasks := fun _ teamId status assigneeId startFromId limit =>
    ListTasks rows teamId status assigneeId startFromId limit
  CheckUserIsInTeam := fun _ userId teamId => (isMember userId teamId, none)
  cacheLister := some (fun st teamId limit startFromID =>
    ⟨(ListTasksFromCache r (redisClient st) teamId limit startFromID).tasks,
      (ListTasksFromCache r (redisClient st) teamId limit startFromID).hit,
      (ListTasksFromCache r (redisClient st) teamId limit startFromID).err⟩)
  CacheTasks := fun st teamId tasks =>
    ((CacheTasks r st teamId tasks).store, (CacheTasks r st teamId tasks).err)

/-- The tasks of team 5 with ids 1 to `n`. -/
def sampleRows (n : Nat) : List Model :=
  (List.range n).map (fun i => sampleTask ((i : Int) + 1) "t")

/-- An executor over stubs, as in `executor_test.go`: every user is a member of every team, the
cache lister answers `reply` (there is no cache lister when `reply = none`), the store answers
`answer`, and the cache writer stores nothing and returns nil. -/
def stubExec (reply : Option tasklist.CacheReply) (answer : List (Option Model) × Option String) :
    tasklist.executor Unit where
  ListTasks := fun _ _ _ _ _ _ => answer
  CheckUserIsInTeam := fun _ _ _ => (true, none)
  cacheLister := reply.map (fun c => fun _ _ _ _ => c)
  CacheTasks := fun w _ _ => (w, none)

/-! ## internal/task/edit/executor.go -/

namespace taskedit

/-- Go `EditInput`. -/
structure EditInput where
  UserId : Int
  TaskId : Int
  Status : String
  Title : String
  Description : String
  AssigneeId : Int
deriving DecidableEq, Repr

/-- A non-nil error returned by `GetTaskById`: its message, and whether
`errors.Is(err, sql.ErrNoRows)` holds for it. -/
structure GetError where
  msg : String
  isNoRows : Bool
deriving DecidableEq, Repr

/-- A call made by `Execute` to one of its collaborators, with its arguments (`task = none` is
the nil pointer, `changedAt` the instant read from the clock). -/
inductive Call
  | GetTaskById (id : Int)
  | IsPartOfTeamByTaskId (userId taskId : Int)
  | CreateHistory (task : Option Model) (changedBy changedAt : Int)
  | EditTask (id : Int) (status title description : String) (assigneeId : Int)
  | UpdateTaskInCache (t : Model)
deriving DecidableEq, Repr

/-- Go `executor`: its five collaborators. A result of type `Option String` is a Go `error`,
`none` being nil; of `CreateHistory` only the error is kept, the history record it returns is
discarded by `Execute`. -/
structure executor where
  GetTaskById : Int → Option Model × Option GetError
  IsPartOfTeamByTaskId : Int → Int → Bool × Option String
  CreateHistory : Option Model → Int → Int → Option String
  EditTask : Int → String → String → String → Int → Option String
  UpdateTaskInCache : Model → Option String

/-- Outcome of `Execute`: the two Go results, whether the call panicked on a nil task pointer,
and the calls made to the collaborators, in order. -/
structure Outcome where
  ok : Bool
  err : Option String
  panicked : Bool
  calls : List Call
deriving DecidableEq, Repr

/-- Lines 101-105 of `Execute`: the copy of the old task with the four edited fields set. -/
def updatedTask (oldTask : Model) (inp : EditInput) : Model :=
  { oldTask with
    Status := inp.Status
    Title := inp.Title
    Description := inp.Description
    AssigneeId := inp.AssigneeId }

/-- Go `(*executor).Execute`, `now` being the value of `time.Now()`. -/
def Execute (e : executor) (inp : EditInput) (now : Int) : Outcome :=
  let calls := [Call.GetTaskById inp.TaskId]
  let got := e.GetTaskById inp.TaskId
  match got.2 with
  | some err =>
    if err.isNoRows then ⟨false, some "task not found", false, calls⟩
    else ⟨false, some err.msg, false, calls⟩
  | none =>
    let oldTask := got.1
    let calls1 := calls ++ [Call.IsPartOfTeamByTaskId inp.UserId inp.TaskId]
    let member := e.IsPartOfTeamByTaskId inp.UserId inp.TaskId
    match member.2 with
    | some err => ⟨false, some ("failed to check team membership: " ++ err), false, calls1⟩
    | none =>
      if !member.1 then ⟨false, some "forbidden", false, calls1⟩
      else
        let calls2 := calls1 ++ [Call.CreateHistory oldTask inp.UserId now]
        match e.CreateHistory oldTask inp.UserId now with
        | some err => ⟨false, some ("failed to save task history: " ++ err), false, calls2⟩
        | none =>
          let calls3 := calls2 ++
            [Call.EditTask inp.TaskId inp.Status inp.Title inp.Description inp.AssigneeId]
          match e.EditTask inp.TaskId inp.Status inp.Title inp.Description inp.AssigneeId with
          | some err => ⟨false, some err, false, calls3⟩
          | none =>
            match oldTask with
            | none => ⟨false, none, true, calls3⟩
            | some old =>
              ⟨true, none, false, calls3 ++ [Call.UpdateTaskInCache (updatedTask old inp)]⟩

end taskedit

/-! ## internal/task/comment/list/executor.go -/

namespace commentlist

/-- Go constant `defaultLimit`. -/
def defaultLimit : Nat := 100

/-- Go `comment.Model`. `CreatedAt` is the instant of the `time.Time` in nanoseconds. -/
structure Model where
  Id : Int
  CreatedAt : Int
  CommenterId : Int
  TaskId : Int
  Text : String
deriving DecidableEq, Repr

/-- Go `CommentItem`. -/
structure CommentItem where
  Id : Int
  CreatedAt : Int
  CommenterId : Int
  TaskId : Int
  Text : String
deriving DecidableEq, Repr

/-- Go `ListResult`. -/
structure ListResult where
  Comments : List CommentItem
  NextStartFromId : Int
  HasMore : Bool
deriving DecidableEq, Repr

/-- The `CommentItem` built from a comment by the loop of `Execute`. -/
def toItem (c : Model) : CommentItem :=
  ⟨c.Id, c.CreatedAt, c.CommenterId, c.TaskId, c.Text⟩

/-- Go `(*executor).Execute`; `ListTaskComments` is the method of the executor's lister, called
with `taskId`, `startFromId` and the limit. The results are the `*ListResult` (`none` is nil)
and the error. -/
def Execute (ListTaskComments : Int → Int → Int → List Model × Option String)
    (taskId startFromId : Int) : Option ListResult × Option String :=
  let answer := ListTaskComments taskId startFromId (defaultLimit + 1)
  match answer.2 with
  | some err => (none, some err)
  | none =>
    let comments := answer.1
    if defaultLimit < comments.length then
      match comments.get? defaultLimit with
      | some c => (some ⟨(comments.take defaultLimit).map toItem, c.Id, true⟩, none)
      | none => (some ⟨comments.map toItem, 0, false⟩, none)
    else (some ⟨comments.map toItem, 0, false⟩, none)

/-- The lister of `executor_test.go`, `stubTaskCommentListerPaginate`: it answers `limit + 1`
comments with ids from 100 on, `now` being the value of `time.Now()`. -/
def stubTaskCommentListerPaginate (now : Int) (taskId _startFromId limit : Int) :
    List Model × Option String :=
  ((List.range (limit + 1).toNat).map (fun i => ⟨(i : Int) + 100, now, 10 + (i : Int), taskId,
    "msg"⟩), none)

end commentlist

/-! ## internal/email/stub_sender.go -/

namespace email

/-- The `*http.Request` built by `SendEmail`: method, URL, the `Content-Type` header and the
bytes of the body. -/
structure HTTPRequest where
  method : String
  url : String
  contentType : String
  body : String
deriving DecidableEq, Repr

/-- What a call of `SendEmail` does: it returns an `error` (`none` is nil), or it panics on a
nil response. -/
inductive SendResult
  | returned (err : Option String)
  | panicked
deriving DecidableEq, Repr

/-- Go `(*stubSender).SendEmail`. `marshal` is `json.Marshal` on the payload map with the
entries `to` and `text`; `Do` is the method of the sender's `HTTPClient`, returning the
response (`none` is nil) and the error. `http.NewRequest` is called with a valid method and a
valid URL and so returns no error. -/
def SendEmail (marshal : String → String → Except String String)
    (Do : HTTPRequest → Option Response × Option String) (address text : String) : SendResult :=
  match marshal address text with
  | .error err => .returned (some err)
  | .ok body =>
    let req : HTTPRequest := ⟨"POST", "https://example.com/send-email", "application/json", body⟩
    let answer := Do req
    match answer.2 with
    | some err => .returned (some err)
    | none =>
      match answer.1 with
      | none => .panicked
      | some resp =>
        if resp.StatusCode < 200 ∨ resp.StatusCode ≥ 400 then .returned answer.2
        else .returned none

/-- A stand-in for `json.Marshal` on the payload that never fails. -/
def sampleMarshal (address text : String) : Except String String :=
  .ok ("\x7b\"text\":\"" ++ text ++ "\",\"to\":\"" ++ address ++ "\"\x7d")

end email

/-! ## Decimal strings and keys -/

theorem digitsValue_append_singleton (l : List Char) (c : Char) :
    digitsValue (l ++ [c]) = digitsValue l * 10 + (c.toNat - 48) := by
  simp [digitsValue, List.foldl_append]

theorem digitChar_value : ∀ k < 10, (Nat.digitChar k).toNat - 48 = k := by decide

theorem digitChar_range : ∀ k < 10, 48 ≤ (Nat.digitChar k).toNat := by decide

/-- The digits produced by `Nat.toDigitsCore` in base ten: they are put in front of the
accumulator, denote the number, and start with a digit character. -/
theorem toDigitsCore_spec (fuel : Nat) : ∀ (n : Nat) (ds : List Char), n < fuel →
    ∃ pre, Nat.toDigitsCore 10 fuel n ds = pre ++ ds ∧ digitsValue pre = n ∧
      ∃ c rest, pre = c :: rest ∧ 48 ≤ c.toNat := by
  induction fuel with
  | zero => intro n ds h; omega
  | succ fuel ih =>
    intro n ds h
    unfold Nat.toDigitsCore
    by_cases h0 : n / 10 = 0
    · refine ⟨[Nat.digitChar (n % 10)], by simp [h0], ?_, _, _, rfl, ?_⟩
      · have hlt : n % 10 < 10 := Nat.mod_lt _ (by decide)
        have := digitChar_value _ hlt
        simp [digitsValue, this]; omega
      · exact digitChar_range _ (Nat.mod_lt _ (by decide))
    · have hlt : n / 10 < fuel := by omega
      obtain ⟨pre, hpre, hval, c, rest, hc, hc48⟩ := ih (n / 10) (Nat.digitChar (n % 10) :: ds) hlt
      refine ⟨pre ++ [Nat.digitChar (n % 10)], by simp [h0, hpre], ?_, c,
        rest ++ [Nat.digitChar (n % 10)], by simp [hc], hc48⟩
      rw [digitsValue_append_singleton, hval, digitChar_value _ (Nat.mod_lt _ (by decide))]
      omega

theorem repr_data_spec (n : Nat) :
    digitsValue (Nat.repr n).data = n ∧ ∃ c rest, (Nat.repr n).data = c :: rest ∧ 48 ≤ c.toNat := by
  obtain ⟨pre, hpre, hval, hc⟩ := toDigitsCore_spec (n + 1) n [] (Nat.lt_succ_self n)
  have : (Nat.repr n).data = pre := by
    simp [Nat.repr, Nat.toDigits, List.asString, hpre]
  rw [this]
  exact ⟨hval, hc⟩

theorem repr_injective {n m : Nat} (h : Nat.repr n = Nat.repr m) : n = m := by
  have hn := (repr_data_spec n).1
  have hm := (repr_data_spec m).1
  rw [h] at hn
  omega

theorem Itoa_injective {a b : Int} (h : Itoa a = Itoa b) : a = b := by
  unfold Itoa at h
  by_cases ha : a < 0 <;> by_cases hb : b < 0 <;> simp only [ha, hb, if_true, if_false] at h
  · have h1 : (Nat.repr a.natAbs).data = (Nat.repr b.natAbs).data := by
      have := congrArg String.data h
      simpa using this
    have := repr_injective (String.ext h1)
    omega
  · obtain ⟨_, c, rest, hc, hc48⟩ := repr_data_spec b.natAbs
    have := congrArg String.data h
    rw [hc] at this
    simp at this
    rw [← this.1] at hc48
    exact absurd hc48 (by decide)
  · obtain ⟨_, c, rest, hc, hc48⟩ := repr_data_spec a.natAbs
    have := congrArg String.data h
    rw [hc] at this
    simp at this
    rw [this.1] at hc48
    exact absurd hc48 (by decide)
  · have := repr_injective h
    omega

theorem taskKey_injective {a b : Int} (h : taskKey a = taskKey b) : a = b := by
  unfold taskKey at h
  have := congrArg String.data h
  simp at this
  exact Itoa_injective (String.ext this)

theorem taskKey_ne_teamTasksKey (id teamId : Int) : taskKey id ≠ teamTasksKey teamId := by
  intro h
  have := congrArg String.data h
  simp [taskKey, teamTasksKey] at this

theorem taskKeyFromStr_Itoa (id : Int) : taskKeyFromStr (Itoa id) = taskKey id := rfl

/-! ## Exact scores -/

theorem bitLen_le (fuel : Nat) : ∀ (a k : Nat), a < 2 ^ k → bitLen fuel a ≤ k := by
  induction fuel with
  | zero => intro a k _; simp [bitLen]
  | succ fuel ih =>
    intro a k h
    unfold bitLen
    by_cases h0 : a = 0
    · simp [h0]
    · simp only [h0, if_false]
      cases k with
      | zero => simp at h; omega
      | succ k =>
        have : a / 2 < 2 ^ k := by
          rw [Nat.div_lt_iff_lt_mul (by decide)]
          rw [pow_succ] at h
          exact h
        have := ih (a / 2) k this
        omega

theorem roundTo53_exact {a : Nat} (h : a ≤ 2 ^ 53) : roundTo53 a = a := by
  rcases Nat.lt_or_ge a (2 ^ 53) with hlt | hge
  · have := bitLen_le 64 a 53 hlt
    unfold roundTo53
    simp only
    rw [if_pos (by omega)]
  · have : a = 2 ^ 53 := le_antisymm h hge
    subst this
    decide

theorem float64_exact {n : Int} (hlo : -(2 ^ 53) ≤ n) (hhi : n ≤ 2 ^ 53) : float64 n = n := by
  have hab : n.natAbs ≤ 2 ^ 53 := by omega
  unfold float64
  rw [roundTo53_exact hab]
  split <;> omega

/-! ## The ordered index after a population -/

theorem zinsert_last (x : Z) : ∀ (l : List Z), (∀ a ∈ l, zless x a = false) →
    zinsert x l = l ++ [x]
  | [], _ => rfl
  | y :: ys, h => by
    have hy := h y (List.mem_cons_self _ _)
    have := zinsert_last x ys (fun a ha => h a (List.mem_cons_of_mem _ ha))
    simp [zinsert, hy, this]

theorem zaddOne_last (pre : List Model) (t : Model) (hpre : ∀ a ∈ pre, a.Id < t.Id)
    (hex : ∀ a ∈ pre, ExactId a) (ht : ExactId t) :
    zaddOne (pre.map zOf) (zOf t) = (pre ++ [t]).map zOf := by
  unfold zaddOne
  have hfilter : (pre.map zOf).filter (fun y => decide (y.Member ≠ (zOf t).Member)) = pre.map zOf := by
    rw [List.filter_eq_self]
    intro y hy
    obtain ⟨a, ha, rfl⟩ := List.mem_map.1 hy
    have hlt := hpre a ha
    have : Itoa a.Id ≠ Itoa t.Id := fun h => by
      have := Itoa_injective h
      omega
    simpa [zOf] using this
  rw [hfilter, zinsert_last]
  · simp
  · intro y hy
    obtain ⟨a, ha, rfl⟩ := List.mem_map.1 hy
    have hlt := hpre a ha
    have h1 := float64_exact (hex a ha).1 (hex a ha).2
    have h2 := float64_exact ht.1 ht.2
    simp only [zless, zOf, h1, h2, Bool.or_eq_false_iff, Bool.and_eq_false_iff, decide_eq_false_iff_not]
    constructor
    · omega
    · left; omega

theorem zadd_sorted : ∀ (post pre : List Model),
    ((pre ++ post).map (fun t => t.Id)).Pairwise (· < ·) → (∀ a ∈ pre ++ post, ExactId a) →
    zadd (pre.map zOf) (post.map zOf) = (pre ++ post).map zOf
  | [], pre, _, _ => by simp [zadd]
  | t :: post, pre, hasc, hex => by
    have hpre : ∀ a ∈ pre, a.Id < t.Id := by
      intro a ha
      rw [List.map_append, List.pairwise_append] at hasc
      exact hasc.2.2 a.Id (List.mem_map_of_mem _ ha) t.Id (by simp)
    have hstep := zaddOne_last pre t hpre (fun a ha => hex a (by simp [ha])) (hex t (by simp))
    have hrec := zadd_sorted post (pre ++ [t]) (by simpa using hasc) (by simpa using hex)
    simp only [zadd, List.map_cons, List.foldl_cons] at hrec ⊢
    rw [hstep, hrec]
    simp

theorem zrankOf_map : ∀ (ts : List Model) (i : Nat) (hi : i < ts.length),
    (ts.map (fun t => t.Id)).Pairwise (· < ·) →
    zrankOf (Itoa (ts.get ⟨i, hi⟩).Id) (ts.map zOf) = some i
  | [], i, hi, _ => by simp at hi
  | t :: ts, 0, _, _ => by simp [zrankOf, zOf]
  | t :: ts, i + 1, hi, hasc => by
    have hi1 : i < ts.length := by simpa using hi
    rw [List.map_cons, List.pairwise_cons] at hasc
    have hlt : t.Id < (ts.get ⟨i, hi1⟩).Id :=
      hasc.1 _ (List.mem_map_of_mem _ (List.get_mem _ _ _))
    have hne : ¬ Itoa t.Id = Itoa (ts.get ⟨i, hi1⟩).Id := fun h => by
      have := Itoa_injective h
      omega
    have := zrankOf_map ts i hi1 hasc.2
    simp only [List.get_eq_getElem] at this hne
    simp only [List.map_cons, zrankOf, zOf, List.get_eq_getElem, List.getElem_cons_succ]
    rw [if_neg hne, this]
    rfl

/-! ## The store after `CacheTasks` -/

theorem roundTrips_spec {js : Codec} {t : Model} (h : RoundTrips js t = true) :
    js.Marshal t = .ok (encOf js t) ∧ js.Unmarshal (encOf js t) = some (decOf js t) ∧
      SameFields t (decOf js t) := by
  unfold RoundTrips at h
  unfold decOf encOf
  cases hm : js.Marshal t with
  | error e => simp [hm] at h
  | ok b =>
    simp only [hm] at h ⊢
    cases hu : js.Unmarshal b with
    | none => simp [hu] at h
    | some t1 =>
      simp only [hu] at h ⊢
      exact ⟨trivial, trivial, of_decide_eq_true h⟩

theorem decodes_spec {js : Codec} {t : Model} (h : Decodes js t = true) :
    js.Marshal t = .ok (encOf js t) ∧ js.Unmarshal (encOf js t) = some (decOf js t) := by
  unfold Decodes at h
  unfold decOf encOf
  cases hm : js.Marshal t with
  | error e => simp [hm] at h
  | ok b =>
    simp only [hm] at h ⊢
    cases hu : js.Unmarshal b with
    | none => simp [hu] at h
    | some t1 => exact ⟨trivial, rfl⟩

theorem roundTrips_decodes {js : Codec} {t : Model} (h : RoundTrips js t = true) :
    Decodes js t = true := by
  have hs := roundTrips_spec h
  simp [Decodes, hs.1, hs.2.1]

theorem cacheEntries_ok (js : Codec) : ∀ (ts : List Model), (∀ t ∈ ts, Decodes js t = true) →
    cacheEntries js ts = .ok (ts.map (fun t => (taskKey t.Id, encOf js t)), ts.map zOf)
  | [], _ => rfl
  | t :: ts, h => by
    have ht := (decodes_spec (h t (List.mem_cons_self _ _))).1
    have hrec := cacheEntries_ok js ts (fun a ha => h a (List.mem_cons_of_mem _ ha))
    simp [cacheEntries, ht, hrec, zOf]

theorem execPipeline_append (s : Store) (a b : List Cmd) :
    execPipeline s (a ++ b) =
      ((execPipeline (execPipeline s a).1 b).1,
        match (execPipeline s a).2 with
        | some e => some e
        | none => (execPipeline (execPipeline s a).1 b).2) := by
  induction a generalizing s with
  | nil => simp [execPipeline]
  | cons c cs ih =>
    rw [List.cons_append]
    simp only [execPipeline]
    rw [ih]
    cases (applyCmd s c).2 <;> rfl

theorem execPipeline_sets (ttl : Int) (httl : 0 < ttl) : ∀ (kvs : List (String × String))
    (s : Store), execPipeline s (kvs.map (fun pair => Cmd.Set pair.1 pair.2 ttl)) =
      (afterSets ttl s kvs, none)
  | [], s => rfl
  | p :: kvs, s => by
    have := execPipeline_sets ttl httl kvs (s.put p.1 (some ⟨.str p.2, some ttl⟩))
    simp only [List.map_cons, execPipeline, applyCmd, httl, if_true, this, afterSets,
      List.foldl_cons]

theorem afterSets_other (ttl : Int) (k : String) : ∀ (kvs : List (String × String)) (s : Store),
    (∀ p ∈ kvs, p.1 ≠ k) → afterSets ttl s kvs k = s k
  | [], _, _ => rfl
  | p :: kvs, s, h => by
    have hp : k ≠ p.1 := fun e => h p (List.mem_cons_self _ _) e.symm
    have := afterSets_other ttl k kvs (s.put p.1 (some ⟨.str p.2, some ttl⟩))
      (fun q hq => h q (List.mem_cons_of_mem _ hq))
    simp only [afterSets, List.foldl_cons] at this ⊢
    rw [this]
    simp [Store.put, hp]

theorem afterSets_record (js : Codec) (ttl : Int) : ∀ (ts : List Model) (s : Store),
    (ts.map (fun t => t.Id)).Pairwise (· < ·) → ∀ t ∈ ts,
      afterSets ttl s (ts.map (fun t => (taskKey t.Id, encOf js t))) (taskKey t.Id) =
        some ⟨.str (encOf js t), some ttl⟩
  | [], _, _, t, ht => by simp at ht
  | a :: ts, s, hasc, t, ht => by
    rw [List.map_cons, List.pairwise_cons] at hasc
    rcases List.mem_cons.1 ht with rfl | hmem
    · have hother : ∀ p ∈ ts.map (fun t => (taskKey t.Id, encOf js t)), p.1 ≠ taskKey t.Id := by
        intro p hp e
        obtain ⟨b, hb, rfl⟩ := List.mem_map.1 hp
        have h1 := taskKey_injective e
        have h2 := hasc.1 b.Id (List.mem_map_of_mem _ hb)
        omega
      have := afterSets_other ttl (taskKey t.Id) _
        (s.put (taskKey t.Id) (some ⟨.str (encOf js t), some ttl⟩)) hother
      simp only [List.map_cons, afterSets, List.foldl_cons] at this ⊢
      rw [this]
      simp [Store.put]
    · have := afterSets_record js ttl ts
        (s.put (taskKey a.Id) (some ⟨.str (encOf js a), some ttl⟩)) hasc.2 t hmem
      simpa only [List.map_cons, afterSets, List.foldl_cons] using this

/-- The store left by `CacheTasks` on an empty cache: no error, the index of the team holds the
tasks in ascending id order, and every record key holds the serialised task. -/
theorem CacheTasks_store (r : redis) (teamId : Int) (tasks : List Model) (hne : tasks ≠ [])
    (hasc : (tasks.map (fun t => t.Id)).Pairwise (· < ·)) (hex : ∀ t ∈ tasks, ExactId t)
    (hrt : ∀ t ∈ tasks, Decodes r.js t = true) (httl : 0 < r.ttl) :
    (CacheTasks r Store.empty teamId tasks).err = none ∧
      (CacheTasks r Store.empty teamId tasks).store (teamTasksKey teamId) =
        some ⟨.zset (tasks.map zOf), some r.ttl⟩ ∧
      ∀ t ∈ tasks, (CacheTasks r Store.empty teamId tasks).store (taskKey t.Id) =
        some ⟨.str (encOf r.js t), some r.ttl⟩ := by
  have hlen : ¬ tasks.length = 0 := by
    intro h; exact hne (List.length_eq_zero.1 h)
  have hz : zadd [] (tasks.map zOf) = tasks.map zOf := by
    have := zadd_sorted tasks [] (by simpa using hasc) (by simpa using hex)
    simpa using this
  have hkey : afterSets r.ttl Store.empty (tasks.map (fun t => (taskKey t.Id, encOf r.js t)))
      (teamTasksKey teamId) = none := by
    rw [afterSets_other]
    · rfl
    · intro p hp e
      obtain ⟨b, _, rfl⟩ := List.mem_map.1 hp
      exact taskKey_ne_teamTasksKey _ _ e
  obtain ⟨t0, ts0, rfl⟩ := List.exists_cons_of_ne_nil hne
  have hnle : ¬ r.ttl ≤ 0 := by omega
  have hbatch : execPipeline Store.empty (cacheBatch r.ttl (teamTasksKey teamId)
      ((t0 :: ts0).map (fun t => (taskKey t.Id, encOf r.js t))) ((t0 :: ts0).map zOf)) =
      (((afterSets r.ttl Store.empty ((t0 :: ts0).map (fun t => (taskKey t.Id, encOf r.js t)))).put
        (teamTasksKey teamId) (some ⟨.zset ((t0 :: ts0).map zOf), none⟩)).put
        (teamTasksKey teamId) (some ⟨.zset ((t0 :: ts0).map zOf), some r.ttl⟩), none) := by
    unfold cacheBatch
    rw [execPipeline_append, execPipeline_sets r.ttl httl]
    simp only [execPipeline, applyCmd]
    rw [hkey]
    simp only [List.map_cons] at hz ⊢
    simp only [hz, Store.put, if_true, hnle, if_false]
  unfold CacheTasks
  rw [if_neg hlen, cacheEntries_ok r.js _ hrt]
  simp only [hbatch]
  refine ⟨trivial, by simp [Store.put], ?_⟩
  intro t ht
  have hk := taskKey_ne_teamTasksKey t.Id teamId
  simp only [Store.put, hk, if_false]
  exact afterSets_record r.js r.ttl _ Store.empty hasc t ht

/-! ## Reading a populated index -/

theorem wrap64_of_range {x : Int} (hlo : -(2 ^ 63) ≤ x) (hhi : x < 2 ^ 63) : wrap64 x = x := by
  unfold wrap64
  omega

theorem stop_of_range {start limit : Int} (h0 : 0 ≤ start) (hk : 1 ≤ limit)
    (hsum : start + limit ≤ 2 ^ 63) :
    wrap64 (wrap64 (start + limit) - 1) = start + limit - 1 := by
  unfold wrap64
  omega

theorem zrangeOf_window (z : List Z) (s : Nat) (k : Int) (hs : s < z.length) (hk : 1 ≤ k) :
    zrangeOf z s (s + k - 1) = ((z.drop s).take k.toNat).map (fun y => y.Member) := by
  unfold zrangeOf
  simp only
  have h1 : ¬ ((s : Int) < 0) := by omega
  have h2 : ¬ ((s : Int) + k - 1 < 0) := by omega
  have h3 : ¬ ((s : Int) + k - 1 < s ∨ (z.length : Int) ≤ s) := by omega
  rw [if_neg h1, if_neg h2, if_neg h1, if_neg h3]
  congr 1
  simp only [Int.toNat_ofNat]
  by_cases h4 : (z.length : Int) ≤ (s : Int) + k - 1
  · rw [if_pos h4]
    have hlen : (z.drop s).length = z.length - s := List.length_drop _ _
    rw [List.take_of_length_le (by rw [hlen]; omega), List.take_of_length_le (by rw [hlen]; omega)]
  · rw [if_neg h4]
    congr 1
    omega

theorem decodeAll_strs (js : Codec) : ∀ (sel : List Model), (∀ t ∈ sel, Decodes js t = true) →
    decodeAll js (sel.map (fun t => MGetVal.str (encOf js t))) = some (sel.map (decOf js))
  | [], _ => rfl
  | t :: sel, h => by
    have ht := (decodes_spec (h t (List.mem_cons_self _ _))).2
    have hrec := decodeAll_strs js sel (fun a ha => h a (List.mem_cons_of_mem _ ha))
    simp [decodeAll, ht, hrec]

theorem sameFields_decOf (js : Codec) : ∀ (sel : List Model),
    (∀ t ∈ sel, RoundTrips js t = true) → List.Forall₂ SameFields sel (sel.map (decOf js))
  | [], _ => List.Forall₂.nil
  | t :: sel, h =>
    List.Forall₂.cons (roundTrips_spec (h t (List.mem_cons_self _ _))).2.2
      (sameFields_decOf js sel (fun a ha => h a (List.mem_cons_of_mem _ ha)))

theorem decoded_decOf (js : Codec) : ∀ (sel : List Model),
    (∀ t ∈ sel, Decodes js t = true) →
    List.Forall₂ (fun t t1 => ∃ b, js.Marshal t = .ok b ∧ js.Unmarshal b = some t1) sel
      (sel.map (decOf js))
  | [], _ => List.Forall₂.nil
  | t :: sel, h =>
    List.Forall₂.cons ⟨encOf js t, decodes_spec (h t (List.mem_cons_self _ _))⟩
      (decoded_decOf js sel (fun a ha => h a (List.mem_cons_of_mem _ ha)))

/-- The page read from rank `s` of a populated index: the `limit` tasks from position `s` on. -/
theorem listFromRank_populated (js : Codec) (st : Store) (teamId : Int) (tasks : List Model)
    (hpop : Populated js st teamId tasks) (hrt : ∀ t ∈ tasks, Decodes js t = true)
    (s : Nat) (k : Int) (hs : s < tasks.length) (hk : 1 ≤ k) (hsum : (s : Int) + k ≤ 2 ^ 63)
    (calls : List ClientCall) :
    listFromRank (redisClient st) js (teamTasksKey teamId) s k calls =
      ⟨some (((tasks.drop s).take k.toNat).map (decOf js)), true, none,
        calls ++ [ClientCall.ZRange (teamTasksKey teamId) s (s + k - 1)] ++
          [ClientCall.MGet (((tasks.drop s).take k.toNat).map (fun t => taskKey t.Id))]⟩ := by
  obtain ⟨⟨ttl, hidx⟩, hrec⟩ := hpop
  have hsel : ∀ t ∈ (tasks.drop s).take k.toNat, t ∈ tasks := fun t ht =>
    List.mem_of_mem_drop (List.mem_of_mem_take ht)
  have hrange : zrangeOf (tasks.map zOf) s (s + k - 1) =
      ((tasks.drop s).take k.toNat).map (fun t => Itoa t.Id) := by
    rw [zrangeOf_window _ _ _ (by simpa using hs) hk, ← List.map_drop, ← List.map_take,
      List.map_map]
    rfl
  have hne : ¬ (((tasks.drop s).take k.toNat).map (fun t => Itoa t.Id)).length = 0 := by
    rw [List.length_map, List.length_take, List.length_drop]
    omega
  have hkeys : (((tasks.drop s).take k.toNat).map (fun t => Itoa t.Id)).map taskKeyFromStr =
      ((tasks.drop s).take k.toNat).map (fun t => taskKey t.Id) := by
    rw [List.map_map]; rfl
  have hmget : (((tasks.drop s).take k.toNat).map (fun t => taskKey t.Id)).map (mgetOne st) =
      ((tasks.drop s).take k.toNat).map (fun t => MGetVal.str (encOf js t)) := by
    rw [List.map_map]
    apply List.map_congr_left
    intro t ht
    obtain ⟨ttl1, h1⟩ := hrec t (hsel t ht)
    simp [mgetOne, h1]
  unfold listFromRank
  simp only [stop_of_range (Int.natCast_nonneg s) hk hsum, redisClient, hidx, hrange, hne,
    if_false, hkeys, hmget, decodeAll_strs js _ (fun t ht => hrt t (hsel t ht))]

theorem CacheTasks_populated (r : redis) (teamId : Int) (tasks : List Model) (hne : tasks ≠ [])
    (hasc : (tasks.map (fun t => t.Id)).Pairwise (· < ·)) (hex : ∀ t ∈ tasks, ExactId t)
    (hrt : ∀ t ∈ tasks, Decodes r.js t = true) (httl : 0 < r.ttl) :
    Populated r.js (CacheTasks r Store.empty teamId tasks).store teamId tasks := by
  obtain ⟨_, hidx, hrec⟩ := CacheTasks_store r teamId tasks hne hasc hex hrt httl
  exact ⟨⟨_, hidx⟩, fun t ht => ⟨_, hrec t ht⟩⟩

/-! ## C1: first page after a population -/

/-- C1, as amended: for every non-empty list of tasks with strictly ascending ids, each at least
-2^53 and below 2^53, each of which `json.Marshal` serialises without error into bytes that
`json.Unmarshal` accepts, written by `CacheTasks` of a repository with a positive time to live
into an empty cache, and every limit `k` with `1 ≤ k` (a Go `int`),
`ListTasksFromCache(teamId, k, nil)` returns `hit = true`, a nil error and exactly `min k N`
tasks: in the order written, the i-th returned task is the one `json.Unmarshal` reads from the
bytes `json.Marshal` gave for the i-th written task. It therefore has the same `Id`, `Status`,
`Title`, `Description`, `CreatorId`, `AssigneeId` and `TeamId` as the written task whenever the
JSON round trip of the returned tasks keeps these fields. -/
theorem C1_first_page (r : redis) (teamId : Int) (tasks : List Model) (k : Int)
    (hne : tasks ≠ []) (hasc : (tasks.map (fun t => t.Id)).Pairwise (· < ·))
    (hlo : ∀ t ∈ tasks, -(2 ^ 53) ≤ t.Id) (hhi : ∀ t ∈ tasks, t.Id < 2 ^ 53)
    (hjson : ∀ t ∈ tasks, Decodes r.js t = true) (httl : 0 < r.ttl)
    (hk : 1 ≤ k) (hk64 : k ≤ maxInt64) :
    (CacheTasks r Store.empty teamId tasks).err = none ∧
      ∃ page,
        (ListTasksFromCache r (redisClient (CacheTasks r Store.empty teamId tasks).store)
          teamId k none).tasks = some page ∧
        (ListTasksFromCache r (redisClient (CacheTasks r Store.empty teamId tasks).store)
          teamId k none).hit = true ∧
        (ListTasksFromCache r (redisClient (CacheTasks r Store.empty teamId tasks).store)
          teamId k none).err = none ∧
        page.length = min k.toNat tasks.length ∧
        List.Forall₂ (fun t t1 => ∃ b, r.js.Marshal t = .ok b ∧ r.js.Unmarshal b = some t1)
          (tasks.take k.toNat) page ∧
        ((∀ t ∈ tasks.take k.toNat, RoundTrips r.js t = true) →
          List.Forall₂ SameFields (tasks.take k.toNat) page) := by
  have hex : ∀ t ∈ tasks, ExactId t := fun t ht => ⟨hlo t ht, le_of_lt (hhi t ht)⟩
  have hpop := CacheTasks_populated r teamId tasks hne hasc hex hjson httl
  have hpos : 0 < tasks.length := List.length_pos.2 hne
  have hsum : ((0 : Nat) : Int) + k ≤ 2 ^ 63 := by
    unfold maxInt64 at hk64; omega
  have hpage := listFromRank_populated r.js _ teamId tasks hpop hjson 0 k hpos hk hsum []
  refine ⟨(CacheTasks_store r teamId tasks hne hasc hex hjson httl).1,
    (tasks.take k.toNat).map (decOf r.js), ?_⟩
  have hnk : ¬ k ≤ 0 := by omega
  simp only [ListTasksFromCache, hnk, if_false]
  simp only [Nat.cast_zero, List.drop_zero] at hpage
  rw [hpage]
  refine ⟨rfl, rfl, rfl, ?_, ?_, ?_⟩
  · simp [List.length_take]
  · exact decoded_decOf r.js _ (fun t ht => hjson t (List.mem_of_mem_take ht))
  · exact sameFields_decOf r.js _

/-- The claim C1 as stated fails below -2^53: the ids -9007199254740993 and -9007199254740992
are strictly ascending and below 2^53, but both have the score -2^53, the index orders them by
member text, and the first page comes back in descending id order. -/
theorem C1_counterexample :
    (([sampleTask (-9007199254740993) "a", sampleTask (-9007199254740992) "b"].map
        (fun t => t.Id)).Pairwise (· < ·) ∧
      (∀ t ∈ [sampleTask (-9007199254740993) "a", sampleTask (-9007199254740992) "b"],
        t.Id < 2 ^ 53 ∧ RoundTrips sampleRepo.js t = true)) ∧
      (ListTasksFromCache sampleRepo (redisClient (CacheTasks sampleRepo Store.empty 5
          [sampleTask (-9007199254740993) "a", sampleTask (-9007199254740992) "b"]).store)
        5 2 none).tasks =
        some [sampleTask (-9007199254740992) "b", sampleTask (-9007199254740993) "a"] ∧
      ¬ List.Forall₂ SameFields
        [sampleTask (-9007199254740993) "a", sampleTask (-9007199254740992) "b"]
        [sampleTask (-9007199254740992) "b", sampleTask (-9007199254740993) "a"] := by
  refine ⟨by decide, by decide, ?_⟩
  intro h
  cases h with
  | cons h1 _ => exact absurd h1.1 (by decide)

/-- Instance of C1 at three tasks and limit 2, with the reference codec: the page is the first
two tasks. -/
theorem C1_first_page_witness :
    (CacheTasks sampleRepo Store.empty 5
        [sampleTask 1 "a", sampleTask 2 "b", sampleTask 3 "c"]).err = none ∧
      ∃ page,
        (ListTasksFromCache sampleRepo (redisClient (CacheTasks sampleRepo Store.empty 5
          [sampleTask 1 "a", sampleTask 2 "b", sampleTask 3 "c"]).store) 5 2 none).tasks
            = some page ∧
        (ListTasksFromCache sampleRepo (redisClient (CacheTasks sampleRepo Store.empty 5
          [sampleTask 1 "a", sampleTask 2 "b", sampleTask 3 "c"]).store) 5 2 none).hit = true ∧
        (ListTasksFromCache sampleRepo (redisClient (CacheTasks sampleRepo Store.empty 5
          [sampleTask 1 "a", sampleTask 2 "b", sampleTask 3 "c"]).store) 5 2 none).err = none ∧
        page.length =
          min (2 : Int).toNat [sampleTask 1 "a", sampleTask 2 "b", sampleTask 3 "c"].length ∧
        List.Forall₂
          (fun t t1 => ∃ b, sampleRepo.js.Marshal t = .ok b ∧ sampleRepo.js.Unmarshal b = some t1)
          ([sampleTask 1 "a", sampleTask 2 "b", sampleTask 3 "c"].take (2 : Int).toNat) page ∧
        ((∀ t ∈ [sampleTask 1 "a", sampleTask 2 "b", sampleTask 3 "c"].take (2 : Int).toNat,
            RoundTrips sampleRepo.js t = true) →
          List.Forall₂ SameFields
            ([sampleTask 1 "a", sampleTask 2 "b", sampleTask 3 "c"].take (2 : Int).toNat) page) :=
  C1_first_page sampleRepo 5 [sampleTask 1 "a", sampleTask 2 "b", sampleTask 3 "c"] 2
    (by decide) (by decide) (by decide) (by decide) (by decide) (by decide) (by decide)
    (by decide)

/-! ## C2: the page after a cursor -/

/-- C2, as amended: for a team populated by `CacheTasks` (positive time to live, empty cache
before) with tasks of strictly ascending ids, each between -2^53 and 2^53, each of which
`json.Marshal` serialises without error into bytes that `json.Unmarshal` accepts, for every
limit `k ≥ 1` and every cursor task at position `j = i + 1` with `j < N` and `j + k ≤ 2^63`,
`ListTasksFromCache(teamId, k, &ij.Id)` returns `hit = true`, a nil error and exactly
`min k (N - j)` tasks, which are, in order, what `json.Unmarshal` reads from the bytes
`json.Marshal` gave for the written tasks at positions `j+1 .. min(j+k, N)`: the page starts
immediately after the cursor. These tasks have the same `Id`, `Status`, `Title`, `Description`,
`CreatorId`, `AssigneeId` and `TeamId` as the written ones whenever the JSON round trip keeps
these fields. -/
theorem C2_next_page (r : redis) (teamId : Int) (tasks : List Model) (k : Int) (i : Nat)
    (hi : i + 1 < tasks.length) (hasc : (tasks.map (fun t => t.Id)).Pairwise (· < ·))
    (hlo : ∀ t ∈ tasks, -(2 ^ 53) ≤ t.Id) (hhi : ∀ t ∈ tasks, t.Id ≤ 2 ^ 53)
    (hjson : ∀ t ∈ tasks, Decodes r.js t = true) (httl : 0 < r.ttl)
    (hk : 1 ≤ k) (hsum : ((i + 1 : Nat) : Int) + k ≤ 2 ^ 63) :
    ∃ page,
      (ListTasksFromCache r (redisClient (CacheTasks r Store.empty teamId tasks).store)
        teamId k (some (tasks.get ⟨i, Nat.lt_of_succ_lt hi⟩).Id)).tasks = some page ∧
      (ListTasksFromCache r (redisClient (CacheTasks r Store.empty teamId tasks).store)
        teamId k (some (tasks.get ⟨i, Nat.lt_of_succ_lt hi⟩).Id)).hit = true ∧
      (ListTasksFromCache r (redisClient (CacheTasks r Store.empty teamId tasks).store)
        teamId k (some (tasks.get ⟨i, Nat.lt_of_succ_lt hi⟩).Id)).err = none ∧
      page.length = min k.toNat (tasks.length - (i + 1)) ∧
      List.Forall₂ (fun t t1 => ∃ b, r.js.Marshal t = .ok b ∧ r.js.Unmarshal b = some t1)
        ((tasks.drop (i + 1)).take k.toNat) page ∧
      ((∀ t ∈ (tasks.drop (i + 1)).take k.toNat, RoundTrips r.js t = true) →
        List.Forall₂ SameFields ((tasks.drop (i + 1)).take k.toNat) page) := by
  have hne : tasks ≠ [] := by
    intro h; rw [h] at hi; simp at hi
  have hex : ∀ t ∈ tasks, ExactId t := fun t ht => ⟨hlo t ht, hhi t ht⟩
  have hpop := CacheTasks_populated r teamId tasks hne hasc hex hjson httl
  have hpage := listFromRank_populated r.js _ teamId tasks hpop hjson (i + 1) k hi hk hsum
    [ClientCall.ZRank (teamTasksKey teamId) (Itoa (tasks.get ⟨i, Nat.lt_of_succ_lt hi⟩).Id)]
  have hrank := zrankOf_map tasks i (Nat.lt_of_succ_lt hi) hasc
  obtain ⟨⟨ttl, hidx⟩, _⟩ := hpop
  have hnk : ¬ k ≤ 0 := by omega
  have hw : wrap64 ((i : Int) + 1) = ((i + 1 : Nat) : Int) := by
    rw [wrap64_of_range (by omega) (by omega)]
    simp
  have hz : (redisClient (CacheTasks r Store.empty teamId tasks).store).ZRank
      (teamTasksKey teamId) (Itoa (tasks.get ⟨i, Nat.lt_of_succ_lt hi⟩).Id) = .rank (i : Int) := by
    simp only [redisClient, hidx, hrank]
  refine ⟨((tasks.drop (i + 1)).take k.toNat).map (decOf r.js), ?_⟩
  simp only [ListTasksFromCache, hnk, if_false, hz, hw]
  rw [hpage]
  refine ⟨rfl, rfl, rfl, ?_, ?_, ?_⟩
  · simp [List.length_take, List.length_drop]
  · exact decoded_decOf r.js _
      (fun t ht => hjson t (List.mem_of_mem_drop (List.mem_of_mem_take ht)))
  · exact sameFields_decOf r.js _

/-- The claim C2 as stated fails in two ways. With the strictly ascending ids 1,
9999999999999999, 10000000000000000 the last two have the same score 10^16 and are indexed in
the order of their decimal text, so the page after the cursor 1 is not the tasks at positions
2 and 3 in order. With ids 1, 2, 3, the cursor at position 2 and the limit 2^63 - 1 the end of
the range overflows and the lookup is a miss. -/
theorem C2_counterexample :
    ((([sampleTask 1 "a", sampleTask 9999999999999999 "b", sampleTask 10000000000000000 "c"].map
        (fun t => t.Id)).Pairwise (· < ·)) ∧
      (ListTasksFromCache sampleRepo (redisClient (CacheTasks sampleRepo Store.empty 5
          [sampleTask 1 "a", sampleTask 9999999999999999 "b",
            sampleTask 10000000000000000 "c"]).store) 5 2 (some 1)).tasks =
        some [sampleTask 10000000000000000 "c", sampleTask 9999999999999999 "b"]) ∧
    ((ListTasksFromCache sampleRepo (redisClient (CacheTasks sampleRepo Store.empty 5
          [sampleTask 1 "a", sampleTask 2 "b", sampleTask 3 "c"]).store) 5 (2 ^ 63 - 1)
          (some 2)).tasks = none ∧
      (ListTasksFromCache sampleRepo (redisClient (CacheTasks sampleRepo Store.empty 5
          [sampleTask 1 "a", sampleTask 2 "b", sampleTask 3 "c"]).store) 5 (2 ^ 63 - 1)
          (some 2)).hit = false) := by
  refine ⟨⟨by decide, by decide⟩, by decide, by decide⟩

/-- Instance of C2 at the tasks 1, 2, 3, cursor 2 and limit 2: the page is task 3. -/
theorem C2_next_page_witness :
    ∃ page,
      (ListTasksFromCache sampleRepo (redisClient (CacheTasks sampleRepo Store.empty 5
        [sampleTask 1 "a", sampleTask 2 "b", sampleTask 3 "c"]).store) 5 2
        (some ([sampleTask 1 "a", sampleTask 2 "b", sampleTask 3 "c"].get
          ⟨1, Nat.lt_of_succ_lt (by decide)⟩).Id)).tasks = some page ∧
      (ListTasksFromCache sampleRepo (redisClient (CacheTasks sampleRepo Store.empty 5
        [sampleTask 1 "a", sampleTask 2 "b", sampleTask 3 "c"]).store) 5 2
        (some ([sampleTask 1 "a", sampleTask 2 "b", sampleTask 3 "c"].get
          ⟨1, Nat.lt_of_succ_lt (by decide)⟩).Id)).hit = true ∧
      (ListTasksFromCache sampleRepo (redisClient (CacheTasks sampleRepo Store.empty 5
        [sampleTask 1 "a", sampleTask 2 "b", sampleTask 3 "c"]).store) 5 2
        (some ([sampleTask 1 "a", sampleTask 2 "b", sampleTask 3 "c"].get
          ⟨1, Nat.lt_of_succ_lt (by decide)⟩).Id)).err = none ∧
      page.length = min (2 : Int).toNat
        ([sampleTask 1 "a", sampleTask 2 "b", sampleTask 3 "c"].length - (1 + 1)) ∧
      List.Forall₂
        (fun t t1 => ∃ b, sampleRepo.js.Marshal t = .ok b ∧ sampleRepo.js.Unmarshal b = some t1)
        (([sampleTask 1 "a", sampleTask 2 "b", sampleTask 3 "c"].drop (1 + 1)).take
          (2 : Int).toNat) page ∧
      ((∀ t ∈ ([sampleTask 1 "a", sampleTask 2 "b", sampleTask 3 "c"].drop (1 + 1)).take
          (2 : Int).toNat, RoundTrips sampleRepo.js t = true) →
        List.Forall₂ SameFields
          (([sampleTask 1 "a", sampleTask 2 "b", sampleTask 3 "c"].drop (1 + 1)).take
            (2 : Int).toNat) page) :=
  C2_next_page sampleRepo 5 [sampleTask 1 "a", sampleTask 2 "b", sampleTask 3 "c"] 2 1
    (by decide) (by decide) (by decide) (by decide) (by decide) (by decide) (by decide)
    (by decide)

/-! ## C3: a missing record makes the whole lookup a miss -/

theorem decodeAll_nil (js : Codec) : ∀ (vs : List MGetVal), MGetVal.nil ∈ vs →
    decodeAll js vs = none
  | [], h => by simp at h
  | v :: vs, h => by
    rcases List.mem_cons.1 h with rfl | hmem
    · rfl
    · have hrec := decodeAll_nil js vs hmem
      unfold decodeAll
      cases v <;> simp only [hrec, Option.map_none']
      all_goals (split <;> rfl)

theorem listFromRank_missing (c : Client) (js : Codec) (zKey : String) (start limit : Int)
    (calls : List ClientCall) (idStrs : List String) (vals : List MGetVal)
    (hrange : c.ZRange zKey start (wrap64 (wrap64 (start + limit) - 1)) = .ok idStrs)
    (hmget : c.MGet (idStrs.map taskKeyFromStr) = .ok vals) (hnil : MGetVal.nil ∈ vals) :
    (listFromRank c js zKey start limit calls).tasks = none ∧
      (listFromRank c js zKey start limit calls).hit = false ∧
      (listFromRank c js zKey start limit calls).err = none := by
  unfold listFromRank
  simp only [hrange, hmget, decodeAll_nil js vals hnil]
  split <;> exact ⟨rfl, rfl, rfl⟩

/-- C3: when the index of the team lists, within the rank range requested (from rank 0 without a
cursor, from the rank after the cursor otherwise), a member whose record key `task:<member>` is
absent from the store, `ListTasksFromCache` returns `(nil, false, nil)`, whatever the other
records hold. -/
theorem C3_missing_record_is_miss (r : redis) (st : Store) (teamId limit : Int)
    (startFromID : Option Int) (z : List Z) (ttl : Option Int) (start : Int)
    (hlimit : 1 ≤ limit)
    (hidx : st (teamTasksKey teamId) = some ⟨.zset z, ttl⟩)
    (hstart : (startFromID = none ∧ start = 0) ∨
      ∃ id rank, startFromID = some id ∧ zrankOf (Itoa id) z = some rank ∧
        start = wrap64 ((rank : Int) + 1))
    (hmiss : ∃ m ∈ zrangeOf z start (wrap64 (wrap64 (start + limit) - 1)),
      st (taskKeyFromStr m) = none) :
    (ListTasksFromCache r (redisClient st) teamId limit startFromID).tasks = none ∧
      (ListTasksFromCache r (redisClient st) teamId limit startFromID).hit = false ∧
      (ListTasksFromCache r (redisClient st) teamId limit startFromID).err = none := by
  obtain ⟨m, hm, habs⟩ := hmiss
  have hnk : ¬ limit ≤ 0 := by omega
  have hrange : (redisClient st).ZRange (teamTasksKey teamId) start
      (wrap64 (wrap64 (start + limit) - 1)) =
      .ok (zrangeOf z start (wrap64 (wrap64 (start + limit) - 1))) := by
    simp only [redisClient, hidx]
  have hmget : (redisClient st).MGet
      ((zrangeOf z start (wrap64 (wrap64 (start + limit) - 1))).map taskKeyFromStr) =
      .ok (((zrangeOf z start (wrap64 (wrap64 (start + limit) - 1))).map taskKeyFromStr).map
        (mgetOne st)) := rfl
  have hnil : MGetVal.nil ∈
      ((zrangeOf z start (wrap64 (wrap64 (start + limit) - 1))).map taskKeyFromStr).map
        (mgetOne st) := by
    refine List.mem_map.2 ⟨taskKeyFromStr m, List.mem_map_of_mem _ hm, ?_⟩
    simp [mgetOne, habs]
  rcases hstart with ⟨hcur, hst⟩ | ⟨id, rank, hcur, hrank, hst⟩
  · simp only [hcur, ListTasksFromCache, hnk, if_false]
    rw [← hst]
    exact listFromRank_missing _ _ _ _ _ _ _ _ hrange hmget hnil
  · have hz : (redisClient st).ZRank (teamTasksKey teamId) (Itoa id) = .rank (rank : Int) := by
      simp only [redisClient, hidx, hrank]
    simp only [hcur, ListTasksFromCache, hnk, if_false, hz]
    rw [← hst]
    exact listFromRank_missing _ _ _ _ _ _ _ _ hrange hmget hnil

/-- Instance of C3 on `evictedStore`, first page of limit 3. -/
theorem C3_missing_record_is_miss_witness :
    (ListTasksFromCache sampleRepo (redisClient evictedStore) 5 3 none).tasks = none ∧
      (ListTasksFromCache sampleRepo (redisClient evictedStore) 5 3 none).hit = false ∧
      (ListTasksFromCache sampleRepo (redisClient evictedStore) 5 3 none).err = none :=
  C3_missing_record_is_miss sampleRepo evictedStore 5 3 none
    [zOf (sampleTask 1 "a"), zOf (sampleTask 2 "b"), zOf (sampleTask 3 "c")] (some 60000000000) 0
    (by decide) (by decide) (Or.inl ⟨rfl, rfl⟩) ⟨"2", by decide, by decide⟩

/-! ## C4: a cursor that is not in the index -/

theorem zrankOf_none (member : String) : ∀ (z : List Z), (∀ y ∈ z, y.Member ≠ member) →
    zrankOf member z = none
  | [], _ => rfl
  | y :: ys, h => by
    have hy := h y (List.mem_cons_self _ _)
    have := zrankOf_none member ys (fun a ha => h a (List.mem_cons_of_mem _ ha))
    simp [zrankOf, hy, this]

/-- C4: for every limit `≥ 1` and every cursor id that is not a member of the index of the team
(the index is absent, or does not list the id), `ListTasksFromCache(teamId, limit, &id)` returns
`(nil, false, nil)` and its only read is the `ZRANK` of the cursor: no range of the index and no
record is read. -/
theorem C4_unknown_cursor_is_miss (r : redis) (st : Store) (teamId limit id : Int)
    (hlimit : 1 ≤ limit)
    (hidx : st (teamTasksKey teamId) = none ∨
      ∃ z ttl, st (teamTasksKey teamId) = some ⟨.zset z, ttl⟩ ∧ ∀ y ∈ z, y.Member ≠ Itoa id) :
    (ListTasksFromCache r (redisClient st) teamId limit (some id)).tasks = none ∧
      (ListTasksFromCache r (redisClient st) teamId limit (some id)).hit = false ∧
      (ListTasksFromCache r (redisClient st) teamId limit (some id)).err = none ∧
      (ListTasksFromCache r (redisClient st) teamId limit (some id)).calls =
        [ClientCall.ZRank (teamTasksKey teamId) (Itoa id)] := by
  have hnk : ¬ limit ≤ 0 := by omega
  have hz : (redisClient st).ZRank (teamTasksKey teamId) (Itoa id) = .Nil := by
    rcases hidx with h | ⟨z, ttl, h, hmem⟩
    · simp only [redisClient, h]
    · simp only [redisClient, h, zrankOf_none _ z hmem]
  simp [ListTasksFromCache, hnk, hz]

/-- Instance of C4 on the index of the tasks 1, 2, 3 with the cursor
7. -/
theorem C4_unknown_cursor_is_miss_witness :
    (ListTasksFromCache sampleRepo (redisClient (CacheTasks sampleRepo Store.empty 5
        [sampleTask 1 "a", sampleTask 2 "b", sampleTask 3 "c"]).store) 5 2 (some 7)).tasks = none ∧
      (ListTasksFromCache sampleRepo (redisClient (CacheTasks sampleRepo Store.empty 5
        [sampleTask 1 "a", sampleTask 2 "b", sampleTask 3 "c"]).store) 5 2 (some 7)).hit = false ∧
      (ListTasksFromCache sampleRepo (redisClient (CacheTasks sampleRepo Store.empty 5
        [sampleTask 1 "a", sampleTask 2 "b", sampleTask 3 "c"]).store) 5 2 (some 7)).err = none ∧
      (ListTasksFromCache sampleRepo (redisClient (CacheTasks sampleRepo Store.empty 5
        [sampleTask 1 "a", sampleTask 2 "b", sampleTask 3 "c"]).store) 5 2 (some 7)).calls =
        [ClientCall.ZRank (teamTasksKey 5) (Itoa 7)] :=
  C4_unknown_cursor_is_miss sampleRepo _ 5 2 7 (by decide)
    (Or.inr ⟨[zOf (sampleTask 1 "a"), zOf (sampleTask 2 "b"), zOf (sampleTask 3 "c")],
      some 60000000000, by decide, by decide⟩)

/-! ## Circuit breaker: one call -/

theorem RoundTrip_rejected (cb : CircuitBreakerRoundTripper) (a : Attempt)
    (hopen : cb.state = .Open) (hwait : timeSince a.checkedAt cb.lastFailure ≤ cb.resetTimeout) :
    RoundTrip cb a = ⟨cb, none, some "circuit breaker is open", false⟩ := by
  have : ¬ timeSince a.checkedAt cb.lastFailure > cb.resetTimeout := by omega
  simp [RoundTrip, admitCall, hopen, this]

theorem RoundTrip_probe (cb : CircuitBreakerRoundTripper) (a : Attempt)
    (hopen : cb.state = .Open) (hwait : cb.resetTimeout < timeSince a.checkedAt cb.lastFailure) :
    RoundTrip cb a = ⟨record { cb with state := .HalfOpen } a, a.resp, a.err, true⟩ := by
  simp [RoundTrip, admitCall, hopen, hwait]

theorem RoundTrip_closed (cb : CircuitBreakerRoundTripper) (a : Attempt)
    (hclosed : cb.state = .Closed) :
    RoundTrip cb a = ⟨record cb a, a.resp, a.err, true⟩ := by
  simp [RoundTrip, admitCall, hclosed]

theorem rejected_run (cb : CircuitBreakerRoundTripper) (hopen : cb.state = .Open) :
    ∀ (more : List Attempt),
      (∀ a ∈ more, timeSince a.checkedAt cb.lastFailure ≤ cb.resetTimeout) →
      afterCalls cb more = cb ∧ ∀ o ∈ outcomes cb more,
        o = ⟨cb, none, some "circuit breaker is open", false⟩
  | [], _ => ⟨rfl, by simp [outcomes]⟩
  | a :: more, h => by
    have ha := RoundTrip_rejected cb a hopen (h a (List.mem_cons_self _ _))
    have hrec := rejected_run cb hopen more (fun x hx => h x (List.mem_cons_of_mem _ hx))
    simp only [afterCalls, outcomes, ha, List.mem_cons]
    refine ⟨hrec.1, ?_⟩
    rintro o (rfl | ho)
    · rfl
    · exact hrec.2 o ho

/-- A run of failing calls on a Closed breaker whose counter is short of the threshold by the
length of the run: every call is attempted, the last one opens the breaker. -/
theorem failing_run_opens : ∀ (fails : List Attempt) (cb : CircuitBreakerRoundTripper),
    cb.state = .Closed → fails ≠ [] →
    cb.failures + (fails.length : Int) = cb.failureThreshold →
    (∀ a ∈ fails, isFailure a = true) →
    (afterCalls cb fails).state = .Open ∧
      (afterCalls cb fails).resetTimeout = cb.resetTimeout ∧
      ∀ o ∈ outcomes cb fails, o.invoked = true
  | [], _, _, hne, _, _ => absurd rfl hne
  | a :: rest, cb, hclosed, _, hlen, hfail => by
    have hstep := RoundTrip_closed cb a hclosed
    have hfa := hfail a (List.mem_cons_self _ _)
    simp only [List.length_cons, Nat.cast_succ] at hlen
    by_cases hrest : rest = []
    · subst hrest
      simp only [List.length_nil, Nat.cast_zero] at hlen
      have hthr : cb.failureThreshold ≤ cb.failures + 1 := by omega
      simp [afterCalls, outcomes, hstep, record, hfa, hclosed, hthr]
    · have hthr : ¬ cb.failureThreshold ≤ cb.failures + 1 := by
        have : 0 < rest.length := List.length_pos.2 hrest
        omega
      have hcb : (RoundTrip cb a).cb =
          { cb with failures := cb.failures + 1, lastFailure := a.recordedAt } := by
        simp [hstep, record, hfa, hclosed, hthr]
      have hrec := failing_run_opens rest (RoundTrip cb a).cb (by rw [hcb]; exact hclosed) hrest
        (by rw [hcb]; simp only; omega) (fun x hx => hfail x (List.mem_cons_of_mem _ hx))
      simp only [afterCalls, outcomes, List.mem_cons]
      refine ⟨hrec.1, by rw [hrec.2.1, hcb], ?_⟩
      rintro o (rfl | ho)
      · rw [hstep]
      · exact hrec.2.2 o ho

/-! ## C5: the breaker opens after `failureThreshold` consecutive failures -/

/-- C5: for a breaker built with `failureThreshold = n ≥ 1`, after `n` consecutive calls whose
underlying call fails (all of them attempted), the breaker is Open, and every further call made
while `time.Since(lastFailure)` does not exceed `resetTimeout` returns a nil response and the
error "circuit breaker is open" without invoking the transport, leaving the breaker unchanged. -/
theorem C5_open_after_threshold (n resetTimeout : Int) (hn : 1 ≤ n) (fails more : List Attempt)
    (hlen : (fails.length : Int) = n) (hfail : ∀ a ∈ fails, isFailure a = true)
    (hmore : ∀ a ∈ more, timeSince a.checkedAt
      (afterCalls (NewCircuitBreakerRoundTripper n resetTimeout) fails).lastFailure
        ≤ resetTimeout) :
    (∀ o ∈ outcomes (NewCircuitBreakerRoundTripper n resetTimeout) fails, o.invoked = true) ∧
      (afterCalls (NewCircuitBreakerRoundTripper n resetTimeout) fails).state = .Open ∧
      (∀ o ∈ outcomes (afterCalls (NewCircuitBreakerRoundTripper n resetTimeout) fails) more,
        o.resp = none ∧ o.err = some "circuit breaker is open" ∧ o.invoked = false) ∧
      afterCalls (afterCalls (NewCircuitBreakerRoundTripper n resetTimeout) fails) more =
        afterCalls (NewCircuitBreakerRoundTripper n resetTimeout) fails := by
  have hne : fails ≠ [] := by
    intro h; rw [h] at hlen; simp at hlen; omega
  obtain ⟨hopen, hrt, hinv⟩ := failing_run_opens fails (NewCircuitBreakerRoundTripper n resetTimeout)
    rfl hne (by simp [NewCircuitBreakerRoundTripper, hlen]) hfail
  have hrt2 : (afterCalls (NewCircuitBreakerRoundTripper n resetTimeout) fails).resetTimeout =
      resetTimeout := hrt
  obtain ⟨hsame, hrej⟩ := rejected_run _ hopen more (by rw [hrt2]; exact hmore)
  refine ⟨hinv, hopen, ?_, hsame⟩
  intro o ho
  rw [hrej o ho]
  exact ⟨rfl, rfl, rfl⟩

/-- Instance of C5 with threshold 2 and a timeout of 10: two failures at
clocks 100 and 101, then two calls at clocks 105 and 111 are rejected. -/
theorem C5_open_after_threshold_witness :
    (∀ o ∈ outcomes (NewCircuitBreakerRoundTripper 2 10) [failedCall 100, failedCall 101],
        o.invoked = true) ∧
      (afterCalls (NewCircuitBreakerRoundTripper 2 10) [failedCall 100, failedCall 101]).state
        = .Open ∧
      (∀ o ∈ outcomes (afterCalls (NewCircuitBreakerRoundTripper 2 10)
          [failedCall 100, failedCall 101]) [okCall 105, okCall 111],
        o.resp = none ∧ o.err = some "circuit breaker is open" ∧ o.invoked = false) ∧
      afterCalls (afterCalls (NewCircuitBreakerRoundTripper 2 10)
          [failedCall 100, failedCall 101]) [okCall 105, okCall 111] =
        afterCalls (NewCircuitBreakerRoundTripper 2 10) [failedCall 100, failedCall 101] :=
  C5_open_after_threshold 2 10 (by decide) [failedCall 100, failedCall 101]
    [okCall 105, okCall 111] (by decide) (by decide) (by decide)

/-! ## C6: a successful probe closes the breaker with a zero counter -/

/-- C6: when the breaker is Open and `time.Since(lastFailure)` exceeds `resetTimeout`, the next
`RoundTrip` invokes the transport and returns its result; if that result is a success (no error
and no status of 400 or more) the breaker is afterwards Closed with a failure counter of 0.
More generally, every `RoundTrip` that takes a breaker that is not Closed to Closed leaves the
counter at 0. -/
theorem C6_probe_success_closes (cb : CircuitBreakerRoundTripper) (a : Attempt) :
    (cb.state = .Open → cb.resetTimeout < timeSince a.checkedAt cb.lastFailure →
      (RoundTrip cb a).invoked = true ∧ (RoundTrip cb a).resp = a.resp ∧
        (RoundTrip cb a).err = a.err ∧
        (isFailure a = false →
          (RoundTrip cb a).cb.state = .Closed ∧ (RoundTrip cb a).cb.failures = 0)) ∧
      (cb.state ≠ .Closed → (RoundTrip cb a).cb.state = .Closed →
        (RoundTrip cb a).cb.failures = 0) := by
  constructor
  · intro hopen hwait
    rw [RoundTrip_probe cb a hopen hwait]
    refine ⟨rfl, rfl, rfl, ?_⟩
    intro hok
    simp [record, hok]
  · intro hnc hres
    cases hs : cb.state with
    | Closed => exact absurd hs hnc
    | Open =>
      by_cases hwait : cb.resetTimeout < timeSince a.checkedAt cb.lastFailure
      · rw [RoundTrip_probe cb a hs hwait] at hres ⊢
        by_cases hf : isFailure a = true
        · simp [record, hf] at hres
        · simp [record, hf]
      · rw [RoundTrip_rejected cb a hs (by omega)] at hres
        simp [hs] at hres
    | HalfOpen =>
      have hstep : RoundTrip cb a = ⟨record cb a, a.resp, a.err, true⟩ := by
        simp [RoundTrip, admitCall, hs]
      rw [hstep] at hres ⊢
      by_cases hf : isFailure a = true
      · simp [record, hf, hs] at hres
      · simp [record, hf, hs]

/-- Instance of C6 on a breaker opened at clock 101 with a timeout of
10: the call at clock 112 is a probe, it succeeds, and the breaker is Closed with counter 0. -/
theorem C6_probe_success_closes_witness :
    (RoundTrip (afterCalls (NewCircuitBreakerRoundTripper 2 10) [failedCall 100, failedCall 101])
        (okCall 112)).invoked = true ∧
      (RoundTrip (afterCalls (NewCircuitBreakerRoundTripper 2 10)
        [failedCall 100, failedCall 101]) (okCall 112)).cb.state = .Closed ∧
      (RoundTrip (afterCalls (NewCircuitBreakerRoundTripper 2 10)
        [failedCall 100, failedCall 101]) (okCall 112)).cb.failures = 0 :=
  ⟨((C6_probe_success_closes (afterCalls (NewCircuitBreakerRoundTripper 2 10)
      [failedCall 100, failedCall 101]) (okCall 112)).1 (by decide) (by decide)).1,
    (((C6_probe_success_closes (afterCalls (NewCircuitBreakerRoundTripper 2 10)
      [failedCall 100, failedCall 101]) (okCall 112)).1 (by decide) (by decide)).2.2.2
        (by decide)).1,
    (C6_probe_success_closes (afterCalls (NewCircuitBreakerRoundTripper 2 10)
      [failedCall 100, failedCall 101]) (okCall 112)).2 (by decide) (by decide)⟩

/-! ## C7: a failed probe reopens the breaker and restarts the timeout -/

/-- C7: when a probe admitted after `resetTimeout` fails, whatever the failure counter and the
threshold are, the breaker is Open again and `lastFailure` is the time of that probe; the calls
that follow are rejected without invoking the transport, leaving the breaker unchanged, as long
as `time.Since` of the probe's failure does not exceed `resetTimeout`, and the first call made
once it does is attempted. -/
theorem C7_probe_failure_reopens (cb : CircuitBreakerRoundTripper) (a : Attempt)
    (more : List Attempt) (next : Attempt)
    (hopen : cb.state = .Open) (hwait : cb.resetTimeout < timeSince a.checkedAt cb.lastFailure)
    (hfail : isFailure a = true)
    (hmore : ∀ x ∈ more, timeSince x.checkedAt a.recordedAt ≤ cb.resetTimeout)
    (hnext : cb.resetTimeout < timeSince next.checkedAt a.recordedAt) :
    (RoundTrip cb a).invoked = true ∧
      (RoundTrip cb a).cb.state = .Open ∧
      (RoundTrip cb a).cb.lastFailure = a.recordedAt ∧
      (∀ o ∈ outcomes (RoundTrip cb a).cb more,
        o.resp = none ∧ o.err = some "circuit breaker is open" ∧ o.invoked = false) ∧
      afterCalls (RoundTrip cb a).cb more = (RoundTrip cb a).cb ∧
      (RoundTrip (afterCalls (RoundTrip cb a).cb more) next).invoked = true := by
  have hstep := RoundTrip_probe cb a hopen hwait
  have hcb : (RoundTrip cb a).cb =
      { cb with state := .Open, failures := cb.failures + 1, lastFailure := a.recordedAt } := by
    simp [hstep, record, hfail]
  obtain ⟨hsame, hrej⟩ := rejected_run (RoundTrip cb a).cb (by rw [hcb]) more
    (by rw [hcb]; exact hmore)
  refine ⟨by rw [hstep], by rw [hcb], by rw [hcb], ?_, hsame, ?_⟩
  · intro o ho
    rw [hrej o ho]
    exact ⟨rfl, rfl, rfl⟩
  · rw [hsame, RoundTrip_probe _ next (by rw [hcb]) (by rw [hcb]; exact hnext)]

/-- Instance of C7 on a breaker opened at clock 101 with a timeout of 10: the probe at clock 112
fails, the calls at clocks 115 and 122 are rejected, and the call at clock 123 is attempted. -/
theorem C7_probe_failure_reopens_witness :
    (RoundTrip (afterCalls (NewCircuitBreakerRoundTripper 2 10) [failedCall 100, failedCall 101])
        (failedCall 112)).invoked = true ∧
      (RoundTrip (afterCalls (NewCircuitBreakerRoundTripper 2 10)
        [failedCall 100, failedCall 101]) (failedCall 112)).cb.state = .Open ∧
      (RoundTrip (afterCalls (NewCircuitBreakerRoundTripper 2 10)
        [failedCall 100, failedCall 101]) (failedCall 112)).cb.lastFailure
          = (failedCall 112).recordedAt ∧
      (∀ o ∈ outcomes (RoundTrip (afterCalls (NewCircuitBreakerRoundTripper 2 10)
          [failedCall 100, failedCall 101]) (failedCall 112)).cb [okCall 115, okCall 122],
        o.resp = none ∧ o.err = some "circuit breaker is open" ∧ o.invoked = false) ∧
      afterCalls (RoundTrip (afterCalls (NewCircuitBreakerRoundTripper 2 10)
          [failedCall 100, failedCall 101]) (failedCall 112)).cb [okCall 115, okCall 122] =
        (RoundTrip (afterCalls (NewCircuitBreakerRoundTripper 2 10)
          [failedCall 100, failedCall 101]) (failedCall 112)).cb ∧
      (RoundTrip (afterCalls (RoundTrip (afterCalls (NewCircuitBreakerRoundTripper 2 10)
          [failedCall 100, failedCall 101]) (failedCall 112)).cb [okCall 115, okCall 122])
        (okCall 123)).invoked = true :=
  C7_probe_failure_reopens
    (afterCalls (NewCircuitBreakerRoundTripper 2 10) [failedCall 100, failedCall 101])
    (failedCall 112) [okCall 115, okCall 122] (okCall 123)
    (by decide) (by decide) (by decide) (by decide) (by decide)

/-! ## C8: what counts as a failure -/

theorem record_failures_nonneg (cb : CircuitBreakerRoundTripper) (a : Attempt)
    (h : 0 ≤ cb.failures) : 0 ≤ (record cb a).failures := by
  unfold record
  split
  · dsimp only
    split <;> simp <;> omega
  · split
    · simp
    · split
      · simp
      · exact h

theorem RoundTrip_failures_nonneg (cb : CircuitBreakerRoundTripper) (a : Attempt)
    (h : 0 ≤ cb.failures) : 0 ≤ (RoundTrip cb a).cb.failures := by
  unfold RoundTrip
  cases hadm : admitCall cb a with
  | none => exact h
  | some cb1 =>
    have h1 : cb1.failures = cb.failures := by
      unfold admitCall at hadm
      split at hadm
      · split at hadm
        · cases hadm; rfl
        · cases hadm
      · cases hadm; rfl
    exact record_failures_nonneg cb1 a (by omega)

theorem afterCalls_failures_nonneg : ∀ (history : List Attempt) (cb : CircuitBreakerRoundTripper),
    0 ≤ cb.failures → 0 ≤ (afterCalls cb history).failures
  | [], _, h => h
  | a :: as, cb, h => afterCalls_failures_nonneg as _ (RoundTrip_failures_nonneg cb a h)

/-- C8: in every state reached by a sequential run of calls from a newly built breaker, a
`RoundTrip` whose underlying call is attempted is counted as a failure (the counter grows by
exactly one and `lastFailure` is set to the time of the call) if and only if the transport
returned an error or a response with status 400 or more; an attempted call with no error and a
status below 400 never increases the counter. -/
theorem C8_failure_counting (n resetTimeout : Int) (history : List Attempt) (a : Attempt)
    (hinv : (RoundTrip (afterCalls (NewCircuitBreakerRoundTripper n resetTimeout) history)
      a).invoked = true) :
    (((RoundTrip (afterCalls (NewCircuitBreakerRoundTripper n resetTimeout) history) a).cb.failures
          = (afterCalls (NewCircuitBreakerRoundTripper n resetTimeout) history).failures + 1 ∧
        (RoundTrip (afterCalls (NewCircuitBreakerRoundTripper n resetTimeout) history)
          a).cb.lastFailure = a.recordedAt) ↔
        (a.err ≠ none ∨ ∃ resp, a.resp = some resp ∧ 400 ≤ resp.StatusCode)) ∧
      (a.err = none → (∀ resp, a.resp = some resp → resp.StatusCode < 400) →
        (RoundTrip (afterCalls (NewCircuitBreakerRoundTripper n resetTimeout) history)
            a).cb.failures
          ≤ (afterCalls (NewCircuitBreakerRoundTripper n resetTimeout) history).failures) := by
  have hnn : 0 ≤ (afterCalls (NewCircuitBreakerRoundTripper n resetTimeout) history).failures :=
    afterCalls_failures_nonneg history _ (le_refl _)
  generalize afterCalls (NewCircuitBreakerRoundTripper n resetTimeout) history = cb at hinv hnn ⊢
  have hfail_iff : isFailure a = true ↔
      (a.err ≠ none ∨ ∃ resp, a.resp = some resp ∧ 400 ≤ resp.StatusCode) := by
    unfold isFailure
    cases a.err <;> cases a.resp <;> simp
  have hcases : ∃ cb1, RoundTrip cb a = ⟨record cb1 a, a.resp, a.err, true⟩ ∧
      cb1.failures = cb.failures ∧ cb1.state ≠ .Open := by
    cases hs : cb.state with
    | Closed => exact ⟨cb, RoundTrip_closed cb a hs, rfl, by simp [hs]⟩
    | HalfOpen => exact ⟨cb, by simp [RoundTrip, admitCall, hs], rfl, by simp [hs]⟩
    | Open =>
      by_cases hwait : cb.resetTimeout < timeSince a.checkedAt cb.lastFailure
      · exact ⟨_, RoundTrip_probe cb a hs hwait, rfl, by simp⟩
      · rw [RoundTrip_rejected cb a hs (by omega)] at hinv
        simp at hinv
  obtain ⟨cb1, hstep, hf1, hno⟩ := hcases
  rw [hstep]
  by_cases hf : isFailure a = true
  · have hrec : (record cb1 a).failures = cb.failures + 1 ∧
        (record cb1 a).lastFailure = a.recordedAt := by
      unfold record
      rw [if_pos hf]
      dsimp only
      split <;> simp [hf1]
    refine ⟨⟨fun _ => hfail_iff.1 hf, fun _ => hrec⟩, ?_⟩
    intro herr hresp
    exfalso
    rcases hfail_iff.1 hf with h | ⟨resp, h1, h2⟩
    · exact h herr
    · have := hresp resp h1
      omega
  · have hrec : (record cb1 a).failures = 0 := by
      unfold record
      rw [if_neg hf]
      cases hs1 : cb1.state with
      | Closed => simp
      | HalfOpen => simp
      | Open => exact absurd hs1 hno
    refine ⟨⟨fun h => ?_, fun h => absurd (hfail_iff.2 h) hf⟩, fun _ _ => ?_⟩
    · exfalso
      have := h.1
      simp only [hrec] at this
      omega
    · simp only [hrec]
      exact hnn

/-- Instance of C8 after one failure, for a call answered with status 500. -/
theorem C8_failure_counting_witness :
    (((RoundTrip (afterCalls (NewCircuitBreakerRoundTripper 3 10) [failedCall 100])
          ⟨105, some ⟨500⟩, none, 106⟩).cb.failures
          = (afterCalls (NewCircuitBreakerRoundTripper 3 10) [failedCall 100]).failures + 1 ∧
        (RoundTrip (afterCalls (NewCircuitBreakerRoundTripper 3 10) [failedCall 100])
          ⟨105, some ⟨500⟩, none, 106⟩).cb.lastFailure
          = (⟨105, some ⟨500⟩, none, 106⟩ : Attempt).recordedAt) ↔
        ((⟨105, some ⟨500⟩, none, 106⟩ : Attempt).err ≠ none ∨
          ∃ resp, (⟨105, some ⟨500⟩, none, 106⟩ : Attempt).resp = some resp ∧
            400 ≤ resp.StatusCode)) ∧
      ((⟨105, some ⟨500⟩, none, 106⟩ : Attempt).err = none →
        (∀ resp, (⟨105, some ⟨500⟩, none, 106⟩ : Attempt).resp = some resp →
          resp.StatusCode < 400) →
        (RoundTrip (afterCalls (NewCircuitBreakerRoundTripper 3 10) [failedCall 100])
            ⟨105, some ⟨500⟩, none, 106⟩).cb.failures
          ≤ (afterCalls (NewCircuitBreakerRoundTripper 3 10) [failedCall 100]).failures) :=
  C8_failure_counting 3 10 [failedCall 100] ⟨105, some ⟨500⟩, none, 106⟩ (by decide)

/-! ## C9: only consecutive failures trip the breaker -/

theorem le_maxStreakFrom : ∀ (as : List Attempt) (cur best : Nat),
    best ≤ maxStreakFrom cur best as
  | [], _, _ => le_refl _
  | a :: as, cur, best => by
    unfold maxStreakFrom
    split
    · exact le_trans (le_max_left _ _) (le_maxStreakFrom as _ _)
    · exact le_maxStreakFrom as _ _

/-- A run on a Closed breaker whose counter is the length of the failure streak in progress:
as long as no streak reaches the threshold, every call is attempted and the breaker stays
Closed. -/
theorem short_streaks_stay_closed : ∀ (calls : List Attempt) (cb : CircuitBreakerRoundTripper)
    (cur best : Nat), cb.state = .Closed → cb.failures = (cur : Int) →
    (maxStreakFrom cur best calls : Int) < cb.failureThreshold →
    (afterCalls cb calls).state = .Closed ∧ ∀ o ∈ outcomes cb calls, o.invoked = true
  | [], _, _, _, hclosed, _, _ => ⟨hclosed, by simp [outcomes]⟩
  | a :: as, cb, cur, best, hclosed, hcur, hmax => by
    have hstep := RoundTrip_closed cb a hclosed
    unfold maxStreakFrom at hmax
    by_cases hf : isFailure a = true
    · rw [if_pos hf] at hmax
      have hle := le_maxStreakFrom as (cur + 1) (max best (cur + 1))
      have hlt : ¬ cb.failureThreshold ≤ cb.failures + 1 := by
        have : cur + 1 ≤ max best (cur + 1) := le_max_right _ _
        omega
      have hcb : (RoundTrip cb a).cb =
          { cb with failures := cb.failures + 1, lastFailure := a.recordedAt } := by
        simp [hstep, record, hf, hclosed, hlt]
      have hrec := short_streaks_stay_closed as (RoundTrip cb a).cb (cur + 1)
        (max best (cur + 1)) (by rw [hcb]; exact hclosed) (by rw [hcb]; simp [hcur])
        (by rw [hcb]; exact hmax)
      simp only [afterCalls, outcomes, List.mem_cons]
      refine ⟨hrec.1, ?_⟩
      rintro o (rfl | ho)
      · rw [hstep]
      · exact hrec.2 o ho
    · rw [if_neg hf] at hmax
      have hcb : (RoundTrip cb a).cb = { cb with failures := 0 } := by
        simp [hstep, record, hf, hclosed]
      have hrec := short_streaks_stay_closed as (RoundTrip cb a).cb 0 best
        (by rw [hcb]; exact hclosed) (by rw [hcb]; simp) (by rw [hcb]; exact hmax)
      simp only [afterCalls, outcomes, List.mem_cons]
      refine ⟨hrec.1, ?_⟩
      rintro o (rfl | ho)
      · rw [hstep]
      · exact hrec.2 o ho

/-- C9: while Closed, a successful call is attempted, sets the failure counter to 0 and leaves
the breaker Closed; and for a breaker built with threshold `n` (in particular `n ≥ 2`), every
sequential run of calls whose longest streak of consecutive failures is shorter than `n` leaves
the breaker Closed and has every call attempted, none rejected. -/
theorem C9_only_consecutive_failures_trip (n resetTimeout : Int) (calls : List Attempt)
    (hstreak : (longestFailureStreak calls : Int) < n) :
    (∀ (cb : CircuitBreakerRoundTripper) (a : Attempt), cb.state = .Closed →
        isFailure a = false →
        (RoundTrip cb a).invoked = true ∧ (RoundTrip cb a).cb.state = .Closed ∧
          (RoundTrip cb a).cb.failures = 0) ∧
      (afterCalls (NewCircuitBreakerRoundTripper n resetTimeout) calls).state = .Closed ∧
      ∀ o ∈ outcomes (NewCircuitBreakerRoundTripper n resetTimeout) calls, o.invoked = true := by
  refine ⟨?_, ?_⟩
  · intro cb a hclosed hok
    rw [RoundTrip_closed cb a hclosed]
    simp [record, hok, hclosed]
  · exact short_streaks_stay_closed calls
      (NewCircuitBreakerRoundTripper n resetTimeout) 0 0 rfl rfl hstreak

/-- Instance of C9 with threshold 2 on the run failure,
success, failure, success: the longest streak is 1 and the breaker stays Closed. -/
theorem C9_only_consecutive_failures_trip_witness :
    (∀ (cb : CircuitBreakerRoundTripper) (a : Attempt), cb.state = .Closed →
        isFailure a = false →
        (RoundTrip cb a).invoked = true ∧ (RoundTrip cb a).cb.state = .Closed ∧
          (RoundTrip cb a).cb.failures = 0) ∧
      (afterCalls (NewCircuitBreakerRoundTripper 2 10)
        [failedCall 100, okCall 101, failedCall 102, okCall 103]).state = .Closed ∧
      ∀ o ∈ outcomes (NewCircuitBreakerRoundTripper 2 10)
        [failedCall 100, okCall 101, failedCall 102, okCall 103], o.invoked = true :=
  C9_only_consecutive_failures_trip 2 10
    [failedCall 100, okCall 101, failedCall 102, okCall 103] (by decide)

/-! ## The bucket of one identity -/

theorem timeSub_self (t : Int) : timeSub t t = 0 := by
  simp [timeSub, maxInt64, minInt64]

theorem newLimiter_eq :
    NewLimiter (Every (rateLimitDuration / rateLimitRequests)) rateLimitRequests = bucket 0 0 := by
  simp only [NewLimiter, Every, rateLimitDuration, rateLimitRequests, bucket]
  norm_num

theorem advance_same_instant (tokens : ℚ) (now : Int) (h : tokens ≤ 100) :
    advance (bucket tokens now) (5 / 3) now = tokens := by
  simp only [advance, bucket, lt_irrefl, if_false, timeSub_self, tokensFromDuration]
  norm_num
  intro hlt
  linarith

theorem advance_fresh (now : Int) (h : 60000000000 ≤ now) :
    advance (bucket 0 0) (5 / 3) now = 100 := by
  have hnow : ¬ now < 0 := by omega
  have hel : (60000000000 : Int) ≤ timeSub now 0 := by
    unfold timeSub maxInt64 minInt64
    split
    · norm_num
    · split <;> omega
  have hq : (60000000000 : ℚ) ≤ ((timeSub now 0 : Int) : ℚ) := by exact_mod_cast hel
  simp only [advance, bucket, hnow, if_false, tokensFromDuration]
  norm_num
  intro hlt
  linarith

theorem allow_of_tokens (lim : Limiter) (now : Int) (tokens : ℚ)
    (hlim : lim.limit = .rate (5 / 3)) (hburst : lim.burst = 100)
    (hadv : advance lim (5 / 3) now = tokens) (hpos : 1 ≤ tokens) :
    Allow lim now = (⟨lim.limit, lim.burst, tokens - 1, now⟩, true) := by
  have h1 : ¬ (tokens - 1 < 0) := by linarith
  have h53 : ¬ ((5 : ℚ) / 3 = 0) := by norm_num
  simp only [Allow, hlim, hburst, hadv, h53, h1, if_false]
  simp

theorem allow_empty (now : Int) : Allow (bucket 0 now) now = (bucket 0 now, false) := by
  have hadv := advance_same_instant 0 now (by norm_num)
  have hwait : ¬ durationFromTokens (5 / 3) (-(0 - 1)) ≤ 0 := by
    unfold durationFromTokens
    norm_num
  have h53 : ¬ ((5 : ℚ) / 3 = 0) := by norm_num
  have h1 : (0 : ℚ) - 1 < 0 := by norm_num
  simp only [Allow, bucket] at hadv ⊢
  simp only [hadv, h53, h1, if_false, if_true, hwait, and_false]

theorem Handle_fresh (sp : String → Option (String × String)) (m : RateLimitingMiddleware)
    (r : Request) (now : Int) (hfresh : m.limiters (getUserIdOrIp sp r) = none) :
    Handle sp m r now =
      (⟨fun k => if k = getUserIdOrIp sp r then some m.heap.length else m.limiters k,
          m.heap ++ [(Allow (bucket 0 0) now).1]⟩,
        if (Allow (bucket 0 0) now).2 then .next else .error "rate limit exceeded" 429) := by
  have hset : (m.heap ++ [bucket 0 0]).set m.heap.length (Allow (bucket 0 0) now).1 =
      m.heap ++ [(Allow (bucket 0 0) now).1] := by
    rw [List.set_append_right _ _ (le_refl _)]
    simp
  simp only [Handle, getLimiter, Load, LoadOrStore, hfresh, newLimiter_eq,
    List.getElem?_concat_length, hset]
  cases (Allow (bucket 0 0) now).2 <;> simp

theorem Handle_stored (sp : String → Option (String × String)) (m : RateLimitingMiddleware)
    (r : Request) (now : Int) (p : Nat) (lim : Limiter)
    (hkey : m.limiters (getUserIdOrIp sp r) = some p) (hcell : m.heap[p]? = some lim) :
    Handle sp m r now =
      (⟨m.limiters, m.heap.set p (Allow lim now).1⟩,
        if (Allow lim now).2 then .next else .error "rate limit exceeded" 429) := by
  simp only [Handle, getLimiter, Load, hkey, hcell]
  cases (Allow lim now).2 <;> simp

theorem Handle_dangling (sp : String → Option (String × String)) (m : RateLimitingMiddleware)
    (r : Request) (now : Int) (p : Nat)
    (hkey : m.limiters (getUserIdOrIp sp r) = some p) (hcell : m.heap[p]? = none) :
    Handle sp m r now = (m, .panicked) := by
  simp only [Handle, getLimiter, Load, hkey, hcell]

/-- A request of an identity without a bucket is served from a new bucket. -/
theorem Handle_bucket_none (sp : String → Option (String × String))
    (m : RateLimitingMiddleware) (r : Request) (now : Int)
    (h : bucketOf m (getUserIdOrIp sp r) = none) :
    (Handle sp m r now).2 =
        (if (Allow (bucket 0 0) now).2 then .next else .error "rate limit exceeded" 429) ∧
      bucketOf (Handle sp m r now).1 (getUserIdOrIp sp r) =
        some (some (Allow (bucket 0 0) now).1) := by
  have hfresh : m.limiters (getUserIdOrIp sp r) = none := by
    simpa [bucketOf] using h
  rw [Handle_fresh sp m r now hfresh]
  simp [bucketOf]

/-- A request of an identity with a bucket is served from that bucket, which `Allow` updates. -/
theorem Handle_bucket_some (sp : String → Option (String × String))
    (m : RateLimitingMiddleware) (r : Request) (now : Int) (lim : Limiter)
    (h : bucketOf m (getUserIdOrIp sp r) = some (some lim)) :
    (Handle sp m r now).2 =
        (if (Allow lim now).2 then .next else .error "rate limit exceeded" 429) ∧
      bucketOf (Handle sp m r now).1 (getUserIdOrIp sp r) = some (some (Allow lim now).1) := by
  cases hkey : m.limiters (getUserIdOrIp sp r) with
  | none => simp [bucketOf, hkey] at h
  | some p =>
    have hcell : m.heap[p]? = some lim := by simpa [bucketOf, hkey] using h
    have hp : p < m.heap.length := (List.getElem?_eq_some_iff.1 hcell).1
    rw [Handle_stored sp m r now p lim hkey hcell]
    simp [bucketOf, hkey, hp]

theorem Handle_bucket_dangling (sp : String → Option (String × String))
    (m : RateLimitingMiddleware) (r : Request) (now : Int)
    (h : bucketOf m (getUserIdOrIp sp r) = some none) :
    (Handle sp m r now).2 = .panicked ∧
      bucketOf (Handle sp m r now).1 (getUserIdOrIp sp r) = some none := by
  cases hkey : m.limiters (getUserIdOrIp sp r) with
  | none => simp [bucketOf, hkey] at h
  | some p =>
    have hcell : m.heap[p]? = none := by simpa [bucketOf, hkey] using h
    rw [Handle_dangling sp m r now p hkey hcell]
    exact ⟨rfl, h⟩

theorem Handle_first (sp : String → Option (String × String)) (m : RateLimitingMiddleware)
    (r : Request) (now : Int) (hfresh : m.limiters (getUserIdOrIp sp r) = none)
    (hnow : 60000000000 ≤ now) :
    (Handle sp m r now).2 = .next ∧
      bucketOf (Handle sp m r now).1 (getUserIdOrIp sp r) = some (some (bucket 99 now)) := by
  have hallow := allow_of_tokens (bucket 0 0) now 100 rfl rfl (advance_fresh now hnow)
    (by norm_num)
  have hb : (⟨(bucket 0 0).limit, (bucket 0 0).burst, (100 : ℚ) - 1, now⟩ : Limiter) =
      bucket 99 now := by
    simp only [bucket]; norm_num
  rw [hb] at hallow
  have h := Handle_bucket_none sp m r now (by simp [bucketOf, hfresh])
  rw [hallow] at h
  simpa using h

theorem Handle_allowed (sp : String → Option (String × String)) (m : RateLimitingMiddleware)
    (r : Request) (now : Int) (c : Nat) (hc : c + 1 ≤ 100)
    (hkey : bucketOf m (getUserIdOrIp sp r) = some (some (bucket ((c + 1 : Nat) : ℚ) now))) :
    (Handle sp m r now).2 = .next ∧
      bucketOf (Handle sp m r now).1 (getUserIdOrIp sp r) = some (some (bucket (c : ℚ) now)) := by
  have hle : (((c + 1 : Nat) : ℚ)) ≤ 100 := by exact_mod_cast hc
  have hallow := allow_of_tokens (bucket ((c + 1 : Nat) : ℚ) now) now ((c + 1 : Nat) : ℚ)
    rfl rfl (advance_same_instant _ now hle) (by push_cast; linarith [Nat.cast_nonneg (α := ℚ) c])
  have hb : (⟨(bucket ((c + 1 : Nat) : ℚ) now).limit, (bucket ((c + 1 : Nat) : ℚ) now).burst,
      ((c + 1 : Nat) : ℚ) - 1, now⟩ : Limiter) = bucket (c : ℚ) now := by
    simp only [bucket]; push_cast; norm_num
  rw [hb] at hallow
  have h := Handle_bucket_some sp m r now _ hkey
  rw [hallow] at h
  simpa using h

theorem Handle_rejected (sp : String → Option (String × String)) (m : RateLimitingMiddleware)
    (r : Request) (now : Int)
    (hkey : bucketOf m (getUserIdOrIp sp r) = some (some (bucket 0 now))) :
    (Handle sp m r now).2 = .error "rate limit exceeded" 429 ∧
      bucketOf (Handle sp m r now).1 (getUserIdOrIp sp r) = some (some (bucket 0 now)) := by
  have h := Handle_bucket_some sp m r now _ hkey
  rw [allow_empty] at h
  simpa using h

/-- Requests of one identity arriving at the same instant on a bucket holding `c` tokens: the
first `c` reach the next handler, the others are answered with 429. -/
theorem handleAll_same_instant (sp : String → Option (String × String)) (key : String)
    (now : Int) : ∀ (reqs : List Request) (c : Nat) (m : RateLimitingMiddleware), c ≤ 100 →
    bucketOf m key = some (some (bucket (c : ℚ) now)) →
    (∀ r ∈ reqs, getUserIdOrIp sp r = key) →
    handleAll sp m (reqs.map (fun r => (r, now))) =
      List.replicate (min c reqs.length) Served.next ++
        List.replicate (reqs.length - c) (Served.error "rate limit exceeded" 429)
  | [], c, _, _, _, _ => by simp [handleAll]
  | r :: reqs, 0, m, hc, hm, hkey => by
    have hr := hkey r (List.mem_cons_self _ _)
    have hstep := Handle_rejected sp m r now (by rw [hr]; simpa using hm)
    have hrec := handleAll_same_instant sp key now reqs 0 (Handle sp m r now).1 hc
      (by rw [← hr]; simpa using hstep.2) (fun x hx => hkey x (List.mem_cons_of_mem _ hx))
    simp only [List.map_cons, handleAll, hstep.1, hrec]
    simp [List.replicate_succ]
  | r :: reqs, c + 1, m, hc, hm, hkey => by
    have hr := hkey r (List.mem_cons_self _ _)
    have hstep := Handle_allowed sp m r now c hc (by rw [hr]; exact hm)
    have hrec := handleAll_same_instant sp key now reqs c (Handle sp m r now).1 (by omega)
      (by rw [← hr]; exact hstep.2) (fun x hx => hkey x (List.mem_cons_of_mem _ hx))
    simp only [List.map_cons, handleAll, hstep.1, hrec, List.length_cons]
    rw [Nat.succ_min_succ, List.replicate_succ, Nat.succ_sub_succ]
    rfl

/-! ## C10: a hundred immediate requests, then 429 -/

/-- C10: on a middleware that has no bucket yet for an identity, 101 consecutive `Handle` calls
for that identity key with no time elapsing between them (the clock reading at least one minute
past the zero `time.Time`): the first 100 are passed to the next handler and the 101st is
answered with `http.Error(w, "rate limit exceeded", 429)`, the next handler not being invoked. -/
theorem C10_hundred_then_reject (sp : String → Option (String × String))
    (m : RateLimitingMiddleware) (key : String) (now : Int) (reqs : List Request)
    (hfresh : m.limiters key = none) (hnow : 60000000000 ≤ now) (hlen : reqs.length = 101)
    (hkey : ∀ r ∈ reqs, getUserIdOrIp sp r = key) :
    handleAll sp m (reqs.map (fun r => (r, now))) =
      List.replicate 100 Served.next ++ [Served.error "rate limit exceeded" 429] := by
  match reqs, hlen, hkey with
  | r :: rest, hlen, hkey =>
    have hr := hkey r (List.mem_cons_self _ _)
    have hstep := Handle_first sp m r now (by rw [hr]; exact hfresh) hnow
    have hrest : rest.length = 100 := by simpa using hlen
    have hrec := handleAll_same_instant sp key now rest 99 (Handle sp m r now).1 (by decide)
      (by rw [← hr]; simpa using hstep.2) (fun x hx => hkey x (List.mem_cons_of_mem _ hx))
    simp only [List.map_cons, handleAll, hstep.1, hrec, hrest]
    rfl

/-- Instance of C10 for 101 requests of user 7 on a new middleware. -/
theorem C10_hundred_then_reject_witness :
    handleAll splitLastColon NewRateLimitingMiddleware
        ((List.replicate 101 (⟨some (.int 7), "", "10.0.0.1:4242"⟩ : Request)).map
          (fun r => (r, 1700000000000000000))) =
      List.replicate 100 Served.next ++ [Served.error "rate limit exceeded" 429] :=
  C10_hundred_then_reject splitLastColon NewRateLimitingMiddleware "user_id:7"
    1700000000000000000 (List.replicate 101 ⟨some (.int 7), "", "10.0.0.1:4242"⟩) rfl
    (by decide) (by simp) (fun r hr => by rw [List.eq_of_mem_replicate hr]; decide)

/-! ## C11: budgets are independent per identity -/

theorem Handle_limiters_other (sp : String → Option (String × String))
    (m : RateLimitingMiddleware) (r : Request) (now : Int) (key : String)
    (hne : getUserIdOrIp sp r ≠ key) :
    (Handle sp m r now).1.limiters key = m.limiters key := by
  have hk : ¬ key = getUserIdOrIp sp r := fun h => hne h.symm
  cases hm : m.limiters (getUserIdOrIp sp r) with
  | none =>
    rw [Handle_fresh sp m r now hm]
    simp [hk]
  | some p =>
    cases hcell : m.heap[p]? with
    | none => rw [Handle_dangling sp m r now p hm hcell]
    | some lim => rw [Handle_stored sp m r now p lim hm hcell]

theorem Handle_wellFormed (sp : String → Option (String × String))
    (m : RateLimitingMiddleware) (r : Request) (now : Int) (hwf : WellFormed m) :
    WellFormed (Handle sp m r now).1 := by
  obtain ⟨hvalid, hinj⟩ := hwf
  cases hm : m.limiters (getUserIdOrIp sp r) with
  | none =>
    rw [Handle_fresh sp m r now hm]
    refine ⟨?_, ?_⟩
    · intro k p hk
      simp only [List.length_append, List.length_singleton]
      by_cases hkk : k = getUserIdOrIp sp r
      · simp only [hkk, if_true, Option.some.injEq] at hk
        omega
      · simp only [hkk, if_false] at hk
        have := hvalid k p hk
        omega
    · intro k1 k2 p h1 h2
      by_cases hk1 : k1 = getUserIdOrIp sp r
      · by_cases hk2 : k2 = getUserIdOrIp sp r
        · rw [hk1, hk2]
        · simp only [hk1, if_true, Option.some.injEq] at h1
          simp only [hk2, if_false] at h2
          have := hvalid k2 p h2
          omega
      · by_cases hk2 : k2 = getUserIdOrIp sp r
        · simp only [hk2, if_true, Option.some.injEq] at h2
          simp only [hk1, if_false] at h1
          have := hvalid k1 p h1
          omega
        · simp only [hk1, if_false] at h1
          simp only [hk2, if_false] at h2
          exact hinj k1 k2 p h1 h2
  | some p =>
    cases hcell : m.heap[p]? with
    | none =>
      rw [Handle_dangling sp m r now p hm hcell]
      exact ⟨hvalid, hinj⟩
    | some lim =>
      rw [Handle_stored sp m r now p lim hm hcell]
      refine ⟨?_, hinj⟩
      intro k q hk
      simp only [List.length_set]
      exact hvalid k q hk

/-- A request of another identity leaves the bucket of `key` as it was. -/
theorem Handle_bucket_other (sp : String → Option (String × String))
    (m : RateLimitingMiddleware) (r : Request) (now : Int) (key : String)
    (hwf : WellFormed m) (hne : getUserIdOrIp sp r ≠ key) :
    bucketOf (Handle sp m r now).1 key = bucketOf m key := by
  have hlim := Handle_limiters_other sp m r now key hne
  obtain ⟨hvalid, hinj⟩ := hwf
  unfold bucketOf
  rw [hlim]
  cases hk : m.limiters key with
  | none => rfl
  | some q =>
    have hq := hvalid key q hk
    simp only [Option.map_some']
    congr 1
    cases hm : m.limiters (getUserIdOrIp sp r) with
    | none =>
      rw [Handle_fresh sp m r now hm]
      simp only
      rw [List.getElem?_append_left hq]
    | some p =>
      have hpq : p ≠ q := by
        intro h
        rw [h] at hm
        exact hne (hinj _ _ q hm hk)
      cases hcell : m.heap[p]? with
      | none => rw [Handle_dangling sp m r now p hm hcell]
      | some lim =>
        rw [Handle_stored sp m r now p lim hm hcell]
        simp only
        rw [List.getElem?_set_ne hpq]

theorem handledState_wellFormed (sp : String → Option (String × String)) :
    ∀ (reqs : List (Request × Int)) (m : RateLimitingMiddleware), WellFormed m →
      WellFormed (handledState sp m reqs)
  | [], _, h => h
  | (r, now) :: rest, m, h =>
    handledState_wellFormed sp rest (Handle sp m r now).1 (Handle_wellFormed sp m r now h)

theorem wellFormed_new : WellFormed NewRateLimitingMiddleware :=
  ⟨fun _ _ h => by simp [NewRateLimitingMiddleware] at h,
    fun _ _ _ h => by simp [NewRateLimitingMiddleware] at h⟩

theorem handledState_other_key (sp : String → Option (String × String)) (key : String) :
    ∀ (reqs : List (Request × Int)) (m : RateLimitingMiddleware), WellFormed m →
      (∀ p ∈ reqs, getUserIdOrIp sp p.1 ≠ key) →
      (handledState sp m reqs).limiters key = m.limiters key ∧
        bucketOf (handledState sp m reqs) key = bucketOf m key
  | [], _, _, _ => ⟨rfl, rfl⟩
  | (r, now) :: rest, m, hwf, h => by
    have hr := h (r, now) (List.mem_cons_self _ _)
    have hrec := handledState_other_key sp key rest (Handle sp m r now).1
      (Handle_wellFormed sp m r now hwf) (fun p hp => h p (List.mem_cons_of_mem _ hp))
    simp only [handledState]
    rw [hrec.1, hrec.2, Handle_limiters_other sp m r now key hr,
      Handle_bucket_other sp m r now key hwf hr]
    exact ⟨rfl, rfl⟩

/-- What `Handle` answers to a request, and the bucket it leaves to the identity of the
request, depend on the middleware through the bucket of that identity only. -/
theorem Handle_same_bucket (sp : String → Option (String × String))
    (m1 m2 : RateLimitingMiddleware) (r : Request) (now : Int)
    (h : bucketOf m1 (getUserIdOrIp sp r) = bucketOf m2 (getUserIdOrIp sp r)) :
    (Handle sp m1 r now).2 = (Handle sp m2 r now).2 ∧
      bucketOf (Handle sp m1 r now).1 (getUserIdOrIp sp r) =
        bucketOf (Handle sp m2 r now).1 (getUserIdOrIp sp r) := by
  cases hb : bucketOf m2 (getUserIdOrIp sp r) with
  | none =>
    rw [hb] at h
    have h1 := Handle_bucket_none sp m1 r now h
    have h2 := Handle_bucket_none sp m2 r now hb
    exact ⟨by rw [h1.1, h2.1], by rw [h1.2, h2.2]⟩
  | some cell =>
    rw [hb] at h
    cases cell with
    | none =>
      have h1 := Handle_bucket_dangling sp m1 r now h
      have h2 := Handle_bucket_dangling sp m2 r now hb
      exact ⟨by rw [h1.1, h2.1], by rw [h1.2, h2.2]⟩
    | some lim =>
      have h1 := Handle_bucket_some sp m1 r now lim h
      have h2 := Handle_bucket_some sp m2 r now lim hb
      exact ⟨by rw [h1.1, h2.1], by rw [h1.2, h2.2]⟩

theorem handleAll_same_bucket (sp : String → Option (String × String)) (key : String) :
    ∀ (reqs : List (Request × Int)) (m1 m2 : RateLimitingMiddleware),
      bucketOf m1 key = bucketOf m2 key → (∀ p ∈ reqs, getUserIdOrIp sp p.1 = key) →
      handleAll sp m1 reqs = handleAll sp m2 reqs
  | [], _, _, _, _ => rfl
  | (r, now) :: rest, m1, m2, hb, h => by
    have hr : getUserIdOrIp sp r = key := h (r, now) (List.mem_cons_self _ _)
    have hstep := Handle_same_bucket sp m1 m2 r now (by rw [hr]; exact hb)
    rw [hr] at hstep
    have hrec := handleAll_same_bucket sp key rest (Handle sp m1 r now).1 (Handle sp m2 r now).1
      hstep.2 (fun p hp => h p (List.mem_cons_of_mem _ hp))
    simp only [handleAll, hstep.1, hrec]

/-- On a middleware without a bucket for an identity, 101 requests of that identity at one
instant: 100 reach the next handler and the last is answered with 429. -/
theorem fresh_identity_budget (sp : String → Option (String × String))
    (m : RateLimitingMiddleware) (key : String) (now : Int) (reqs : List Request)
    (hfresh : m.limiters key = none) (hnow : 60000000000 ≤ now) (hlen : reqs.length = 101)
    (hkey : ∀ r ∈ reqs, getUserIdOrIp sp r = key) :
    handleAll sp m (reqs.map (fun r => (r, now))) =
      List.replicate 100 Served.next ++ [Served.error "rate limit exceeded" 429] := by
  match reqs, hlen, hkey with
  | r :: rest, hlen, hkey =>
    have hr := hkey r (List.mem_cons_self _ _)
    have hstep := Handle_first sp m r now (by rw [hr]; exact hfresh) hnow
    have hrest : rest.length = 100 := by simpa using hlen
    have hrec := handleAll_same_instant sp key now rest 99 (Handle sp m r now).1 (by decide)
      (by rw [← hr]; simpa using hstep.2) (fun x hx => hkey x (List.mem_cons_of_mem _ hx))
    simp only [List.map_cons, handleAll, hstep.1, hrec, hrest]
    rfl

/-- C11: on one middleware, in the state reached from `NewRateLimitingMiddleware` by any
requests `before` (of any identities, `Y` included), any number of `Handle` calls `xs` for
identities other than `Y`, at any instants and whether allowed or rejected, leaves the pointer
stored for `Y` and the limiter behind it as they were: the bucket of `Y` is untouched. Hence
every later run of requests of `Y` is answered exactly as it would have been without the calls
`xs`; in particular an identity `Y` that has no bucket yet is still allowed its full 100
immediate requests afterwards, the 101st being rejected. -/
theorem C11_budgets_independent (sp : String → Option (String × String)) (Y : String)
    (before xs : List (Request × Int)) (hx : ∀ p ∈ xs, getUserIdOrIp sp p.1 ≠ Y) :
    (handledState sp (handledState sp NewRateLimitingMiddleware before) xs).limiters Y =
        (handledState sp NewRateLimitingMiddleware before).limiters Y ∧
      bucketOf (handledState sp (handledState sp NewRateLimitingMiddleware before) xs) Y =
        bucketOf (handledState sp NewRateLimitingMiddleware before) Y ∧
      (∀ ys : List (Request × Int), (∀ p ∈ ys, getUserIdOrIp sp p.1 = Y) →
        handleAll sp (handledState sp (handledState sp NewRateLimitingMiddleware before) xs) ys =
          handleAll sp (handledState sp NewRateLimitingMiddleware before) ys) ∧
      (∀ (ys : List Request) (now : Int),
        (handledState sp NewRateLimitingMiddleware before).limiters Y = none →
        60000000000 ≤ now → ys.length = 101 → (∀ r ∈ ys, getUserIdOrIp sp r = Y) →
        handleAll sp (handledState sp (handledState sp NewRateLimitingMiddleware before) xs)
            (ys.map (fun r => (r, now))) =
          List.replicate 100 Served.next ++ [Served.error "rate limit exceeded" 429]) := by
  have hwf := handledState_wellFormed sp before NewRateLimitingMiddleware wellFormed_new
  have hframe := handledState_other_key sp Y xs _ hwf hx
  refine ⟨hframe.1, hframe.2, ?_, ?_⟩
  · intro ys hy
    exact handleAll_same_bucket sp Y ys _ _ hframe.2 hy
  · intro ys now hfresh hnow hlen hy
    exact fresh_identity_budget sp _ Y now ys (by rw [hframe.1]; exact hfresh) hnow hlen hy

/-- Instance of C11: user 8 has sent one request; user 7 then sends 101 requests (the last one
is rejected); the bucket of user 8 still holds the 99 tokens left by its own request. -/
theorem C11_budgets_independent_witness :
    bucketOf (handledState splitLastColon
        (handledState splitLastColon NewRateLimitingMiddleware
          [(⟨some (.int 8), "", "10.0.0.1:4242"⟩, 1700000000000000000)])
        ((List.replicate 101 (⟨some (.int 7), "", "10.0.0.1:4242"⟩ : Request)).map
          (fun r => (r, 1700000000000000000)))) "user_id:8" =
      bucketOf (handledState splitLastColon NewRateLimitingMiddleware
        [(⟨some (.int 8), "", "10.0.0.1:4242"⟩, 1700000000000000000)]) "user_id:8" :=
  (C11_budgets_independent splitLastColon "user_id:8"
    [(⟨some (.int 8), "", "10.0.0.1:4242"⟩, 1700000000000000000)]
    ((List.replicate 101 (⟨some (.int 7), "", "10.0.0.1:4242"⟩ : Request)).map
      (fun r => (r, 1700000000000000000)))
    (fun p hp => by
      obtain ⟨r, hr, rfl⟩ := List.mem_map.1 hp
      rw [List.eq_of_mem_replicate hr]; decide)).2.1

set_option maxRecDepth 100000

/-! ## C12: the continuation cursor -/

/-- C12 at a page of 101 tasks with ids 1 to 101, served from a cache hit and served from the
store: `Execute` returns the tasks 1 to 100 with `HasMore = true` and `NextStartFromId = 101`,
the id of the task after the last returned one, which has id 100. -/
theorem C12_cursor_is_first_unreturned :
    ((tasklist.Execute (stubExec (some ⟨some (sampleRows 101), true, none⟩) ([], none)) ()
        ⟨1, 5, "", 0, 0⟩).result.map
        (fun res => (res.HasMore, res.NextStartFromId, res.Tasks.getLast?.map (fun t => t.Id),
          res.Tasks.length)) = some (true, 101, some 100, 100)) ∧
      ((tasklist.Execute (stubExec (some ⟨none, false, none⟩) ((sampleRows 101).map some, none)) ()
        ⟨1, 5, "", 0, 0⟩).result.map
        (fun res => (res.HasMore, res.NextStartFromId, res.Tasks.getLast?.map (fun t => t.Id),
          res.Tasks.length)) = some (true, 101, some 100, 100)) := by
  constructor <;> decide

/-! ## C13: paging through the store -/

/-- C13 on a team of 101 tasks with ids 1 to 101, from an empty cache: the store answers each
query with the tasks above the cursor in ascending order, the first page holds the tasks 1 to
100 with `NextStartFromId = 101`, the second page is asked for the tasks above 101 and is
empty, and task 101 is on no page. -/
theorem C13_task_after_page_is_skipped :
    (ListTasks (sampleRows 101) 5 "" 0 0 101).1.map (fun t => t.map (fun m => m.Id)) =
        (List.range 101).map (fun i => some ((i : Int) + 1)) ∧
      (ListTasks (sampleRows 101) 5 "" 0 101 101).1 = [] ∧
      (tasklist.paginate (taskListExec sampleRepo (sampleRows 101) (fun _ _ => true)) 5
        Store.empty ⟨1, 5, "", 0, 0⟩).map (fun res => res.Tasks.map (fun t => t.Id)) =
        [(List.range 100).map (fun i => (i : Int) + 1), []] ∧
      ¬ (101 : Int) ∈ ((tasklist.paginate (taskListExec sampleRepo (sampleRows 101)
        (fun _ _ => true)) 5 Store.empty ⟨1, 5, "", 0, 0⟩).map
          (fun res => res.Tasks.map (fun t => t.Id))).flatten := by
  have hpages : (tasklist.paginate (taskListExec sampleRepo (sampleRows 101) (fun _ _ => true)) 5
      Store.empty ⟨1, 5, "", 0, 0⟩).map (fun res => res.Tasks.map (fun t => t.Id)) =
      [(List.range 100).map (fun i => (i : Int) + 1), []] := by decide
  refine ⟨by decide, by decide, hpages, ?_⟩
  rw [hpages]
  decide

/-! ## C14: an error of the cache lookup -/

/-- C14, as amended: if the cache lookup returns an error for an unfiltered request made by a
team member, `Execute` returns a nil result and that error; it makes no call to `ListTasks` or
`CacheTasks` and leaves the world unchanged. -/
theorem C14_cache_error_is_returned {σ : Type} (e : tasklist.executor σ) (w : σ)
    (inp : tasklist.ListInput) (lister : σ → Int → Int → Option Int → tasklist.CacheReply)
    (err : String)
    (hmember : e.CheckUserIsInTeam w inp.UserId inp.TeamId = (true, none))
    (hstatus : inp.Status = "") (hassignee : inp.AssigneeId = 0)
    (hlister : e.cacheLister = some lister)
    (herr : (lister w inp.TeamId (tasklist.defaultLimit + 1)
      (if 0 < inp.StartFromId then some inp.StartFromId else none)).err = some err) :
    (tasklist.Execute e w inp).result = none ∧
      (tasklist.Execute e w inp).err = some err ∧
      (tasklist.Execute e w inp).panicked = false ∧
      (tasklist.Execute e w inp).calls =
        [tasklist.Call.CheckUserIsInTeam inp.UserId inp.TeamId,
          tasklist.Call.ListTasksFromCache inp.TeamId (tasklist.defaultLimit + 1)
            (if 0 < inp.StartFromId then some inp.StartFromId else none)] := by
  simp [tasklist.Execute, hmember, hstatus, hassignee, hlister, herr]

/-- The claim C14 as stated fails: with a cache lookup that returns the error "cache down" and a
store that would answer with two tasks, `Execute` returns no page and the cache error, and
`ListTasks` is not called. -/
theorem C14_counterexample :
    (tasklist.Execute (stubExec (some ⟨none, false, some "cache down"⟩)
        ((sampleRows 2).map some, none)) () ⟨1, 5, "", 0, 0⟩).result = none ∧
      (tasklist.Execute (stubExec (some ⟨none, false, some "cache down"⟩)
        ((sampleRows 2).map some, none)) () ⟨1, 5, "", 0, 0⟩).err = some "cache down" ∧
      (tasklist.Execute (stubExec (some ⟨none, false, some "cache down"⟩)
        ((sampleRows 2).map some, none)) () ⟨1, 5, "", 0, 0⟩).calls =
        [tasklist.Call.CheckUserIsInTeam 1 5, tasklist.Call.ListTasksFromCache 5 101 none] := by
  decide

/-- Instance of C14 with the stub cache lister returning "cache down". -/
theorem C14_cache_error_is_returned_witness :
    (tasklist.Execute (stubExec (some ⟨none, false, some "cache down"⟩)
        ((sampleRows 2).map some, none)) () ⟨1, 5, "", 0, 0⟩).result = none ∧
      (tasklist.Execute (stubExec (some ⟨none, false, some "cache down"⟩)
        ((sampleRows 2).map some, none)) () ⟨1, 5, "", 0, 0⟩).err = some "cache down" ∧
      (tasklist.Execute (stubExec (some ⟨none, false, some "cache down"⟩)
        ((sampleRows 2).map some, none)) () ⟨1, 5, "", 0, 0⟩).panicked = false ∧
      (tasklist.Execute (stubExec (some ⟨none, false, some "cache down"⟩)
        ((sampleRows 2).map some, none)) () ⟨1, 5, "", 0, 0⟩).calls =
        [tasklist.Call.CheckUserIsInTeam (⟨1, 5, "", 0, 0⟩ : tasklist.ListInput).UserId
            (⟨1, 5, "", 0, 0⟩ : tasklist.ListInput).TeamId,
          tasklist.Call.ListTasksFromCache (⟨1, 5, "", 0, 0⟩ : tasklist.ListInput).TeamId
            (tasklist.defaultLimit + 1)
            (if 0 < (⟨1, 5, "", 0, 0⟩ : tasklist.ListInput).StartFromId then
              some (⟨1, 5, "", 0, 0⟩ : tasklist.ListInput).StartFromId else none)] :=
  C14_cache_error_is_returned (stubExec (some ⟨none, false, some "cache down"⟩)
    ((sampleRows 2).map some, none)) () ⟨1, 5, "", 0, 0⟩
    (fun _ _ _ _ => ⟨none, false, some "cache down"⟩) "cache down" rfl rfl rfl rfl rfl

/-! ## C15: the page served from the cache after a population -/

theorem toItem_of_sameFields {a b : Model} (h : SameFields a b) :
    tasklist.toItem b = tasklist.toItem a := by
  obtain ⟨h1, h2, h3, h4, h5, h6, h7⟩ := h
  simp [tasklist.toItem, h1, h2, h3, h4, h5, h6, h7]

theorem toItem_decOf (js : Codec) : ∀ (tasks : List Model),
    (∀ t ∈ tasks, RoundTrips js t = true) →
    (tasks.map (decOf js)).map tasklist.toItem = tasks.map tasklist.toItem
  | [], _ => rfl
  | t :: rest, h => by
    have ht := toItem_of_sameFields (roundTrips_spec (h t (List.mem_cons_self _ _))).2.2
    have hrec := toItem_decOf js rest (fun a ha => h a (List.mem_cons_of_mem _ ha))
    simp only [List.map_cons, ht, hrec]

/-- An unfiltered first-page request of a member on a cache populated with at most 100 tasks is
served from the cache: the page holds these tasks, with `HasMore = false`. -/
theorem Execute_served_from_cache (r : redis) (rows : List Model) (isMember : Int → Int → Bool)
    (inp : tasklist.ListInput) (tasks : List Model) (st : Store)
    (hmember : isMember inp.UserId inp.TeamId = true) (hstatus : inp.Status = "")
    (hassignee : inp.AssigneeId = 0) (hstart : ¬ 0 < inp.StartFromId)
    (hpop : Populated r.js st inp.TeamId tasks) (hrt : ∀ t ∈ tasks, RoundTrips r.js t = true)
    (hne : 0 < tasks.length) (hlen : tasks.length ≤ 100) :
    (tasklist.Execute (taskListExec r rows isMember) st inp).result =
        some ⟨tasks.map tasklist.toItem, 0, false⟩ ∧
      (tasklist.Execute (taskListExec r rows isMember) st inp).calls =
        [tasklist.Call.CheckUserIsInTeam inp.UserId inp.TeamId,
          tasklist.Call.ListTasksFromCache inp.TeamId 101 none] := by
  have hpage := listFromRank_populated r.js st inp.TeamId tasks hpop
    (fun t ht => roundTrips_decodes (hrt t ht)) 0 101 hne (by decide) (by decide) []
  have htake : (tasks.drop 0).take (101 : Int).toNat = tasks := by
    rw [List.drop_zero, List.take_of_length_le]
    have : (101 : Int).toNat = 101 := rfl
    omega
  rw [htake] at hpage
  have hlookup : ListTasksFromCache r (redisClient st) inp.TeamId 101 none =
      ⟨some (tasks.map (decOf r.js)), true, none,
        [] ++ [ClientCall.ZRange (teamTasksKey inp.TeamId) ((0 : Nat) : Int)
          (((0 : Nat) : Int) + 101 - 1)] ++
          [ClientCall.MGet (tasks.map (fun t => taskKey t.Id))]⟩ := by
    have hnk : ¬ (101 : Int) ≤ 0 := by decide
    simp only [ListTasksFromCache, hnk, if_false]
    exact hpage
  have hlimit : ((tasklist.defaultLimit : Nat) : Int) + 1 = 101 := rfl
  have hcut : ¬ tasklist.defaultLimit < tasks.length := by
    unfold tasklist.defaultLimit
    omega
  simp [tasklist.Execute, taskListExec, hmember, hstatus, hassignee, hstart, hlimit, hlookup,
    tasklist.fromCache, hcut, toItem_decOf r.js tasks hrt]

theorem fromStore_world {σ : Type} (e : tasklist.executor σ) (w : σ)
    (inp : tasklist.ListInput) (calls : List tasklist.Call)
    (hok : (e.ListTasks w inp.TeamId inp.Status inp.AssigneeId inp.StartFromId
      (tasklist.defaultLimit + 1)).2 = none) :
    (tasklist.fromStore e w inp true calls).world =
      (e.CacheTasks w inp.TeamId
        (((e.ListTasks w inp.TeamId inp.Status inp.AssigneeId inp.StartFromId
          (tasklist.defaultLimit + 1)).1.take
            (min (e.ListTasks w inp.TeamId inp.Status inp.AssigneeId inp.StartFromId
              (tasklist.defaultLimit + 1)).1.length tasklist.defaultLimit)).filterMap id)).1 := by
  simp only [tasklist.fromStore, hok, if_true]
  split
  · split
    · split <;> rfl
    · rfl
  · split <;> rfl

theorem Execute_miss {σ : Type} (e : tasklist.executor σ) (w : σ) (inp : tasklist.ListInput)
    (lister : σ → Int → Int → Option Int → tasklist.CacheReply)
    (hmember : e.CheckUserIsInTeam w inp.UserId inp.TeamId = (true, none))
    (hstatus : inp.Status = "") (hassignee : inp.AssigneeId = 0)
    (hlister : e.cacheLister = some lister)
    (herr : (lister w inp.TeamId (tasklist.defaultLimit + 1)
      (if 0 < inp.StartFromId then some inp.StartFromId else none)).err = none)
    (hmiss : (lister w inp.TeamId (tasklist.defaultLimit + 1)
      (if 0 < inp.StartFromId then some inp.StartFromId else none)).hit = false) :
    tasklist.Execute e w inp =
      tasklist.fromStore e w inp true
        ([tasklist.Call.CheckUserIsInTeam inp.UserId inp.TeamId] ++
          [tasklist.Call.ListTasksFromCache inp.TeamId (tasklist.defaultLimit + 1)
            (if 0 < inp.StartFromId then some inp.StartFromId else none)]) := by
  simp [tasklist.Execute, hmember, hstatus, hassignee, hlister, herr, hmiss]

/-- C15 on a team of 101 tasks with ids 1 to 101, from an empty cache. The first `Execute`
misses the cache, reads the store, populates the cache with the first 100 tasks, and returns
the tasks 1 to 100 with `HasMore = true` and `NextStartFromId = 101`. The same `Execute`
repeated at once on the resulting cache is served from the cache (no call to the store) and
returns the same tasks, but with `HasMore = false` and `NextStartFromId = 0`. -/
theorem C15_cached_page_reports_no_more :
    ((tasklist.Execute (taskListExec sampleRepo (sampleRows 101) (fun _ _ => true)) Store.empty
        ⟨1, 5, "", 0, 0⟩).calls =
        [tasklist.Call.CheckUserIsInTeam 1 5, tasklist.Call.ListTasksFromCache 5 101 none,
          tasklist.Call.ListTasks 5 "" 0 0 101,
          tasklist.Call.CacheTasks 5 ((sampleRows 101).take 100)] ∧
      (tasklist.Execute (taskListExec sampleRepo (sampleRows 101) (fun _ _ => true)) Store.empty
        ⟨1, 5, "", 0, 0⟩).result =
        some ⟨((sampleRows 101).take 100).map tasklist.toItem, 101, true⟩) ∧
    ((tasklist.Execute (taskListExec sampleRepo (sampleRows 101) (fun _ _ => true))
        (tasklist.Execute (taskListExec sampleRepo (sampleRows 101) (fun _ _ => true))
          Store.empty ⟨1, 5, "", 0, 0⟩).world ⟨1, 5, "", 0, 0⟩).calls =
        [tasklist.Call.CheckUserIsInTeam 1 5, tasklist.Call.ListTasksFromCache 5 101 none] ∧
      (tasklist.Execute (taskListExec sampleRepo (sampleRows 101) (fun _ _ => true))
        (tasklist.Execute (taskListExec sampleRepo (sampleRows 101) (fun _ _ => true))
          Store.empty ⟨1, 5, "", 0, 0⟩).world ⟨1, 5, "", 0, 0⟩).result =
        some ⟨((sampleRows 101).take 100).map tasklist.toItem, 0, false⟩) := by
  have hmiss := Execute_miss (taskListExec sampleRepo (sampleRows 101) (fun _ _ => true))
    Store.empty ⟨1, 5, "", 0, 0⟩
    (fun st teamId limit startFromID =>
      ⟨(ListTasksFromCache sampleRepo (redisClient st) teamId limit startFromID).tasks,
        (ListTasksFromCache sampleRepo (redisClient st) teamId limit startFromID).hit,
        (ListTasksFromCache sampleRepo (redisClient st) teamId limit startFromID).err⟩)
    rfl rfl rfl rfl (by decide) (by decide)
  have hworld : (tasklist.Execute (taskListExec sampleRepo (sampleRows 101) (fun _ _ => true))
      Store.empty ⟨1, 5, "", 0, 0⟩).world =
      (CacheTasks sampleRepo Store.empty 5 ((sampleRows 101).take 100)).store := by
    rw [hmiss, fromStore_world _ _ _ _ (by decide)]
    refine congrArg (fun l => (CacheTasks sampleRepo Store.empty 5 l).store) ?_
    decide
  have hrt : ∀ t ∈ (sampleRows 101).take 100, RoundTrips sampleRepo.js t = true := by decide
  have hlo : ∀ t ∈ (sampleRows 101).take 100, -(2 ^ 53) ≤ t.Id ∧ t.Id ≤ 2 ^ 53 := by decide
  have hpop := CacheTasks_populated sampleRepo 5 ((sampleRows 101).take 100) (by decide)
    (by decide) hlo (fun t ht => roundTrips_decodes (hrt t ht)) (by decide)
  have hsecond := Execute_served_from_cache sampleRepo (sampleRows 101) (fun _ _ => true)
    ⟨1, 5, "", 0, 0⟩ ((sampleRows 101).take 100)
    (CacheTasks sampleRepo Store.empty 5 ((sampleRows 101).take 100)).store
    rfl rfl rfl (by decide) hpop hrt (by decide) (by decide)
  refine ⟨⟨by decide, by decide⟩, ?_⟩
  rw [hworld]
  exact ⟨hsecond.2, hsecond.1⟩

/-! ## C16: an update on a team without index -/

/-- C16 on an empty cache: team 5 has no index, `UpdateTaskInCache` of its task 7 creates the
index with that single member, and the following `ListTasksFromCache(5, 101, nil)` reports a hit
with the page made of task 7 alone; the list use case then serves that page, without reading
the store that holds the tasks 1, 2 and 7. -/
theorem C16_update_creates_index :
    Store.empty (teamTasksKey 5) = none ∧
      (UpdateTaskInCache sampleRepo Store.empty (sampleTask 7 "edited")).store (teamTasksKey 5) =
        some ⟨.zset [⟨7, "7"⟩], some 60000000000⟩ ∧
      (ListTasksFromCache sampleRepo (redisClient
        (UpdateTaskInCache sampleRepo Store.empty (sampleTask 7 "edited")).store) 5 101 none).hit
        = true ∧
      (ListTasksFromCache sampleRepo (redisClient
        (UpdateTaskInCache sampleRepo Store.empty (sampleTask 7 "edited")).store) 5 101 none).tasks
        = some [sampleTask 7 "edited"] ∧
      (tasklist.Execute (taskListExec sampleRepo
          [sampleTask 1 "a", sampleTask 2 "b", sampleTask 7 "edited"] (fun _ _ => true))
        (UpdateTaskInCache sampleRepo Store.empty (sampleTask 7 "edited")).store
        ⟨1, 5, "", 0, 0⟩).result =
        some ⟨[tasklist.toItem (sampleTask 7 "edited")], 0, false⟩ ∧
      (tasklist.Execute (taskListExec sampleRepo
          [sampleTask 1 "a", sampleTask 2 "b", sampleTask 7 "edited"] (fun _ _ => true))
        (UpdateTaskInCache sampleRepo Store.empty (sampleTask 7 "edited")).store
        ⟨1, 5, "", 0, 0⟩).calls =
        [tasklist.Call.CheckUserIsInTeam 1 5, tasklist.Call.ListTasksFromCache 5 101 none] := by
  refine ⟨rfl, by decide, by decide, by decide, by decide, by decide⟩

/-! ## C17: the middleware built by the application -/

theorem rateLimitingMiddleware_next (sp : String → Option (String × String)) (r : Request)
    (now : Int) (hnow : 60000000000 ≤ now) : rateLimitingMiddleware sp r now = .next :=
  (Handle_first sp NewRateLimitingMiddleware r now rfl hnow).1

theorem serveRoute_all_next (sp : String → Option (String × String)) (now : Int)
    (hnow : 60000000000 ≤ now) : ∀ (reqs : List Request),
    serveRoute sp (reqs.map (fun r => (r, now))) = List.replicate reqs.length Served.next
  | [] => rfl
  | r :: rest => by
    simp only [List.map_cons, serveRoute, rateLimitingMiddleware_next sp r now hnow,
      serveRoute_all_next sp now hnow rest, List.length_cons, List.replicate_succ]

/-- C17 for 101 immediate requests of user 7 on one route: the handler built by `Register`
creates a new middleware, with no bucket, for every request, so each request meets a full
bucket and all 101 are passed to the next handler; the 101st is not rejected. -/
theorem C17_route_never_limits :
    serveRoute splitLastColon
        ((List.replicate 101 (⟨some (.int 7), "", "10.0.0.1:4242"⟩ : Request)).map
          (fun r => (r, 1700000000000000000))) = List.replicate 101 Served.next ∧
      (serveRoute splitLastColon
        ((List.replicate 101 (⟨some (.int 7), "", "10.0.0.1:4242"⟩ : Request)).map
          (fun r => (r, 1700000000000000000)))).get? 100 ≠
        some (Served.error "rate limit exceeded" 429) := by
  have h := serveRoute_all_next splitLastColon 1700000000000000000 (by decide)
    (List.replicate 101 ⟨some (.int 7), "", "10.0.0.1:4242"⟩)
  rw [List.length_replicate] at h
  rw [h]
  exact ⟨rfl, by decide⟩

/-! ## C18: the batch of `CacheTasks` -/

theorem cacheEntries_serialised (js : Codec) : ∀ (ts : List Model),
    (∀ t ∈ ts, ∃ b, js.Marshal t = .ok b) →
    cacheEntries js ts = .ok (ts.map (fun t => (taskKey t.Id, encOf js t)),
      ts.map (fun t => ⟨float64 t.Id, Itoa t.Id⟩))
  | [], _ => rfl
  | t :: ts, h => by
    obtain ⟨b, hb⟩ := h t (List.mem_cons_self _ _)
    have henc : encOf js t = b := by simp [encOf, hb]
    have hrec := cacheEntries_serialised js ts (fun a ha => h a (List.mem_cons_of_mem _ ha))
    simp [cacheEntries, hb, hrec, henc]

/-- C18, as amended: for every non-empty task list whose tasks all serialise,
`CacheTasks(teamId, tasks)` submits one batch made of, in this order: for each task a `SET` of
key "task:<id>" to the task's serialised form with the configured TTL, one `ZADD` on
"team_tasks:<teamId>" that adds every task with member the decimal id and score `float64(id)`
(the id itself for ids between -2^53 and 2^53), and one `EXPIRE` of that index key with the
same TTL; it returns the error of executing the batch and leaves the store the batch
produces. -/
theorem C18_cache_batch (r : redis) (s : Store) (teamId : Int) (tasks : List Model)
    (hne : tasks ≠ []) (hser : ∀ t ∈ tasks, ∃ b, r.js.Marshal t = .ok b) :
    ∃ batch, (CacheTasks r s teamId tasks).submitted = [batch] ∧
      batch.cmds =
        tasks.map (fun t => Cmd.Set ("task:" ++ Itoa t.Id) (encOf r.js t) r.ttl) ++
          [Cmd.ZAdd ("team_tasks:" ++ Itoa teamId)
              (tasks.map (fun t => ⟨float64 t.Id, Itoa t.Id⟩)),
            Cmd.Expire ("team_tasks:" ++ Itoa teamId) r.ttl] ∧
      (CacheTasks r s teamId tasks).err = (execPipeline s batch.cmds).2 ∧
      (CacheTasks r s teamId tasks).store = (execPipeline s batch.cmds).1 ∧
      ∀ t ∈ tasks, -(2 ^ 53) ≤ t.Id → t.Id ≤ 2 ^ 53 → float64 t.Id = t.Id := by
  have hlen : ¬ tasks.length = 0 := fun h => hne (List.length_eq_zero.1 h)
  refine ⟨⟨false, cacheBatch r.ttl (teamTasksKey teamId)
    (tasks.map (fun t => (taskKey t.Id, encOf r.js t)))
    (tasks.map (fun t => ⟨float64 t.Id, Itoa t.Id⟩))⟩, ?_, ?_, ?_, ?_, ?_⟩
  · simp only [CacheTasks, hlen, if_false, cacheEntries_serialised r.js tasks hser]
  · simp only [cacheBatch, List.map_map, teamTasksKey]
    rfl
  · simp only [CacheTasks, hlen, if_false, cacheEntries_serialised r.js tasks hser]
  · simp only [CacheTasks, hlen, if_false, cacheEntries_serialised r.js tasks hser]
  · intro t _ hlo hhi
    exact float64_exact hlo hhi

/-- The claim C18 as stated fails: for the task with id 9007199254740993 the `ZADD` of the batch
carries the score 9007199254740992, not the id; and the batch is queued on a plain pipeline,
not on a transactional one. -/
theorem C18_counterexample :
    (CacheTasks sampleRepo Store.empty 5 [sampleTask 9007199254740993 "a"]).submitted.map
        (fun b => (b.tx, b.cmds.drop 1)) =
        [(false, [Cmd.ZAdd "team_tasks:5" [⟨9007199254740992, "9007199254740993"⟩],
          Cmd.Expire "team_tasks:5" 60000000000])] ∧
      (9007199254740992 : Int) ≠ (sampleTask 9007199254740993 "a").Id := by
  constructor <;> decide

/-- Instance of C18 for the tasks 1 and 2 of team 5 on an empty cache. -/
theorem C18_cache_batch_witness :
    ∃ batch, (CacheTasks sampleRepo Store.empty 5
        [sampleTask 1 "a", sampleTask 2 "b"]).submitted = [batch] ∧
      batch.cmds =
        [sampleTask 1 "a", sampleTask 2 "b"].map
            (fun t => Cmd.Set ("task:" ++ Itoa t.Id) (encOf sampleRepo.js t) sampleRepo.ttl) ++
          [Cmd.ZAdd ("team_tasks:" ++ Itoa 5)
              ([sampleTask 1 "a", sampleTask 2 "b"].map (fun t => ⟨float64 t.Id, Itoa t.Id⟩)),
            Cmd.Expire ("team_tasks:" ++ Itoa 5) sampleRepo.ttl] ∧
      (CacheTasks sampleRepo Store.empty 5 [sampleTask 1 "a", sampleTask 2 "b"]).err =
        (execPipeline Store.empty batch.cmds).2 ∧
      (CacheTasks sampleRepo Store.empty 5 [sampleTask 1 "a", sampleTask 2 "b"]).store =
        (execPipeline Store.empty batch.cmds).1 ∧
      ∀ t ∈ [sampleTask 1 "a", sampleTask 2 "b"],
        -(2 ^ 53) ≤ t.Id → t.Id ≤ 2 ^ 53 → float64 t.Id = t.Id :=
  C18_cache_batch sampleRepo Store.empty 5 [sampleTask 1 "a", sampleTask 2 "b"] (by decide)
    (fun t ht => by
      rcases List.mem_cons.1 ht with rfl | ht
      · exact ⟨_, rfl⟩
      · rw [List.mem_singleton.1 ht]; exact ⟨_, rfl⟩)

/-! ## C19: `CacheTasks` on an empty list -/

/-- C19: `CacheTasks` called with an empty task list returns nil, submits no batch and leaves
the store as it was, records, index and its time to live included. -/
theorem C19_empty_list_is_noop (r : redis) (s : Store) (teamId : Int) :
    (CacheTasks r s teamId []).err = none ∧ (CacheTasks r s teamId []).submitted = [] ∧
      (CacheTasks r s teamId []).store = s :=
  ⟨rfl, rfl, rfl⟩

/-! ## C20: the batch of `UpdateTaskInCache` -/

/-- C20, as amended: `UpdateTaskInCache(t)`, when `t` serialises to `b`, submits exactly one
transactional batch made of a `SET` of "task:<t.Id>" to `b` with the configured TTL, a `ZADD`
of member decimal(t.Id) with score `float64(t.Id)` (which is `t.Id` for ids between -2^53 and
2^53) on "team_tasks:<t.TeamId>", and an `EXPIRE` of that index key with the configured TTL;
it returns the error of executing the batch; and the record key written for an id is the key
`ListTasksFromCache` reads for the decimal text of that id. -/
theorem C20_update_batch (r : redis) (s : Store) (t : Model) (b : String)
    (hser : r.js.Marshal t = .ok b) :
    (UpdateTaskInCache r s t).submitted =
        [⟨true, [Cmd.Set ("task:" ++ Itoa t.Id) b r.ttl,
          Cmd.ZAdd ("team_tasks:" ++ Itoa t.TeamId) [⟨float64 t.Id, Itoa t.Id⟩],
          Cmd.Expire ("team_tasks:" ++ Itoa t.TeamId) r.ttl]⟩] ∧
      (UpdateTaskInCache r s t).err =
        (execPipeline s [Cmd.Set ("task:" ++ Itoa t.Id) b r.ttl,
          Cmd.ZAdd ("team_tasks:" ++ Itoa t.TeamId) [⟨float64 t.Id, Itoa t.Id⟩],
          Cmd.Expire ("team_tasks:" ++ Itoa t.TeamId) r.ttl]).2 ∧
      (-(2 ^ 53) ≤ t.Id → t.Id ≤ 2 ^ 53 → float64 t.Id = t.Id) ∧
      ∀ id : Int, taskKey id = taskKeyFromStr (Itoa id) := by
  refine ⟨?_, ?_, fun hlo hhi => float64_exact hlo hhi, fun _ => rfl⟩
  · simp only [UpdateTaskInCache, hser, taskKey, teamTasksKey]
  · simp only [UpdateTaskInCache, hser, taskKey, teamTasksKey]

/-- The claim C20 as stated fails: for the task with id 9007199254740993 the `ZADD` of the batch
carries the score 9007199254740992, not `t.Id`. -/
theorem C20_counterexample :
    (UpdateTaskInCache sampleRepo Store.empty (sampleTask 9007199254740993 "a")).submitted.map
        (fun b => (b.tx, b.cmds.drop 1)) =
        [(true, [Cmd.ZAdd "team_tasks:5" [⟨9007199254740992, "9007199254740993"⟩],
          Cmd.Expire "team_tasks:5" 60000000000])] ∧
      (9007199254740992 : Int) ≠ (sampleTask 9007199254740993 "a").Id := by
  constructor <;> decide

/-- Instance of C20 for task 7 of team 5 with the reference codec. -/
theorem C20_update_batch_witness :
    (UpdateTaskInCache sampleRepo Store.empty (sampleTask 7 "edited")).submitted =
        [⟨true, [Cmd.Set ("task:" ++ Itoa (sampleTask 7 "edited").Id)
            (encOf plainJSON (sampleTask 7 "edited")) sampleRepo.ttl,
          Cmd.ZAdd ("team_tasks:" ++ Itoa (sampleTask 7 "edited").TeamId)
            [⟨float64 (sampleTask 7 "edited").Id, Itoa (sampleTask 7 "edited").Id⟩],
          Cmd.Expire ("team_tasks:" ++ Itoa (sampleTask 7 "edited").TeamId) sampleRepo.ttl]⟩] ∧
      (UpdateTaskInCache sampleRepo Store.empty (sampleTask 7 "edited")).err =
        (execPipeline Store.empty [Cmd.Set ("task:" ++ Itoa (sampleTask 7 "edited").Id)
            (encOf plainJSON (sampleTask 7 "edited")) sampleRepo.ttl,
          Cmd.ZAdd ("team_tasks:" ++ Itoa (sampleTask 7 "edited").TeamId)
            [⟨float64 (sampleTask 7 "edited").Id, Itoa (sampleTask 7 "edited").Id⟩],
          Cmd.Expire ("team_tasks:" ++ Itoa (sampleTask 7 "edited").TeamId) sampleRepo.ttl]).2 ∧
      (-(2 ^ 53) ≤ (sampleTask 7 "edited").Id → (sampleTask 7 "edited").Id ≤ 2 ^ 53 →
        float64 (sampleTask 7 "edited").Id = (sampleTask 7 "edited").Id) ∧
      ∀ id : Int, taskKey id = taskKeyFromStr (Itoa id) :=
  C20_update_batch sampleRepo Store.empty (sampleTask 7 "edited")
    (encOf plainJSON (sampleTask 7 "edited")) rfl

/-! ## The paths of the task-list `Execute` -/

theorem fromStore_calls {σ : Type} (e : tasklist.executor σ) (w : σ)
    (inp : tasklist.ListInput) (listFromCache : Bool) (calls : List tasklist.Call)
    (hok : (e.ListTasks w inp.TeamId inp.Status inp.AssigneeId inp.StartFromId
      (tasklist.defaultLimit + 1)).2 = none) :
    (tasklist.fromStore e w inp listFromCache calls).calls =
      calls ++
        [tasklist.Call.ListTasks inp.TeamId inp.Status inp.AssigneeId inp.StartFromId
          (tasklist.defaultLimit + 1)] ++
        (if listFromCache then
          [tasklist.Call.CacheTasks inp.TeamId
            (((e.ListTasks w inp.TeamId inp.Status inp.AssigneeId inp.StartFromId
              (tasklist.defaultLimit + 1)).1.take
                (min (e.ListTasks w inp.TeamId inp.Status inp.AssigneeId inp.StartFromId
                  (tasklist.defaultLimit + 1)).1.length tasklist.defaultLimit)).filterMap id)]
        else []) := by
  cases listFromCache
  · simp only [tasklist.fromStore, hok, Bool.false_eq_true, if_false, List.append_nil]
    split
    · split
      · split <;> rfl
      · rfl
    · split <;> rfl
  · simp only [tasklist.fromStore, hok, if_true]
    split
    · split
      · split <;> rfl
      · rfl
    · split <;> rfl

/-- The results of the read of the store do not depend on the cache writer nor on the calls
made before. -/
theorem fromStore_results {σ : Type} (e1 e2 : tasklist.executor σ) (w : σ)
    (inp : tasklist.ListInput) (listFromCache : Bool) (calls1 calls2 : List tasklist.Call)
    (hlister : e1.ListTasks = e2.ListTasks) :
    (tasklist.fromStore e1 w inp listFromCache calls1).result =
        (tasklist.fromStore e2 w inp listFromCache calls2).result ∧
      (tasklist.fromStore e1 w inp listFromCache calls1).err =
        (tasklist.fromStore e2 w inp listFromCache calls2).err ∧
      (tasklist.fromStore e1 w inp listFromCache calls1).panicked =
        (tasklist.fromStore e2 w inp listFromCache calls2).panicked := by
  simp only [tasklist.fromStore, hlister]
  split
  · exact ⟨rfl, rfl, rfl⟩
  · split
    · split
      · split <;> exact ⟨rfl, rfl, rfl⟩
      · exact ⟨rfl, rfl, rfl⟩
    · split <;> exact ⟨rfl, rfl, rfl⟩

theorem Execute_filtered {σ : Type} (e : tasklist.executor σ) (w : σ) (inp : tasklist.ListInput)
    (hmember : e.CheckUserIsInTeam w inp.UserId inp.TeamId = (true, none))
    (hfilter : ¬ (inp.Status = "" ∧ inp.AssigneeId = 0)) :
    tasklist.Execute e w inp =
      tasklist.fromStore e w inp false [tasklist.Call.CheckUserIsInTeam inp.UserId inp.TeamId] := by
  have hflag : (decide (inp.Status = "") && decide (inp.AssigneeId = 0)) = false := by
    simpa using hfilter
  simp only [tasklist.Execute, hmember, hflag]
  simp

theorem Execute_no_lister {σ : Type} (e : tasklist.executor σ) (w : σ)
    (inp : tasklist.ListInput)
    (hmember : e.CheckUserIsInTeam w inp.UserId inp.TeamId = (true, none))
    (hstatus : inp.Status = "") (hassignee : inp.AssigneeId = 0)
    (hlister : e.cacheLister = none) :
    tasklist.Execute e w inp =
      tasklist.fromStore e w inp true [tasklist.Call.CheckUserIsInTeam inp.UserId inp.TeamId] := by
  simp [tasklist.Execute, hmember, hstatus, hassignee, hlister]

theorem Execute_not_served {σ : Type} (e : tasklist.executor σ) (w : σ)
    (inp : tasklist.ListInput) (lister : σ → Int → Int → Option Int → tasklist.CacheReply)
    (hmember : e.CheckUserIsInTeam w inp.UserId inp.TeamId = (true, none))
    (hstatus : inp.Status = "") (hassignee : inp.AssigneeId = 0)
    (hlister : e.cacheLister = some lister)
    (herr : (lister w inp.TeamId (tasklist.defaultLimit + 1)
      (if 0 < inp.StartFromId then some inp.StartFromId else none)).err = none)
    (hmiss : (lister w inp.TeamId (tasklist.defaultLimit + 1)
        (if 0 < inp.StartFromId then some inp.StartFromId else none)).hit = false ∨
      (lister w inp.TeamId (tasklist.defaultLimit + 1)
        (if 0 < inp.StartFromId then some inp.StartFromId else none)).tasks = none) :
    tasklist.Execute e w inp =
      tasklist.fromStore e w inp true
        [tasklist.Call.CheckUserIsInTeam inp.UserId inp.TeamId,
          tasklist.Call.ListTasksFromCache inp.TeamId (tasklist.defaultLimit + 1)
            (if 0 < inp.StartFromId then some inp.StartFromId else none)] := by
  rcases hmiss with hmiss | hmiss
  · simp [tasklist.Execute, hmember, hstatus, hassignee, hlister, herr, hmiss]
  · simp [tasklist.Execute, hmember, hstatus, hassignee, hlister, herr, hmiss]

theorem Execute_served {σ : Type} (e : tasklist.executor σ) (w : σ)
    (inp : tasklist.ListInput) (lister : σ → Int → Int → Option Int → tasklist.CacheReply)
    (cached : List Model)
    (hmember : e.CheckUserIsInTeam w inp.UserId inp.TeamId = (true, none))
    (hstatus : inp.Status = "") (hassignee : inp.AssigneeId = 0)
    (hlister : e.cacheLister = some lister)
    (herr : (lister w inp.TeamId (tasklist.defaultLimit + 1)
      (if 0 < inp.StartFromId then some inp.StartFromId else none)).err = none)
    (hhit : (lister w inp.TeamId (tasklist.defaultLimit + 1)
      (if 0 < inp.StartFromId then some inp.StartFromId else none)).hit = true)
    (htasks : (lister w inp.TeamId (tasklist.defaultLimit + 1)
      (if 0 < inp.StartFromId then some inp.StartFromId else none)).tasks = some cached) :
    tasklist.Execute e w inp =
      ⟨w, some (tasklist.fromCache cached), none, false,
        [tasklist.Call.CheckUserIsInTeam inp.UserId inp.TeamId,
          tasklist.Call.ListTasksFromCache inp.TeamId (tasklist.defaultLimit + 1)
            (if 0 < inp.StartFromId then some inp.StartFromId else none)]⟩ := by
  simp [tasklist.Execute, hmember, hstatus, hassignee, hlister, herr, hhit, htasks]

/-- The results of `Execute` do not depend on the cache writer. -/
theorem Execute_results {σ : Type} (e1 e2 : tasklist.executor σ) (w : σ)
    (inp : tasklist.ListInput) (hstore : e1.ListTasks = e2.ListTasks)
    (hcheck : e1.CheckUserIsInTeam = e2.CheckUserIsInTeam)
    (hlister : e1.cacheLister = e2.cacheLister) :
    (tasklist.Execute e1 w inp).result = (tasklist.Execute e2 w inp).result ∧
      (tasklist.Execute e1 w inp).err = (tasklist.Execute e2 w inp).err ∧
      (tasklist.Execute e1 w inp).panicked = (tasklist.Execute e2 w inp).panicked := by
  unfold tasklist.Execute
  simp only [hcheck, hlister]
  split
  · exact ⟨rfl, rfl, rfl⟩
  · split
    · exact ⟨rfl, rfl, rfl⟩
    · split
      · exact fromStore_results e1 e2 w inp _ _ _ hstore
      · split
        · exact ⟨rfl, rfl, rfl⟩
        · split
          · exact ⟨rfl, rfl, rfl⟩
          · exact fromStore_results e1 e2 w inp _ _ _ hstore

/-- An unfiltered request of a member that is not served from the cache, on which the store
listing succeeds, populates the cache. -/
theorem Execute_populates {σ : Type} (e : tasklist.executor σ) (w : σ)
    (inp : tasklist.ListInput)
    (hmember : e.CheckUserIsInTeam w inp.UserId inp.TeamId = (true, none))
    (hstatus : inp.Status = "") (hassignee : inp.AssigneeId = 0)
    (hmiss : ∀ lister, e.cacheLister = some lister →
      (lister w inp.TeamId (tasklist.defaultLimit + 1)
        (if 0 < inp.StartFromId then some inp.StartFromId else none)).err = none ∧
      ((lister w inp.TeamId (tasklist.defaultLimit + 1)
          (if 0 < inp.StartFromId then some inp.StartFromId else none)).hit = false ∨
        (lister w inp.TeamId (tasklist.defaultLimit + 1)
          (if 0 < inp.StartFromId then some inp.StartFromId else none)).tasks = none))
    (hok : (e.ListTasks w inp.TeamId inp.Status inp.AssigneeId inp.StartFromId
      (tasklist.defaultLimit + 1)).2 = none) :
    tasklist.Call.CacheTasks inp.TeamId
        (((e.ListTasks w inp.TeamId inp.Status inp.AssigneeId inp.StartFromId
          (tasklist.defaultLimit + 1)).1.take
            (min (e.ListTasks w inp.TeamId inp.Status inp.AssigneeId inp.StartFromId
              (tasklist.defaultLimit + 1)).1.length tasklist.defaultLimit)).filterMap id) ∈
      (tasklist.Execute e w inp).calls := by
  cases hl : e.cacheLister with
  | none =>
    rw [Execute_no_lister e w inp hmember hstatus hassignee hl,
      fromStore_calls e w inp true _ hok]
    simp
  | some lister =>
    obtain ⟨herr, hm⟩ := hmiss lister hl
    rw [Execute_not_served e w inp lister hmember hstatus hassignee hl herr hm,
      fromStore_calls e w inp true _ hok]
    simp

/-! ## C21: the populate after a read of the store is best-effort -/

/-- C21: for an unfiltered request of a team member that misses the cache (there is no cache
lister, or the lookup returns no error and either no hit or a nil list), the `ListResult`
and the error returned by `Execute`, and whether it panics, are the same for any two
behaviours `cacheTasks1` and `cacheTasks2` of `CacheTasks`, in particular for one that returns
nil and one that returns an error; and when the store listing succeeds `CacheTasks` is indeed
called, with the same arguments in both runs. -/
theorem C21_populate_is_best_effort {σ : Type} (e : tasklist.executor σ)
    (cacheTasks1 cacheTasks2 : σ → Int → List Model → σ × Option String) (w : σ)
    (inp : tasklist.ListInput)
    (hmember : e.CheckUserIsInTeam w inp.UserId inp.TeamId = (true, none))
    (hstatus : inp.Status = "") (hassignee : inp.AssigneeId = 0)
    (hmiss : ∀ lister, e.cacheLister = some lister →
      (lister w inp.TeamId (tasklist.defaultLimit + 1)
        (if 0 < inp.StartFromId then some inp.StartFromId else none)).err = none ∧
      ((lister w inp.TeamId (tasklist.defaultLimit + 1)
          (if 0 < inp.StartFromId then some inp.StartFromId else none)).hit = false ∨
        (lister w inp.TeamId (tasklist.defaultLimit + 1)
          (if 0 < inp.StartFromId then some inp.StartFromId else none)).tasks = none)) :
    (tasklist.Execute ⟨e.ListTasks, e.CheckUserIsInTeam, e.cacheLister, cacheTasks1⟩ w inp).result =
        (tasklist.Execute ⟨e.ListTasks, e.CheckUserIsInTeam, e.cacheLister, cacheTasks2⟩ w
          inp).result ∧
      (tasklist.Execute ⟨e.ListTasks, e.CheckUserIsInTeam, e.cacheLister, cacheTasks1⟩ w inp).err =
        (tasklist.Execute ⟨e.ListTasks, e.CheckUserIsInTeam, e.cacheLister, cacheTasks2⟩ w
          inp).err ∧
      (tasklist.Execute ⟨e.ListTasks, e.CheckUserIsInTeam, e.cacheLister, cacheTasks1⟩ w
          inp).panicked =
        (tasklist.Execute ⟨e.ListTasks, e.CheckUserIsInTeam, e.cacheLister, cacheTasks2⟩ w
          inp).panicked ∧
      ((e.ListTasks w inp.TeamId inp.Status inp.AssigneeId inp.StartFromId
          (tasklist.defaultLimit + 1)).2 = none →
        ∃ tasks,
          tasklist.Call.CacheTasks inp.TeamId tasks ∈
            (tasklist.Execute ⟨e.ListTasks, e.CheckUserIsInTeam, e.cacheLister, cacheTasks1⟩ w
              inp).calls ∧
          tasklist.Call.CacheTasks inp.TeamId tasks ∈
            (tasklist.Execute ⟨e.ListTasks, e.CheckUserIsInTeam, e.cacheLister, cacheTasks2⟩ w
              inp).calls) := by
  have hres := Execute_results
    ⟨e.ListTasks, e.CheckUserIsInTeam, e.cacheLister, cacheTasks1⟩
    ⟨e.ListTasks, e.CheckUserIsInTeam, e.cacheLister, cacheTasks2⟩ w inp rfl rfl rfl
  refine ⟨hres.1, hres.2.1, hres.2.2, ?_⟩
  intro hok
  exact ⟨_,
    Execute_populates ⟨e.ListTasks, e.CheckUserIsInTeam, e.cacheLister, cacheTasks1⟩ w inp
      hmember hstatus hassignee hmiss hok,
    Execute_populates ⟨e.ListTasks, e.CheckUserIsInTeam, e.cacheLister, cacheTasks2⟩ w inp
      hmember hstatus hassignee hmiss hok⟩

/-- Instance of C21 on stubs: the cache lister misses, the store answers two tasks, and the
cache writer returns nil in one run and an error in the other. -/
theorem C21_populate_is_best_effort_witness :
    (tasklist.Execute
          ⟨(stubExec (some ⟨none, false, none⟩)
              ([some (sampleTask 1 "a"), some (sampleTask 2 "b")], none)).ListTasks,
            (stubExec (some ⟨none, false, none⟩)
              ([some (sampleTask 1 "a"), some (sampleTask 2 "b")], none)).CheckUserIsInTeam,
            (stubExec (some ⟨none, false, none⟩)
              ([some (sampleTask 1 "a"), some (sampleTask 2 "b")], none)).cacheLister,
            fun w _ _ => (w, none)⟩ () ⟨1, 5, "", 0, 0⟩).result =
        (tasklist.Execute
          ⟨(stubExec (some ⟨none, false, none⟩)
              ([some (sampleTask 1 "a"), some (sampleTask 2 "b")], none)).ListTasks,
            (stubExec (some ⟨none, false, none⟩)
              ([some (sampleTask 1 "a"), some (sampleTask 2 "b")], none)).CheckUserIsInTeam,
            (stubExec (some ⟨none, false, none⟩)
              ([some (sampleTask 1 "a"), some (sampleTask 2 "b")], none)).cacheLister,
            fun w _ _ => (w, some "redis down")⟩ () ⟨1, 5, "", 0, 0⟩).result :=
  (C21_populate_is_best_effort
    (stubExec (some ⟨none, false, none⟩)
      ([some (sampleTask 1 "a"), some (sampleTask 2 "b")], none))
    (fun w _ _ => (w, none)) (fun w _ _ => (w, some "redis down")) () ⟨1, 5, "", 0, 0⟩
    rfl rfl rfl (fun lister hl => by
      have : lister = fun _ _ _ _ => ⟨none, false, none⟩ :=
        (Option.some.inj hl).symm
      subst this
      exact ⟨rfl, Or.inl rfl⟩)).1

/-! ## C22: the task edit and its cache refresh -/

/-- C22: `Execute` of the task edit calls `UpdateTaskInCache` exactly when `GetTaskById` has
returned a task without error, the membership check has returned true without error, and
`CreateHistory` and `EditTask` have returned no error. It then makes exactly the five calls in
order, the last one being `UpdateTaskInCache` on the fetched task with `Status`, `Title`,
`Description` and `AssigneeId` replaced by those of the input and the other fields kept, and
returns `(true, nil)`, whatever function `UpdateTaskInCache` is. When one of the four steps
fails, `Execute` returns false with a non-nil error and does not call `UpdateTaskInCache`. -/
theorem C22_edit_refreshes_cache_on_success (e : taskedit.executor) (inp : taskedit.EditInput)
    (now : Int) :
    ((∃ t, taskedit.Call.UpdateTaskInCache t ∈ (taskedit.Execute e inp now).calls) ↔
        ∃ old, e.GetTaskById inp.TaskId = (some old, none) ∧
          e.IsPartOfTeamByTaskId inp.UserId inp.TaskId = (true, none) ∧
          e.CreateHistory (some old) inp.UserId now = none ∧
          e.EditTask inp.TaskId inp.Status inp.Title inp.Description inp.AssigneeId = none) ∧
      (∀ old, e.GetTaskById inp.TaskId = (some old, none) →
        e.IsPartOfTeamByTaskId inp.UserId inp.TaskId = (true, none) →
        e.CreateHistory (some old) inp.UserId now = none →
        e.EditTask inp.TaskId inp.Status inp.Title inp.Description inp.AssigneeId = none →
        ∀ (update : Model → Option String),
          taskedit.Execute ⟨e.GetTaskById, e.IsPartOfTeamByTaskId, e.CreateHistory, e.EditTask,
              update⟩ inp now =
            ⟨true, none, false,
              [taskedit.Call.GetTaskById inp.TaskId,
                taskedit.Call.IsPartOfTeamByTaskId inp.UserId inp.TaskId,
                taskedit.Call.CreateHistory (some old) inp.UserId now,
                taskedit.Call.EditTask inp.TaskId inp.Status inp.Title inp.Description
                  inp.AssigneeId,
                taskedit.Call.UpdateTaskInCache
                  ⟨old.Id, inp.Status, inp.Title, inp.Description, old.CreatorId, old.CreatedAt,
                    inp.AssigneeId, old.TeamId⟩]⟩) ∧
      (((e.GetTaskById inp.TaskId).2 ≠ none ∨
          (e.IsPartOfTeamByTaskId inp.UserId inp.TaskId).2 ≠ none ∨
          (e.IsPartOfTeamByTaskId inp.UserId inp.TaskId).1 = false ∨
          e.CreateHistory (e.GetTaskById inp.TaskId).1 inp.UserId now ≠ none ∨
          e.EditTask inp.TaskId inp.Status inp.Title inp.Description inp.AssigneeId ≠ none) →
        (taskedit.Execute e inp now).ok = false ∧
          (taskedit.Execute e inp now).err ≠ none ∧
          (taskedit.Execute e inp now).panicked = false ∧
          ∀ t, taskedit.Call.UpdateTaskInCache t ∉ (taskedit.Execute e inp now).calls) := by
  rcases hg : e.GetTaskById inp.TaskId with ⟨got, gerr⟩
  rcases hm : e.IsPartOfTeamByTaskId inp.UserId inp.TaskId with ⟨isMember, merr⟩
  cases gerr with
  | some ge =>
    cases hnr : ge.isNoRows <;> simp [taskedit.Execute, hg, hnr]
  | none =>
    cases merr with
    | some me => simp [taskedit.Execute, hg, hm]
    | none =>
      cases isMember with
      | false => simp [taskedit.Execute, hg, hm]
      | true =>
        cases hh : e.CreateHistory got inp.UserId now with
        | some he =>
          simp [taskedit.Execute, hg, hm, hh]
          intro old hold
          rw [← hold, hh]
          simp
        | none =>
          cases he : e.EditTask inp.TaskId inp.Status inp.Title inp.Description
            inp.AssigneeId with
          | some ee => simp [taskedit.Execute, hg, hm, hh, he]
          | none =>
            cases got with
            | none => simp [taskedit.Execute, hg, hm, hh, he]
            | some old => simp [taskedit.Execute, hg, hm, hh, he, taskedit.updatedTask]

/-- Instance of C22 on stubs as in `executor_test.go`: the getter answers task 7, the user is a
member, history and edit succeed, and the cache updater fails. -/
theorem C22_edit_refreshes_cache_on_success_witness :
    taskedit.Execute
        ⟨fun _ => (some ⟨7, "todo", "old title", "old text", 2, 1000, 3, 5⟩, none),
          fun _ _ => (true, none), fun _ _ _ => none, fun _ _ _ _ _ => none,
          fun _ => some "redis down"⟩
        ⟨1, 7, "done", "new title", "new text", 4⟩ 2000 =
      ⟨true, none, false,
        [taskedit.Call.GetTaskById 7, taskedit.Call.IsPartOfTeamByTaskId 1 7,
          taskedit.Call.CreateHistory (some ⟨7, "todo", "old title", "old text", 2, 1000, 3, 5⟩)
            1 2000,
          taskedit.Call.EditTask 7 "done" "new title" "new text" 4,
          taskedit.Call.UpdateTaskInCache ⟨7, "done", "new title", "new text", 2, 1000, 4, 5⟩]⟩ :=
  (C22_edit_refreshes_cache_on_success
    ⟨fun _ => (some ⟨7, "todo", "old title", "old text", 2, 1000, 3, 5⟩, none),
      fun _ _ => (true, none), fun _ _ _ => none, fun _ _ _ _ _ => none, fun _ => none⟩
    ⟨1, 7, "done", "new title", "new text", 4⟩ 2000).2.1
    ⟨7, "todo", "old title", "old text", 2, 1000, 3, 5⟩ rfl rfl rfl rfl
    (fun _ => some "redis down")

/-! ## C23: when the cache is populated -/

/-- C23 fails as stated when the lookup reports a hit with a nil list: on stubs, for an
unfiltered request, the cache lister answers `hit = true` with a nil task list and no error,
the store answers one task, and `Execute` reads the store and calls `CacheTasks` with it. -/
theorem C23_counterexample :
    (tasklist.CacheReply.mk none true none).hit = true ∧
      (tasklist.Execute (stubExec (some ⟨none, true, none⟩) ([some (sampleTask 1 "a")], none)) ()
          ⟨1, 5, "", 0, 0⟩).calls =
        [tasklist.Call.CheckUserIsInTeam 1 5, tasklist.Call.ListTasksFromCache 5 101 none,
          tasklist.Call.ListTasks 5 "" 0 0 101,
          tasklist.Call.CacheTasks 5 [sampleTask 1 "a"]] := by
  decide

/-- C23, amended: for a request of a team member on which the cache lookup, if made, returns no
error and the store listing succeeds, `Execute` calls `CacheTasks` if and only if the request
is unfiltered (`Status` empty and `AssigneeId` 0) and the lookup did not report a hit with a
non-nil task list. Every call of `CacheTasks` it makes passes the `TeamId` of the request and
the non-nil ones among the first min(100, n) of the n task pointers returned by the store,
which are the first min(100, n) tasks when no pointer is nil. With a `Status` or `AssigneeId`
filter the only calls are the membership check and `ListTasks`: the cache is neither read nor
written. -/
theorem C23_populate_iff_unfiltered_miss {σ : Type} (e : tasklist.executor σ) (w : σ)
    (inp : tasklist.ListInput)
    (hmember : e.CheckUserIsInTeam w inp.UserId inp.TeamId = (true, none))
    (hlookup : inp.Status = "" → inp.AssigneeId = 0 →
      ∀ lister, e.cacheLister = some lister →
        (lister w inp.TeamId 101
          (if 0 < inp.StartFromId then some inp.StartFromId else none)).err = none)
    (hstore : (e.ListTasks w inp.TeamId inp.Status inp.AssigneeId inp.StartFromId 101).2 =
      none) :
    ((∃ teamId tasks,
          tasklist.Call.CacheTasks teamId tasks ∈ (tasklist.Execute e w inp).calls) ↔
        ((inp.Status = "" ∧ inp.AssigneeId = 0) ∧
          ¬ ∃ lister cached, e.cacheLister = some lister ∧
            (lister w inp.TeamId 101
              (if 0 < inp.StartFromId then some inp.StartFromId else none)).hit = true ∧
            (lister w inp.TeamId 101
              (if 0 < inp.StartFromId then some inp.StartFromId else none)).tasks =
                some cached)) ∧
      (∀ teamId tasks,
        tasklist.Call.CacheTasks teamId tasks ∈ (tasklist.Execute e w inp).calls →
        teamId = inp.TeamId ∧
          tasks = ((e.ListTasks w inp.TeamId inp.Status inp.AssigneeId inp.StartFromId
            101).1.take
              (min (e.ListTasks w inp.TeamId inp.Status inp.AssigneeId inp.StartFromId
                101).1.length 100)).filterMap id ∧
          ∀ stored : List Model,
            (e.ListTasks w inp.TeamId inp.Status inp.AssigneeId inp.StartFromId 101).1 =
              stored.map some →
            tasks = stored.take (min 100 stored.length)) ∧
      (¬ (inp.Status = "" ∧ inp.AssigneeId = 0) →
        (tasklist.Execute e w inp).calls =
          [tasklist.Call.CheckUserIsInTeam inp.UserId inp.TeamId,
            tasklist.Call.ListTasks inp.TeamId inp.Status inp.AssigneeId inp.StartFromId
              101]) := by
  have hnonnil : ∀ (stored : List Model) (k : Nat),
      ((stored.map some).take k).filterMap id = stored.take k := by
    intro stored k
    rw [← List.map_take, List.filterMap_map]
    simp
  have key : ∀ (listFromCache : Bool) (calls : List tasklist.Call),
      (tasklist.fromStore e w inp listFromCache calls).calls =
        calls ++
          [tasklist.Call.ListTasks inp.TeamId inp.Status inp.AssigneeId inp.StartFromId 101] ++
          (if listFromCache then
            [tasklist.Call.CacheTasks inp.TeamId
              (((e.ListTasks w inp.TeamId inp.Status inp.AssigneeId inp.StartFromId 101).1.take
                (min (e.ListTasks w inp.TeamId inp.Status inp.AssigneeId inp.StartFromId
                  101).1.length 100)).filterMap id)]
          else []) :=
    fun listFromCache calls => fromStore_calls e w inp listFromCache calls hstore
  have hargs : ∀ (calls : List tasklist.Call) (teamId : Int) (tasks : List Model),
      (∀ c ∈ calls, ∀ a b, c ≠ tasklist.Call.CacheTasks a b) →
      tasklist.Call.CacheTasks teamId tasks ∈
        calls ++
          [tasklist.Call.ListTasks inp.TeamId inp.Status inp.AssigneeId inp.StartFromId 101] ++
          [tasklist.Call.CacheTasks inp.TeamId
            (((e.ListTasks w inp.TeamId inp.Status inp.AssigneeId inp.StartFromId 101).1.take
              (min (e.ListTasks w inp.TeamId inp.Status inp.AssigneeId inp.StartFromId
                101).1.length 100)).filterMap id)] →
      teamId = inp.TeamId ∧
        tasks = ((e.ListTasks w inp.TeamId inp.Status inp.AssigneeId inp.StartFromId
          101).1.take
            (min (e.ListTasks w inp.TeamId inp.Status inp.AssigneeId inp.StartFromId
              101).1.length 100)).filterMap id ∧
        ∀ stored : List Model,
          (e.ListTasks w inp.TeamId inp.Status inp.AssigneeId inp.StartFromId 101).1 =
            stored.map some →
          tasks = stored.take (min 100 stored.length) := by
    intro calls teamId tasks hcalls hmem
    rw [List.mem_append, List.mem_append] at hmem
    rcases hmem with (hmem | hmem) | hmem
    · exact absurd rfl (hcalls _ hmem teamId tasks)
    · rw [List.mem_singleton] at hmem
      cases hmem
    · rw [List.mem_singleton] at hmem
      injection hmem with h1 h2
      refine ⟨h1, h2, ?_⟩
      intro stored hstored
      rw [h2, hstored, hnonnil, List.length_map, Nat.min_comm]
  by_cases hunf : inp.Status = "" ∧ inp.AssigneeId = 0
  · obtain ⟨hstatus, hassignee⟩ := hunf
    cases hl : e.cacheLister with
    | none =>
      rw [Execute_no_lister e w inp hmember hstatus hassignee hl, key, if_pos rfl]
      refine ⟨⟨fun _ => ⟨⟨hstatus, hassignee⟩, ?_⟩, fun _ =>
        ⟨inp.TeamId, _, List.mem_append_right _ (List.mem_singleton.2 rfl)⟩⟩, ?_, ?_⟩
      · rintro ⟨lister, cached, h, _⟩
        cases h
      · intro teamId tasks hmem
        refine hargs _ teamId tasks ?_ hmem
        intro c hc a b
        rw [List.mem_singleton] at hc
        rw [hc]
        intro h
        cases h
      · intro h
        exact absurd ⟨hstatus, hassignee⟩ h
    | some lister =>
      have herr := hlookup hstatus hassignee lister hl
      by_cases hserved : ∃ cached,
          (lister w inp.TeamId 101
            (if 0 < inp.StartFromId then some inp.StartFromId else none)).hit = true ∧
          (lister w inp.TeamId 101
            (if 0 < inp.StartFromId then some inp.StartFromId else none)).tasks = some cached
      · obtain ⟨cached, hhit, htasks⟩ := hserved
        rw [Execute_served e w inp lister cached hmember hstatus hassignee hl herr hhit htasks]
        refine ⟨?_, ?_, ?_⟩
        · simp only [List.mem_cons, List.mem_singleton, List.not_mem_nil, or_false]
          constructor
          · rintro ⟨teamId, tasks, h | h⟩ <;> cases h
          · rintro ⟨_, hnot⟩
            exact absurd ⟨lister, cached, rfl, hhit, htasks⟩ hnot
        · intro teamId tasks hmem
          simp at hmem
        · intro h
          exact absurd ⟨hstatus, hassignee⟩ h
      · have hm : (lister w inp.TeamId 101
              (if 0 < inp.StartFromId then some inp.StartFromId else none)).hit = false ∨
            (lister w inp.TeamId 101
              (if 0 < inp.StartFromId then some inp.StartFromId else none)).tasks = none := by
          cases hh : (lister w inp.TeamId 101
              (if 0 < inp.StartFromId then some inp.StartFromId else none)).hit with
          | false => exact Or.inl rfl
          | true =>
            cases ht : (lister w inp.TeamId 101
                (if 0 < inp.StartFromId then some inp.StartFromId else none)).tasks with
            | none => exact Or.inr rfl
            | some cached => exact absurd ⟨cached, hh, ht⟩ hserved
        rw [Execute_not_served e w inp lister hmember hstatus hassignee hl herr hm, key, if_pos rfl]
        refine ⟨⟨fun _ => ⟨⟨hstatus, hassignee⟩, ?_⟩, fun _ =>
        ⟨inp.TeamId, _, List.mem_append_right _ (List.mem_singleton.2 rfl)⟩⟩, ?_, ?_⟩
        · rintro ⟨lister2, cached, hl2, hhit, htasks⟩
          have : lister2 = lister := (Option.some.inj hl2).symm
          subst this
          exact hserved ⟨cached, hhit, htasks⟩
        · intro teamId tasks hmem
          refine hargs _ teamId tasks ?_ hmem
          intro c hc a b
          rw [List.mem_cons, List.mem_singleton] at hc
          rcases hc with hc | hc <;> rw [hc] <;> intro h <;> cases h
        · intro h
          exact absurd ⟨hstatus, hassignee⟩ h
  · rw [Execute_filtered e w inp hmember hunf, key]
    refine ⟨?_, ?_, ?_⟩
    · constructor
      · rintro ⟨teamId, tasks, hmem⟩
        simp at hmem
      · rintro ⟨h, _⟩
        exact absurd h hunf
    · intro teamId tasks hmem
      simp at hmem
    · intro _
      simp

/-- Instance of C23 on the stubs of the counterexample: the lookup reports a hit with a nil
list, which is not a hit with a non-nil list, so `CacheTasks` is called. -/
theorem C23_populate_iff_unfiltered_miss_witness :
    ∃ teamId tasks, tasklist.Call.CacheTasks teamId tasks ∈
      (tasklist.Execute (stubExec (some ⟨none, true, none⟩) ([some (sampleTask 1 "a")], none)) ()
        ⟨1, 5, "", 0, 0⟩).calls :=
  (C23_populate_iff_unfiltered_miss
    (stubExec (some ⟨none, true, none⟩) ([some (sampleTask 1 "a")], none)) () ⟨1, 5, "", 0, 0⟩
    rfl
    (fun _ _ lister hl => by
      have : lister = fun _ _ _ _ => ⟨none, true, none⟩ := (Option.some.inj hl).symm
      subst this
      rfl)
    rfl).1.2
    ⟨⟨rfl, rfl⟩, by
      rintro ⟨lister, cached, hl, _, htasks⟩
      have : lister = fun _ _ _ _ => ⟨none, true, none⟩ := (Option.some.inj hl).symm
      subst this
      cases htasks⟩

/-! ## C24: a page served from the cache -/

/-- C24: for an unfiltered request of a team member, when the cache lookup returns no error and
reports a hit with a non-nil list `cached`, `Execute` returns without error the result whose
tasks are the first 100 tasks of `cached` (all of them when there are at most 100), in the
same order and field by field, and its only calls are the membership check and the lookup:
neither `ListTasks` nor `CacheTasks` is called. -/
theorem C24_cache_hit_is_served {σ : Type} (e : tasklist.executor σ) (w : σ)
    (inp : tasklist.ListInput) (lister : σ → Int → Int → Option Int → tasklist.CacheReply)
    (cached : List Model)
    (hmember : e.CheckUserIsInTeam w inp.UserId inp.TeamId = (true, none))
    (hstatus : inp.Status = "") (hassignee : inp.AssigneeId = 0)
    (hlister : e.cacheLister = some lister)
    (herr : (lister w inp.TeamId 101
      (if 0 < inp.StartFromId then some inp.StartFromId else none)).err = none)
    (hhit : (lister w inp.TeamId 101
      (if 0 < inp.StartFromId then some inp.StartFromId else none)).hit = true)
    (htasks : (lister w inp.TeamId 101
      (if 0 < inp.StartFromId then some inp.StartFromId else none)).tasks = some cached) :
    (∃ res, (tasklist.Execute e w inp).result = some res ∧
        res.Tasks = (cached.take 100).map (fun t =>
          ⟨t.Id, t.Status, t.Title, t.Description, t.CreatorId, t.AssigneeId, t.TeamId⟩) ∧
        res.Tasks.length = min 100 cached.length) ∧
      (tasklist.Execute e w inp).err = none ∧
      (tasklist.Execute e w inp).panicked = false ∧
      (tasklist.Execute e w inp).calls =
        [tasklist.Call.CheckUserIsInTeam inp.UserId inp.TeamId,
          tasklist.Call.ListTasksFromCache inp.TeamId 101
            (if 0 < inp.StartFromId then some inp.StartFromId else none)] ∧
      (∀ teamId status assigneeId startFromId limit,
        tasklist.Call.ListTasks teamId status assigneeId startFromId limit ∉
          (tasklist.Execute e w inp).calls) ∧
      (∀ teamId tasks,
        tasklist.Call.CacheTasks teamId tasks ∉ (tasklist.Execute e w inp).calls) := by
  have hlimit : ((tasklist.defaultLimit : Nat) : Int) + 1 = 101 := rfl
  have hrun := Execute_served e w inp lister cached hmember hstatus hassignee hlister
    (by rw [hlimit]; exact herr) (by rw [hlimit]; exact hhit) (by rw [hlimit]; exact htasks)
  rw [hlimit] at hrun
  rw [hrun]
  refine ⟨⟨tasklist.fromCache cached, rfl, ?_, ?_⟩, rfl, rfl, rfl, ?_, ?_⟩
  · by_cases hlen : tasklist.defaultLimit < cached.length
    · have hlen2 : 100 < cached.length := hlen
      obtain ⟨t, ht⟩ : ∃ t, cached.get? tasklist.defaultLimit = some t := by
        cases hget : cached.get? tasklist.defaultLimit with
        | none =>
          have := List.get?_eq_none.1 hget
          omega
        | some t => exact ⟨t, rfl⟩
      simp only [tasklist.fromCache, hlen, if_true, ht]
      rfl
    · have hlen2 : cached.length ≤ 100 := by
        unfold tasklist.defaultLimit at hlen
        omega
      simp only [tasklist.fromCache, hlen, if_false, List.take_of_length_le hlen2]
      rfl
  · by_cases hlen : tasklist.defaultLimit < cached.length
    · have hlen2 : 100 < cached.length := hlen
      obtain ⟨t, ht⟩ : ∃ t, cached.get? tasklist.defaultLimit = some t := by
        cases hget : cached.get? tasklist.defaultLimit with
        | none =>
          have := List.get?_eq_none.1 hget
          omega
        | some t => exact ⟨t, rfl⟩
      simp only [tasklist.fromCache, hlen, if_true, ht, List.length_map, List.length_take]
      unfold tasklist.defaultLimit
      omega
    · have hlen2 : cached.length ≤ 100 := by
        unfold tasklist.defaultLimit at hlen
        omega
      simp only [tasklist.fromCache, hlen, if_false, List.length_map]
      omega
  · intro teamId status assigneeId startFromId limit hmem
    simp at hmem
  · intro teamId tasks hmem
    simp at hmem

/-- Instance of C24 on the stubs of the test `success - cache hit returns tasks`: the cache
lister hits with two tasks. -/
theorem C24_cache_hit_is_served_witness :
    (tasklist.Execute
        (stubExec (some ⟨some [sampleTask 1 "a", sampleTask 2 "b"], true, none⟩) ([], none)) ()
        ⟨1, 5, "", 0, 0⟩).calls =
      [tasklist.Call.CheckUserIsInTeam 1 5, tasklist.Call.ListTasksFromCache 5 101 none] :=
  (C24_cache_hit_is_served
    (stubExec (some ⟨some [sampleTask 1 "a", sampleTask 2 "b"], true, none⟩) ([], none)) ()
    ⟨1, 5, "", 0, 0⟩ (fun _ _ _ _ => ⟨some [sampleTask 1 "a", sampleTask 2 "b"], true, none⟩)
    [sampleTask 1 "a", sampleTask 2 "b"] rfl rfl rfl rfl rfl rfl rfl).2.2.2.1

/-! ## C25: a page of comments -/

/-- C25: the comment-list `Execute` asks the lister for 101 comments. When the lister answers
more than 100 comments without error, the result holds exactly the first 100 of them in the
lister's order, field by field, with `HasMore = true` and `NextStartFromId` the `Id` of the
101st. When it answers at most 100, the result holds all of them with `HasMore = false` and
`NextStartFromId = 0`. When it answers an error, `Execute` returns that error and a nil
result. -/
theorem C25_comment_page (ListTaskComments : Int → Int → Int → List commentlist.Model ×
    Option String) (taskId startFromId : Int) :
    (∀ comments, ListTaskComments taskId startFromId 101 = (comments, none) →
        100 < comments.length →
        ∃ c, comments.get? 100 = some c ∧
          commentlist.Execute ListTaskComments taskId startFromId =
            (some ⟨(comments.take 100).map
              (fun c => ⟨c.Id, c.CreatedAt, c.CommenterId, c.TaskId, c.Text⟩), c.Id, true⟩,
              none)) ∧
      (∀ comments, ListTaskComments taskId startFromId 101 = (comments, none) →
        comments.length ≤ 100 →
        commentlist.Execute ListTaskComments taskId startFromId =
          (some ⟨comments.map (fun c => ⟨c.Id, c.CreatedAt, c.CommenterId, c.TaskId, c.Text⟩),
            0, false⟩, none)) ∧
      (∀ comments err, ListTaskComments taskId startFromId 101 = (comments, some err) →
        commentlist.Execute ListTaskComments taskId startFromId = (none, some err)) := by
  have hlimit : ((commentlist.defaultLimit : Nat) : Int) + 1 = 101 := rfl
  refine ⟨?_, ?_, ?_⟩
  · intro comments h hlen
    obtain ⟨c, hc⟩ : ∃ c, comments.get? 100 = some c := by
      cases hget : comments.get? 100 with
      | none =>
        have := List.get?_eq_none.1 hget
        omega
      | some c => exact ⟨c, rfl⟩
    refine ⟨c, hc, ?_⟩
    have hlen2 : commentlist.defaultLimit < comments.length := hlen
    have hc2 : comments.get? commentlist.defaultLimit = some c := hc
    simp only [commentlist.Execute, hlimit, h, hlen2, if_true, hc2]
    rfl
  · intro comments h hlen
    have hlen2 : ¬ commentlist.defaultLimit < comments.length := by
      unfold commentlist.defaultLimit
      omega
    simp only [commentlist.Execute, hlimit, h, hlen2, if_false]
    rfl
  · intro comments err h
    simp only [commentlist.Execute, hlimit, h]

/-- Instance of C25 on the lister of the tests, which answers 102 comments with ids 100 to 201:
the page holds the comments 100 to 199 and the cursor is 200. -/
theorem C25_comment_page_witness :
    ∃ c, (commentlist.stubTaskCommentListerPaginate 0 7 0 101).1.get? 100 = some c ∧
      commentlist.Execute (commentlist.stubTaskCommentListerPaginate 0) 7 0 =
        (some ⟨((commentlist.stubTaskCommentListerPaginate 0 7 0 101).1.take 100).map
          (fun c => ⟨c.Id, c.CreatedAt, c.CommenterId, c.TaskId, c.Text⟩), c.Id, true⟩, none) :=
  (C25_comment_page (commentlist.stubTaskCommentListerPaginate 0) 7 0).1
    (commentlist.stubTaskCommentListerPaginate 0 7 0 101).1 rfl (by decide)

/-! ## C26: the identity key of a request -/

/-- The parts of `splitComma` joined by commas give the text back, and no part holds a comma:
`splitComma` is the split at every comma. -/
theorem splitComma_spec : ∀ (l : List Char),
    splitComma l ≠ [] ∧ List.intercalate [','] (splitComma l) = l ∧
      ∀ p ∈ splitComma l, ',' ∉ p
  | [] => by simp [splitComma, List.intercalate]
  | c :: cs => by
    obtain ⟨hne, hjoin, hparts⟩ := splitComma_spec cs
    cases hs : splitComma cs with
    | nil => exact absurd hs hne
    | cons p ps =>
      rw [hs] at hjoin hparts
      by_cases hc : c = ','
      · subst hc
        refine ⟨by simp [splitComma, hs], ?_, ?_⟩
        · simp only [splitComma, hs, if_true]
          simp only [List.intercalate, List.intersperse, List.flatten, List.nil_append,
            List.singleton_append] at hjoin ⊢
          rw [hjoin]
        · intro q hq
          simp only [splitComma, hs, if_true, List.mem_cons] at hq
          rcases hq with rfl | hq
          · simp
          · exact hparts q (List.mem_cons.2 hq)
      · refine ⟨by simp [splitComma, hs, hc], ?_, ?_⟩
        · simp only [splitComma, hs, hc, if_false]
          cases ps with
          | nil =>
            simp only [List.intercalate, List.intersperse, List.flatten, List.append_nil]
              at hjoin ⊢
            rw [hjoin]
          | cons p2 ps2 =>
            simp only [List.intercalate, List.intersperse, List.flatten, List.cons_append]
              at hjoin ⊢
            rw [hjoin]
        · intro q hq
          simp only [splitComma, hs, hc, if_false, List.mem_cons] at hq
          rcases hq with rfl | hq
          · intro hmem
            rcases List.mem_cons.1 hmem with h | h
            · exact hc h.symm
            · exact hparts p (List.mem_cons_self _ _) h
          · exact hparts q (List.mem_cons_of_mem _ hq)

/-- A text trims to nothing exactly when all its characters are white space. -/
theorem trimSpace_eq_nil (p : List Char) : trimSpace p = [] ↔ p.all isSpace = true := by
  unfold trimSpace
  rw [List.reverse_eq_nil_iff, List.dropWhile_eq_nil_iff, List.all_eq_true]
  constructor
  · intro h
    have hdrop : p.dropWhile isSpace = [] := by
      cases hd : p.dropWhile isSpace with
      | nil => rfl
      | cons c rest =>
        have hc : isSpace c = true := h c (by rw [hd]; simp)
        have hhead := List.head_dropWhile_not isSpace p (by rw [hd]; simp)
        simp only [hd, List.head_cons] at hhead
        rw [hc] at hhead
        exact absurd hhead (by decide)
    exact List.dropWhile_eq_nil_iff.1 hdrop
  · intro h x hx
    have hdrop : p.dropWhile isSpace = [] := List.dropWhile_eq_nil_iff.2 h
    rw [hdrop] at hx
    simp at hx

/-- The loop of `getClientIP` returns the first part that is not all white space, trimmed, and
nothing when every part is white space. -/
theorem firstNonBlank_spec : ∀ (parts : List (List Char)),
    (∀ before p after, parts = before ++ p :: after →
        (∀ q ∈ before, q.all isSpace = true) → p.all isSpace = false →
        firstNonBlank parts = some (String.mk (trimSpace p))) ∧
      ((∀ q ∈ parts, q.all isSpace = true) → firstNonBlank parts = none)
  | [] => by
    refine ⟨?_, fun _ => rfl⟩
    intro before p after h
    simp at h
  | q :: rest => by
    obtain ⟨hfirst, hnone⟩ := firstNonBlank_spec rest
    refine ⟨?_, ?_⟩
    · intro before p after h hbefore hp
      cases before with
      | nil =>
        simp only [List.nil_append, List.cons.injEq] at h
        obtain ⟨rfl, _⟩ := h
        have : trimSpace q ≠ [] := by
          rw [Ne, trimSpace_eq_nil, hp]
          decide
        simp [firstNonBlank, this]
      | cons b before2 =>
        simp only [List.cons_append, List.cons.injEq] at h
        obtain ⟨rfl, hrest⟩ := h
        have hq : trimSpace q = [] :=
          (trimSpace_eq_nil q).2 (hbefore q (List.mem_cons_self _ _))
        simp only [firstNonBlank, hq, ne_eq, not_true_eq_false, if_false]
        exact hfirst before2 p after hrest
          (fun x hx => hbefore x (List.mem_cons_of_mem _ hx)) hp
    · intro hall
      have hq : trimSpace q = [] := (trimSpace_eq_nil q).2 (hall q (List.mem_cons_self _ _))
      simp only [firstNonBlank, hq, ne_eq, not_true_eq_false, if_false]
      exact hnone (fun x hx => hall x (List.mem_cons_of_mem _ hx))

/-- C26: when the context of the request holds an int `v` under the key userId,
`getUserIdOrIp` returns `user_id:` followed by the decimal text of `v`, which is not `ip:`
followed by any text. Otherwise it returns `ip:` followed by an address: the first entry of
`X-Forwarded-For`, split at commas, that is not all white space, trimmed, when there is one;
else the host that `net.SplitHostPort` extracts from `RemoteAddr`, or `RemoteAddr` itself when
it cannot be split. -/
theorem C26_identity_key (splitHostPort : String → Option (String × String)) (r : Request) :
    (∀ v, r.userId = some (.int v) →
        getUserIdOrIp splitHostPort r = "user_id:" ++ Itoa v ∧
          ∀ address : String, getUserIdOrIp splitHostPort r ≠ "ip:" ++ address) ∧
      ((∀ v, r.userId ≠ some (.int v)) →
        (∀ before p after, splitComma r.xForwardedFor.data = before ++ p :: after →
          (∀ q ∈ before, q.all isSpace = true) → p.all isSpace = false →
          getUserIdOrIp splitHostPort r = "ip:" ++ String.mk (trimSpace p)) ∧
        ((∀ q ∈ splitComma r.xForwardedFor.data, q.all isSpace = true) →
          (∀ host port, splitHostPort r.RemoteAddr = some (host, port) →
            getUserIdOrIp splitHostPort r = "ip:" ++ host) ∧
          (splitHostPort r.RemoteAddr = none →
            getUserIdOrIp splitHostPort r = "ip:" ++ r.RemoteAddr))) := by
  have hheader : (if r.xForwardedFor ≠ "" then firstNonBlank (splitComma r.xForwardedFor.data)
      else none) = firstNonBlank (splitComma r.xForwardedFor.data) := by
    by_cases hx : r.xForwardedFor = ""
    · rw [hx]
      decide
    · simp [hx]
  refine ⟨?_, ?_⟩
  · intro v hv
    have hkey : getUserIdOrIp splitHostPort r = "user_id:" ++ Itoa v := by
      simp [getUserIdOrIp, hv]
    refine ⟨hkey, ?_⟩
    intro address h
    rw [hkey] at h
    have hdata := congrArg String.data h
    simp only [String.data_append] at hdata
    simp at hdata
  · intro hnot
    have hkey : getUserIdOrIp splitHostPort r = "ip:" ++ getClientIP splitHostPort r := by
      unfold getUserIdOrIp
      split
      · rename_i v hv
        exact absurd hv (hnot v)
      · rfl
    obtain ⟨hfirst, hnone⟩ := firstNonBlank_spec (splitComma r.xForwardedFor.data)
    refine ⟨?_, ?_⟩
    · intro before p after hsplit hbefore hp
      rw [hkey]
      simp only [getClientIP]
      rw [hheader, hfirst before p after hsplit hbefore hp]
    · intro hall
      refine ⟨?_, ?_⟩
      · intro host port hsp
        rw [hkey]
        simp only [getClientIP]
        rw [hheader, hnone hall, hsp]
      · intro hsp
        rw [hkey]
        simp only [getClientIP]
        rw [hheader, hnone hall, hsp]

/-- Instance of C26 on an anonymous request whose header is a blank entry followed by two
addresses: the key is made from the first address, trimmed. -/
theorem C26_identity_key_witness :
    getUserIdOrIp (fun _ => none) ⟨none, " , 10.0.0.1 ,10.0.0.2", "192.168.1.1:5000"⟩ =
      "ip:" ++ String.mk (trimSpace " 10.0.0.1 ".data) :=
  ((C26_identity_key (fun _ => none) ⟨none, " , 10.0.0.1 ,10.0.0.2", "192.168.1.1:5000"⟩).2
    (fun v h => by cases h)).1 [" ".data] " 10.0.0.1 ".data ["10.0.0.2".data]
    (by decide) (by decide) (by decide)

/-! ## C28: the states a completed call leaves -/

/-- What every completed call leaves, for a threshold of at least 1: the breaker is Closed or
Open, and a Closed breaker has counted fewer failures than the threshold. -/
theorem RoundTrip_settled (cb : CircuitBreakerRoundTripper) (a : Attempt)
    (hthr : 1 ≤ cb.failureThreshold)
    (hstate : cb.state = .Closed ∨ cb.state = .Open)
    (hcount : cb.state = .Closed → cb.failures < cb.failureThreshold) :
    (RoundTrip cb a).cb.failureThreshold = cb.failureThreshold ∧
      ((RoundTrip cb a).cb.state = .Closed ∨ (RoundTrip cb a).cb.state = .Open) ∧
      ((RoundTrip cb a).cb.state = .Closed →
        (RoundTrip cb a).cb.failures < cb.failureThreshold) := by
  rcases hstate with hclosed | hopen
  · have hlt := hcount hclosed
    rw [RoundTrip_closed cb a hclosed]
    cases hfa : isFailure a
    · simp [record, hfa, hclosed]
      omega
    · by_cases hreach : cb.failureThreshold ≤ cb.failures + 1
      · simp [record, hfa, hclosed, hreach]
      · simp [record, hfa, hclosed, hreach]
        omega
  · by_cases hwait : cb.resetTimeout < timeSince a.checkedAt cb.lastFailure
    · rw [RoundTrip_probe cb a hopen hwait]
      cases hfa : isFailure a
      · simp [record, hfa]
        omega
      · simp [record, hfa]
    · rw [RoundTrip_rejected cb a hopen (by omega)]
      simp [hopen]

theorem afterCalls_settled : ∀ (history : List Attempt) (cb : CircuitBreakerRoundTripper),
    1 ≤ cb.failureThreshold →
    (cb.state = .Closed ∨ cb.state = .Open) →
    (cb.state = .Closed → cb.failures < cb.failureThreshold) →
    ((afterCalls cb history).state = .Closed ∨ (afterCalls cb history).state = .Open) ∧
      ((afterCalls cb history).state = .Closed →
        (afterCalls cb history).failures < cb.failureThreshold)
  | [], _, _, hstate, hcount => ⟨hstate, hcount⟩
  | a :: rest, cb, hthr, hstate, hcount => by
    have hstep := RoundTrip_settled cb a hthr hstate hcount
    have hrec := afterCalls_settled rest (RoundTrip cb a).cb (by rw [hstep.1]; exact hthr)
      hstep.2.1 (by rw [hstep.1]; exact hstep.2.2)
    rw [hstep.1] at hrec
    exact hrec

/-- C28: for a breaker built by `NewCircuitBreakerRoundTripper` with a threshold of at least 1,
after each call of any sequential run of `RoundTrip` calls (after the first `k` calls of the
run, for every `k`) the state is Closed or Open, never HalfOpen, and when it is Closed the
failure counter is strictly below the threshold. -/
theorem C28_settled_after_each_call (failureThreshold resetTimeout : Int)
    (history : List Attempt) (k : Nat) (hthr : 1 ≤ failureThreshold) :
    ((afterCalls (NewCircuitBreakerRoundTripper failureThreshold resetTimeout)
          (history.take k)).state = .Closed ∨
        (afterCalls (NewCircuitBreakerRoundTripper failureThreshold resetTimeout)
          (history.take k)).state = .Open) ∧
      (afterCalls (NewCircuitBreakerRoundTripper failureThreshold resetTimeout)
          (history.take k)).state ≠ .HalfOpen ∧
      ((afterCalls (NewCircuitBreakerRoundTripper failureThreshold resetTimeout)
          (history.take k)).state = .Closed →
        (afterCalls (NewCircuitBreakerRoundTripper failureThreshold resetTimeout)
          (history.take k)).failures < failureThreshold) := by
  have h := afterCalls_settled (history.take k)
    (NewCircuitBreakerRoundTripper failureThreshold resetTimeout) hthr (Or.inl rfl)
    (fun _ => by simp only [NewCircuitBreakerRoundTripper]; omega)
  refine ⟨h.1, ?_, h.2⟩
  rcases h.1 with hc | ho
  · rw [hc]; decide
  · rw [ho]; decide

/-- Instance of C28 with threshold 2 and timeout 10 on the run failure, failure (the breaker
opens), a probe that fails, a probe that succeeds, failure: after four of the five calls. -/
theorem C28_settled_after_each_call_witness :
    ((afterCalls (NewCircuitBreakerRoundTripper 2 10)
          ([failedCall 100, failedCall 101, failedCall 200, okCall 300, failedCall 301].take
            4)).state = .Closed ∨
        (afterCalls (NewCircuitBreakerRoundTripper 2 10)
          ([failedCall 100, failedCall 101, failedCall 200, okCall 300, failedCall 301].take
            4)).state = .Open) ∧
      (afterCalls (NewCircuitBreakerRoundTripper 2 10)
          ([failedCall 100, failedCall 101, failedCall 200, okCall 300, failedCall 301].take
            4)).state ≠ .HalfOpen ∧
      ((afterCalls (NewCircuitBreakerRoundTripper 2 10)
          ([failedCall 100, failedCall 101, failedCall 200, okCall 300, failedCall 301].take
            4)).state = .Closed →
        (afterCalls (NewCircuitBreakerRoundTripper 2 10)
          ([failedCall 100, failedCall 101, failedCall 200, okCall 300, failedCall 301].take
            4)).failures < 2) :=
  C28_settled_after_each_call 2 10
    [failedCall 100, failedCall 101, failedCall 200, okCall 300, failedCall 301] 4 (by decide)

/-! ## C29: a rejected call changes nothing -/

/-- A call whose transport was not invoked was made on an Open breaker before the timeout had
elapsed. -/
theorem not_invoked_iff (cb : CircuitBreakerRoundTripper) (a : Attempt) :
    (RoundTrip cb a).invoked = false ↔
      (cb.state = .Open ∧ timeSince a.checkedAt cb.lastFailure ≤ cb.resetTimeout) := by
  constructor
  · intro h
    cases hs : cb.state
    · rw [RoundTrip_closed cb a hs] at h
      simp at h
    · by_cases hwait : cb.resetTimeout < timeSince a.checkedAt cb.lastFailure
      · rw [RoundTrip_probe cb a hs hwait] at h
        simp at h
      · exact ⟨rfl, by omega⟩
    · simp [RoundTrip, admitCall, hs] at h
  · rintro ⟨hopen, hwait⟩
    rw [RoundTrip_rejected cb a hopen hwait]

/-- C29: a `RoundTrip` that is rejected (the transport is not invoked) was made on an Open
breaker, returns the error `circuit breaker is open` without a response, and leaves the state,
the failure counter and `lastFailure` as they were; so after any run of rejected calls the next
call is treated exactly as it would have been without them: the open period is neither
extended nor shortened. -/
theorem C29_rejected_call_is_a_frame (cb : CircuitBreakerRoundTripper) (a : Attempt)
    (hrejected : (RoundTrip cb a).invoked = false) :
    cb.state = .Open ∧
      (RoundTrip cb a).resp = none ∧ (RoundTrip cb a).err = some "circuit breaker is open" ∧
      (RoundTrip cb a).cb.state = cb.state ∧
      (RoundTrip cb a).cb.failures = cb.failures ∧
      (RoundTrip cb a).cb.lastFailure = cb.lastFailure ∧
      (RoundTrip cb a).cb = cb ∧
      ∀ (more : List Attempt) (next : Attempt),
        (∀ b ∈ more, (RoundTrip cb b).invoked = false) →
        afterCalls cb more = cb ∧ RoundTrip (afterCalls cb more) next = RoundTrip cb next := by
  have h := (not_invoked_iff cb a).1 hrejected
  have hstep := RoundTrip_rejected cb a h.1 h.2
  refine ⟨h.1, by rw [hstep], by rw [hstep], by rw [hstep], by rw [hstep], by rw [hstep],
    by rw [hstep], ?_⟩
  intro more next hmore
  have hrun := (rejected_run cb h.1 more
    (fun b hb => ((not_invoked_iff cb b).1 (hmore b hb)).2)).1
  exact ⟨hrun, by rw [hrun]⟩

/-- Instance of C29: a breaker opened at instant 100 with a timeout of 10, called at instant
105. -/
theorem C29_rejected_call_is_a_frame_witness :
    (⟨3, 3, .Open, 100, 10⟩ : CircuitBreakerRoundTripper).state = .Open ∧
      (RoundTrip ⟨3, 3, .Open, 100, 10⟩ (okCall 105)).resp = none ∧
      (RoundTrip ⟨3, 3, .Open, 100, 10⟩ (okCall 105)).err = some "circuit breaker is open" ∧
      (RoundTrip ⟨3, 3, .Open, 100, 10⟩ (okCall 105)).cb.state = .Open ∧
      (RoundTrip ⟨3, 3, .Open, 100, 10⟩ (okCall 105)).cb.failures = 3 ∧
      (RoundTrip ⟨3, 3, .Open, 100, 10⟩ (okCall 105)).cb.lastFailure = 100 ∧
      (RoundTrip ⟨3, 3, .Open, 100, 10⟩ (okCall 105)).cb = ⟨3, 3, .Open, 100, 10⟩ ∧
      ∀ (more : List Attempt) (next : Attempt),
        (∀ b ∈ more, (RoundTrip ⟨3, 3, .Open, 100, 10⟩ b).invoked = false) →
        afterCalls ⟨3, 3, .Open, 100, 10⟩ more = ⟨3, 3, .Open, 100, 10⟩ ∧
          RoundTrip (afterCalls ⟨3, 3, .Open, 100, 10⟩ more) next =
            RoundTrip ⟨3, 3, .Open, 100, 10⟩ next :=
  C29_rejected_call_is_a_frame ⟨3, 3, .Open, 100, 10⟩ (okCall 105) (by decide)

/-! ## C30: the status check of `SendEmail` -/

/-- Whatever the status code of a response that the client returns without error, `SendEmail`
returns nil: the branch for a status outside [200, 400) returns the variable `err`, which is
nil there. -/
theorem SendEmail_nil_on_any_status (marshal : String → String → Except String String)
    (Do : email.HTTPRequest → Option Response × Option String) (address text body : String)
    (resp : Response) (hbody : marshal address text = .ok body)
    (hdo : Do ⟨"POST", "https://example.com/send-email", "application/json", body⟩ =
      (some resp, none)) :
    email.SendEmail marshal Do address text = .returned none := by
  simp [email.SendEmail, hbody, hdo]

/-- C30, evaluated: with a client that answers status 500 without a transport error,
`SendEmail` returns nil; it does so for status 199 and 404 too, as it does for status 200. -/
theorem C30_bad_status_returns_nil :
    email.SendEmail email.sampleMarshal (fun _ => (some ⟨500⟩, none)) "a@example.com" "hi" =
        .returned none ∧
      email.SendEmail email.sampleMarshal (fun _ => (some ⟨199⟩, none)) "a@example.com" "hi" =
        .returned none ∧
      email.SendEmail email.sampleMarshal (fun _ => (some ⟨404⟩, none)) "a@example.com" "hi" =
        .returned none ∧
      email.SendEmail email.sampleMarshal (fun _ => (some ⟨200⟩, none)) "a@example.com" "hi" =
        .returned none := by
  decide

end TaskTracker
